/-
  Verification of the tomviz DataSource state machine (DataSource.cxx) and
  the OME-TIFF decoder (vtkOMETiffReader.cxx) against their natural-language
  specification.

  The development is a shallow embedding: C++ functions become Lean
  functions, the mutable DataSource object becomes an explicit state record,
  and buffers written through pointers become explicit stores.  Machine
  integers are modelled by Int/Nat, with explicit wrap-around (mod 2^32)
  where C++ unsigned arithmetic can overflow.  Fallible operations (invalid
  pointer dereference, out-of-bounds container access) return Option.
-/
import Mathlib

namespace Tomviz

/-! ## A model of QMap with QString keys

QMap is a key-sorted associative container; we model it as a key-sorted
association list, which makes its representation canonical, as for QMap. -/

abbrev QMapSS := List (String × String)

def qmGet (m : QMapSS) (k : String) : Option String :=
  match m with
  | [] => none
  | (k2, v) :: t => if k = k2 then some v else qmGet t k

/-- QMap::remove. -/
def qmRemove (m : QMapSS) (k : String) : QMapSS :=
  m.filter (fun p => p.1 ≠ k)

/-- QMap insertion, keeping the list sorted by key. -/
def qmInsert (m : QMapSS) (k v : String) : QMapSS :=
  match m with
  | [] => [(k, v)]
  | (k2, v2) :: t =>
    if k < k2 then (k, v) :: (k2, v2) :: t
    else if k = k2 then (k, v) :: t
    else (k2, v2) :: qmInsert t k v

def qmKeys (m : QMapSS) : List String := m.map (·.1)

/-- Strict key-sortedness: QMap's canonical representation invariant. -/
def qmSorted (m : QMapSS) : Prop := List.Chain' (fun p q => p.1 < q.1) m

instance (m : QMapSS) : Decidable (qmSorted m) :=
  inferInstanceAs (Decidable (List.Chain' (fun p q : String × String => p.1 < q.1) m))

/-! ## The data model of DataSource.cxx

vtkImageData together with the field-data arrays tomviz attaches to it
(tomviz_data_source_type, tilt_angles, units, subsample provenance). -/

/-- Inclusive voxel-index bounding box [x0,x1,y0,y1,z0,z1]. -/
structure Extent where
  x0 : Int
  x1 : Int
  y0 : Int
  y1 : Int
  z0 : Int
  z1 : Int
deriving DecidableEq

/-- A named vtk point-data array.  Storage cells hold none while
uninitialized (freshly allocated memory). -/
structure ScalarArray where
  name : String
  numComponents : Int
  numTuples : Int
  data : List (Option Int)
deriving DecidableEq

/-- vtkImageData plus the tomviz field-data tags that travel with it. -/
structure ImageData where
  extent : Extent
  spacing : Int × Int × Int
  pointArrays : List ScalarArray
  /-- name of the designated active scalars array (GetScalars). -/
  active : Option String
  /-- tomviz_data_source_type field-data array (single int8 tuple). -/
  typeTag : Option Int
  /-- tilt_angles field-data array (vtkDoubleArray). -/
  tiltAngles : Option (List Int)
  /-- units field-data array (3 strings). -/
  unitsFd : Option (String × String × String)
  /-- was_subsampled field-data array. -/
  wasSub : Bool
  subStrides : Int × Int × Int
  subBounds : Extent
deriving DecidableEq

/-- DataSourceType enum: Volume = 0, TiltSeries = 1, FIB = 2. -/
def volumeType : Int := 0
def tiltSeriesType : Int := 1
def fibType : Int := 2

/-- Diagnostics reported through qWarning / qCritical. -/
inductive Diag where
  | indexOutOfRange
deriving DecidableEq

/-- The mutable state of one DataSource object: the producer output image,
the DSInternals fields, and the m_json entries relevant to this spec. -/
structure DataSourceModel where
  image : ImageData
  dsType : Int
  mLabel : Option String
  fileName : String
  unitsModified : Bool
  currentToOriginal : QMapSS
  /-- operator chain; operators themselves are external, only the chain
  length/content identity matters here. -/
  operators : List String
  timeSteps : List ImageData
  currentTimeStep : Int
  changingTimeStep : Bool
  displayPosition : Int × Int × Int
  displayOrientation : Int × Int × Int
  /-- Internals->Units (value at index 0 repeated: setUnits writes all three
  entries with one value). -/
  unitsInternal : Option (String × String × String)
deriving DecidableEq

def listScalars (img : ImageData) : List String := img.pointArrays.map (·.name)

/-- DataSource::activeScalars(): name of the active scalars array. -/
def activeScalarsName (s : DataSourceModel) : String := s.image.active.getD ""

/-- Stand-in for QFileInfo::baseName (external); its exact value never
matters to the properties proved below. -/
def fileBaseName (fn : String) : String := fn

/-- DataSource::label(): the explicit label, else the file base name. -/
def labelOf (s : DataSourceModel) : String :=
  s.mLabel.getD (fileBaseName s.fileName)

/-! ## Tilt-angle helpers (DataSource.cxx lines 56-77, 1639-1713) -/

/-- Modelled from the spec: vtkDataArray::SetNumberOfTuples is external VTK
code; per the spec, resizing the tilt-angle array preserves its existing
values and zero-fills newly added slots. -/
def resizeArray (arr : List Int) (n : Nat) : List Int :=
  arr.take n ++ List.replicate (n - arr.length) 0

/-- Number of z slices of the extent, extent[5] - extent[4] + 1. -/
def zCount (e : Extent) : Int := e.z1 - e.z0 + 1

/-- createOrResizeTiltAnglesArray (anonymous namespace, lines 56-77). -/
def createOrResizeTiltAnglesArray (img : ImageData) : ImageData :=
  let numTiltAngles := zCount img.extent
  match img.tiltAngles with
  | none => { img with tiltAngles := some (List.replicate numTiltAngles.toNat 0) }
  | some arr =>
    if numTiltAngles ≠ (arr.length : Int) then
      { img with tiltAngles := some (resizeArray arr numTiltAngles.toNat) }
    else img

/-- static DataSource::setType(vtkDataObject*, DataSourceType): stamps the
type tag; clears tilt angles when the type is not TiltSeries. -/
def setTypeOnImage (img : ImageData) (t : Int) : ImageData :=
  let img2 := { img with typeTag := some t }
  if t ≠ tiltSeriesType then { img2 with tiltAngles := none } else img2

/-- DataSource::setType(DataSourceType) (lines 1335-1344). -/
def setTypeOp (s : DataSourceModel) (t : Int) : DataSourceModel :=
  let s1 := { s with dsType := t, image := setTypeOnImage s.image t }
  if t = tiltSeriesType then
    { s1 with image := createOrResizeTiltAnglesArray s1.image }
  else s1

/-- DataSource::dataModified() (lines 1048-1090): re-reads the type tag from
field data (re-stamping it when absent) and re-runs setType. -/
def dataModifiedOp (s : DataSourceModel) : DataSourceModel :=
  match s.image.typeTag with
  | some t => setTypeOp s t
  | none => { s with image := { s.image with typeTag := some s.dsType } }

/-- static DataSource::setTiltAngles(vtkDataObject*, angles)
(lines 1639-1651): resize to the z extent, then copy the given values over
the first min(numTuples, angles.size()) slots. -/
def setTiltAnglesOnImage (img : ImageData) (angles : List Int) : ImageData :=
  let img2 := createOrResizeTiltAnglesArray img
  match img2.tiltAngles with
  | none => img2
  | some arr =>
    let arr2 := (List.range arr.length).map (fun i =>
      if i < angles.length then angles.getD i 0 else arr.getD i 0)
    { img2 with tiltAngles := some arr2 }

/-- DataSource::setTiltAngles(angles) (lines 1359-1364). -/
def setTiltAnglesOp (s : DataSourceModel) (angles : List Int) : DataSourceModel :=
  { s with image := setTiltAnglesOnImage s.image angles }

/-! ## Active scalars and renames (lines 788-937) -/

/-- DataSource::setActiveScalars(name) (lines 788-809): no-op with a warning
when the named array does not exist; otherwise designates it active and runs
dataModified. -/
def setActiveScalarsOp (s : DataSourceModel) (name : String) : DataSourceModel :=
  if name ∈ listScalars s.image then
    dataModifiedOp { s with image := { s.image with active := some name } }
  else s

/-- DataSource::renameScalarsArray(oldName, newName) (lines 883-917). -/
def renameScalarsArrayOp (s : DataSourceModel) (oldName newName : String) :
    DataSourceModel :=
  if oldName = newName then s
  else
    let isCurrentScalars := oldName = activeScalarsName s
    if oldName ∉ listScalars s.image then s
    else if newName ∈ listScalars s.image then s
    else
      let renamed := s.image.pointArrays.map
        (fun a => if a.name = oldName then { a with name := newName } else a)
      let img := { s.image with pointArrays := renamed }
      let s1 := { s with image := img }
      let s2 := if isCurrentScalars then setActiveScalarsOp s1 newName
                else dataModifiedOp s1
      -- QMap::operator[] on a missing key inserts a default value; the net
      -- effect of the lookup/remove/insert sequence is as below.
      let o := (qmGet s2.currentToOriginal oldName).getD ""
      { s2 with currentToOriginal :=
          qmInsert (qmRemove s2.currentToOriginal oldName) newName o }

/-! ## Time-series steps (lines 1242-1268) -/

/-- Outcome of switchTimeSeriesStep.  QList::operator[] requires
0 <= i < size; an index that passes the guard but is negative reaches that
out-of-bounds access (undefined behavior), recorded here together with the
state already mutated at that point. -/
inductive SwitchOutcome where
  | ok (s : DataSourceModel)
  | rejected (s : DataSourceModel) (d : Diag)
  | invalidAccess (s : DataSourceModel)
deriving DecidableEq

/-- DataSource::switchTimeSeriesStep(int i) (lines 1242-1258).  The guard
only checks i >= size; negative i proceeds to the QList access. -/
def switchTimeSeriesStepOp (s : DataSourceModel) (i : Int) : SwitchOutcome :=
  if i ≥ (s.timeSteps.length : Int) then .rejected s .indexOutOfRange
  else
    let s1 := { s with changingTimeStep := true, currentTimeStep := i }
    if i < 0 then .invalidAccess s1
    else
      match s1.timeSteps[i.toNat]? with
      | some img =>
        let s2 := dataModifiedOp { s1 with image := img }
        .ok { s2 with changingTimeStep := false }
      | none => .invalidAccess s1

def numTimeSeriesSteps (s : DataSourceModel) : Int := s.timeSteps.length

def currentTimeSeriesIndex (s : DataSourceModel) : Int := s.currentTimeStep

/-! ## appendSlice (lines 186-260)

Raw memory is modelled explicitly: AllocateScalars yields fresh storage
whose cells are none, memcpy writes a contiguous range, and writing outside
the allocation (or through a null pointer) is undefined behavior, modelled
as none for the whole operation. -/

/-- GetPointData()->GetScalars(): the designated active array. -/
def getScalars (img : ImageData) : Option ScalarArray :=
  match img.active with
  | none => none
  | some n => img.pointArrays.find? (fun a => a.name = n)

/-- memcpy into a flat allocation; none when the write runs past the end of
the allocation (heap overflow, undefined behavior). -/
def writeRange (dst : List (Option Int)) (off : Nat) (src : List (Option Int)) :
    Option (List (Option Int)) :=
  if off + src.length ≤ dst.length then
    some (dst.take off ++ src ++ dst.drop (off + src.length))
  else none

/-- vtkImageData::GetScalarPointer(x, y, z) as an element offset.  VTK
bounds-checks the coordinate against the extent and returns a null pointer
(here none) when it lies outside. -/
def getScalarPointerOffset (e : Extent) (ncomp : Int) (x y z : Int) : Option Int :=
  if x < e.x0 ∨ x > e.x1 ∨ y < e.y0 ∨ y > e.y1 ∨ z < e.z0 ∨ z > e.z1 then none
  else
    let ny := e.y1 - e.y0 + 1
    let nx := e.x1 - e.x0 + 1
    some ((((z - e.z0) * ny + (y - e.y0)) * nx + (x - e.x0)) * ncomp)

/-- Number of tuples of an extent (product of the three dimensions). -/
def extentTuples (e : Extent) : Int :=
  (e.x1 - e.x0 + 1) * (e.y1 - e.y0 + 1) * (e.z1 - e.z0 + 1)

/-- appendImageData (lines 186-220): copy the old scalars aside, grow the z
extent, reallocate destructively, copy the old bytes back, then copy the
slice scalars at GetScalarPointer(0, 0, extents[5]). -/
def appendImageData (data : ImageData) (slice : ImageData) : Option ImageData := do
  let arr ← getScalars data
  let bufferSize := (arr.numTuples * arr.numComponents).toNat
  -- memcpy(buffer, originalPtr, bufferSize): reading past the allocation is
  -- undefined behavior.
  if bufferSize ≤ arr.data.length then
    let buffer := arr.data.take bufferSize
    let newExt := { data.extent with z1 := data.extent.z1 + 1 }
    let newTuples := extentTuples newExt
    let fresh : List (Option Int) := List.replicate (newTuples * arr.numComponents).toNat none
    let afterOld ← writeRange fresh 0 buffer
    let offset ← getScalarPointerOffset newExt arr.numComponents 0 0 newExt.z1
    let sliceArr ← getScalars slice
    let sliceSize := (sliceArr.numTuples * sliceArr.numComponents).toNat
    if sliceSize ≤ sliceArr.data.length then
      let afterSlice ← writeRange afterOld offset.toNat (sliceArr.data.take sliceSize)
      let newArr := { arr with numTuples := newTuples, data := afterSlice }
      let newArrays := data.pointArrays.map (fun a => if a.name = arr.name then newArr else a)
      some { data with extent := newExt, pointArrays := newArrays }
    else none
  else none

/-- DataSource::appendSlice(slice) (lines 222-260).  The result is none when
the underlying memcpy dance reaches undefined behavior. -/
def appendSliceOp (s : DataSourceModel) (slice : Option ImageData) :
    Option (DataSourceModel × Bool) :=
  match slice with
  | none => some (s, false)
  | some sl =>
    let e := s.image.extent
    let se := sl.extent
    if e.x0 = se.x0 ∧ e.x1 = se.x1 ∧ e.y0 = se.y0 ∧ e.y1 = se.y1 then
      match appendImageData s.image sl with
      | some img2 => some ({ s with image := img2 }, true)
      | none => none
    else some (s, false)

/-! ## setData (lines 1155-1195) -/

def seedIdentityMap (names : List String) : QMapSS :=
  names.foldl (fun m n => qmInsert m n n) []

/-- DataSource::setData(newData): swap the producer output, synchronize the
type tag / tilt angles / units, reseed the rename-tracking map, then
dataModified. -/
def setDataOp (s : DataSourceModel) (newData : ImageData) : DataSourceModel :=
  let s0 := { s with image := newData }
  let s1 :=
    match newData.typeTag with
    | some t =>
      if t = tiltSeriesType then
        { s0 with dsType := tiltSeriesType,
                  image := createOrResizeTiltAnglesArray s0.image }
      else if t = fibType then { s0 with dsType := fibType }
      else { s0 with dsType := volumeType }
    | none => { s0 with dsType := volumeType }
  let s2 :=
    match s1.image.unitsFd with
    | some u => { s1 with unitsInternal := some u }
    | none =>
      match s1.unitsInternal with
      | some u => { s1 with image := { s1.image with unitsFd := some u } }
      | none => s1
  let s3 := { s2 with image := { s2.image with typeTag := some s2.dsType } }
  let s4 := { s3 with currentToOriginal := seedIdentityMap (listScalars s3.image) }
  dataModifiedOp s4

/-! ## Units and display placement (lines 742-774, 965-989, 1120-1143) -/

def setSpacingOp (s : DataSourceModel) (sp : Int × Int × Int) (markModified : Bool) :
    DataSourceModel :=
  let s1 := if markModified then { s with unitsModified := true } else s
  { s1 with image := { s1.image with spacing := sp } }

def setUnitsOp (s : DataSourceModel) (u : String) (markModified : Bool) :
    DataSourceModel :=
  let s1 := if markModified then { s with unitsModified := true } else s
  { s1 with unitsInternal := some (u, u, u),
            image := { s1.image with unitsFd := some (u, u, u) } }

def setDisplayPositionOp (s : DataSourceModel) (p : Int × Int × Int) : DataSourceModel :=
  { s with displayPosition := p }

def setDisplayOrientationOp (s : DataSourceModel) (p : Int × Int × Int) : DataSourceModel :=
  { s with displayOrientation := p }

def setLabelOp (s : DataSourceModel) (l : String) : DataSourceModel :=
  { s with mLabel := some l }

/-! ## serialize / deserialize (lines 447-667)

The JSON document is modelled as a record; a field whose key is set only
conditionally is an Option.  Color/opacity transfer-function state,
colorMap2DBox, the session-local id and the active marker are external
producer/proxy state and do not interact with the properties below. -/

structure SerializedDoc where
  label : Option String
  subsampleSettings : Option ((Int × Int × Int) × Extent)
  spacing : Option (Int × Int × Int)
  units : Option String
  origin : Option (Int × Int × Int)
  orientation : Option (Int × Int × Int)
  activeScalars : Option String
  /-- scalarsRename, inverted: original name to current name (QJsonObject,
  key-sorted like QMap). -/
  scalarsRename : Option QMapSS
  operators : Option (List String)
  modules : Option (List String)
deriving DecidableEq

/-- Invert CurrentToOriginal: scalarsRename[original] = current. -/
def invertRenameMap (m : QMapSS) : QMapSS :=
  m.foldl (fun acc p => qmInsert acc p.2 p.1) []

/-- DataSource::serialize() (lines 447-525).  The module list is owned by
the external ModuleManager and passed in. -/
def serializeOp (s : DataSourceModel) (modules : List String) : SerializedDoc :=
  { label := some (labelOf s)
    subsampleSettings :=
      if s.image.wasSub then some (s.image.subStrides, s.image.subBounds) else none
    spacing := if s.unitsModified then some s.image.spacing else none
    units :=
      if s.unitsModified then
        match s.unitsInternal with
        | some u => some u.1
        | none => none
      else none
    origin := some s.displayPosition
    orientation := some s.displayOrientation
    activeScalars := some (activeScalarsName s)
    scalarsRename := some (invertRenameMap s.currentToOriginal)
    operators := if s.operators.isEmpty then none else some s.operators
    modules := if modules.isEmpty then none else some modules }

/-- DataSource::deserialize(state) (lines 544-667), for documents without
operators and modules (the operator/module branches delegate to external
factories and the pipeline executor, out of scope here; the claims below
only quantify over operator- and module-free sources). -/
def deserializeOp (s : DataSourceModel) (doc : SerializedDoc) : DataSourceModel :=
  let s1 := match doc.label with
            | some l => setLabelOp s l
            | none => s
  let s2 := match doc.scalarsRename with
            | some m => m.foldl (fun st p => renameScalarsArrayOp st p.1 p.2) s1
            | none => s1
  let s3 := match doc.activeScalars with
            | some n => setActiveScalarsOp s2 n
            | none => s2
  let s4 := match doc.spacing with
            | some sp => setSpacingOp s3 sp true
            | none => s3
  let s5 := match doc.units with
            | some u => setUnitsOp s4 u true
            | none => s4
  let s6 := match doc.origin with
            | some p => setDisplayPositionOp s5 p
            | none => s5
  let s7 := match doc.orientation with
            | some p => setDisplayOrientationOp s6 p
            | none => s6
  s7

/-! # The OME-TIFF reader (vtkOMETiffReader.cxx)

## Row flip helpers (lines 29-49)

The two C++ overloads selected by the FlipTrue / FlipFalse tag types are
merged into one definition on Bool. -/

def GetFileRow (row height : Int) (flip : Bool) : Int :=
  if flip then height - row - 1 else row

/-- Inverse of GetFileRow, which is the same as calling GetFileRow again. -/
def GetImageRow (fileRow height : Int) (flip : Bool) : Int :=
  GetFileRow fileRow height flip

/-! ## Colors, formats and per-pixel evaluation (lines 557-580, 703-811,
1402-1457) -/

/-- The TIFF colormap: three arrays of 16-bit entries. -/
structure ColorMap16 where
  red : List Nat
  green : List Nat
  blue : List Nat

inductive Photometric where
  | miniswhite | minisblack | rgb | palette | ycbcr | mask | separated
deriving DecidableEq

inductive ImageFormat where
  | noformat | rgb | grayscale | paletteRgb | paletteGrayscale | other
deriving DecidableEq

/-- Output scalar types chosen by ExecuteInformation. -/
inductive VtkScalarType where
  | schar | uchar | short | ushort | int32 | uint32 | float32
deriving DecidableEq

/-- Width in bytes of the output scalar type. -/
def scalarWidthBytes : VtkScalarType → Nat
  | .schar => 1
  | .uchar => 1
  | .short => 2
  | .ushort => 2
  | _ => 4

/-- A value stored into a cell of type T keeps its low 8*width bits. -/
def storeTrunc (t : VtkScalarType) (v : Nat) : Nat :=
  v % 2 ^ (8 * scalarWidthBytes t)

/-- vtkOMETiffReader::GetColor (lines 740-811): zero unless the index is in
range and BitsPerSample is one of 1, 2, 4, 8, 16; otherwise the colormap
entries (TotalColors = 2^BitsPerSample). -/
def getColor (bits : Nat) (cm : ColorMap16) (index : Int) : Nat × Nat × Nat :=
  if index < 0 then (0, 0, 0)
  else if ¬ (bits = 1 ∨ bits = 2 ∨ bits = 4 ∨ bits = 8 ∨ bits = 16) then (0, 0, 0)
  else if index ≥ ((2 ^ bits : Nat) : Int) then (0, 0, 0)
  else (cm.red.getD index.toNat 0, cm.green.getD index.toNat 0,
        cm.blue.getD index.toNat 0)

/-- vtkOMETiffReader::GetFormat (lines 704-737). -/
def getFormat (photo : Photometric) (bits : Nat) (cm : ColorMap16) : ImageFormat :=
  match photo with
  | .rgb => .rgb
  | .ycbcr => .rgb
  | .miniswhite => .grayscale
  | .minisblack => .grayscale
  | .palette =>
    if (List.range 256).any (fun cc =>
        let c := getColor bits cm (cc : Int)
        c.1 ≠ c.2.1 ∨ c.1 ≠ c.2.2) then
      .paletteRgb
    else .paletteGrayscale
  | _ => .other

/-- Scalar-type selection in ExecuteInformation (lines 557-580). -/
def chooseScalarType (bits : Nat) (sampleFormat : Int) : Option VtkScalarType :=
  if bits ≤ 8 then some (if sampleFormat = 2 then .schar else .uchar)
  else if bits ≤ 16 then some (if sampleFormat = 2 then .short else .ushort)
  else if bits ≤ 32 ∧ sampleFormat ≤ 2 then
    some (if sampleFormat = 2 then .int32 else .uint32)
  else if bits ≤ 32 ∧ sampleFormat = 3 then some .float32
  else none

/-- A store through an unsigned char pointer aliasing a cell of type T: for
a one-byte T it stores the byte; for a wider T only the low byte of the
cell is written, leaving the rest of the fresh cell indeterminate (none). -/
def byteStore (t : VtkScalarType) (v : Nat) : Option Nat :=
  if scalarWidthBytes t = 1 then some (v % 256) else none

/-- vtkOMETiffReader::EvaluateImageAt (lines 1402-1457): the list of values
written at out+0, out+1, ... and the returned increment.  src is the
scanline viewed as an array of T elements, srcOff the element offset of the
pixel.  In the PALETTE_RGB case the first three stores (red<<8 and friends)
are overwritten by the branch on the data scalar type, so only the branch
result is kept. -/
def evaluateImageAt (fmt : ImageFormat) (photo : Photometric) (spp : Nat)
    (bits : Nat) (cm : ColorMap16) (t : VtkScalarType)
    (src : Nat → Nat) (srcOff : Nat) : List (Option Nat) × Nat :=
  match fmt with
  | .grayscale =>
    if photo = .minisblack then ([some (storeTrunc t (src srcOff))], 1)
    else ([byteStore t (255 - src srcOff % 256)], 1)
  | .paletteGrayscale =>
    let c := getColor bits cm ((src srcOff % 256 : Nat) : Int)
    ([byteStore t (c.1 % 256)], 1)
  | .rgb =>
    let base := [byteStore t (src srcOff % 256), byteStore t (src (srcOff + 1) % 256),
                 byteStore t (src (srcOff + 2) % 256)]
    if spp = 4 then (base ++ [byteStore t (255 - src (srcOff + 3) % 256)], spp)
    else (base, spp)
  | .paletteRgb =>
    let c := getColor bits cm ((src srcOff : Nat) : Int)
    if t = .short ∨ t = .ushort then
      ([some (storeTrunc t (c.1 * 2 ^ 8)), some (storeTrunc t (c.2.1 * 2 ^ 8)),
        some (storeTrunc t (c.2.2 * 2 ^ 8))], 3)
    else
      ([some (storeTrunc t (c.1 / 2 ^ 8)), some (storeTrunc t (c.2.1 / 2 ^ 8)),
        some (storeTrunc t (c.2.2 / 2 ^ 8))], 3)
  | _ => ([], 0)

/-! ## Explicit stores and loops

Output buffers are flat element stores; a cell holds none until written (or
when an indeterminate value was written through an aliasing byte pointer).
C++ for-loops become iterFrom (pure bodies) or loopE (bodies that can fail,
aborting the remaining iterations as an early return does). -/

abbrev Store := Nat → Option Nat

def emptyStore : Store := fun _ => none

/-- memcpy of n elements from src (read at srcOff + k) into b at dstOff. -/
def storeWrite (b : Store) (dstOff : Nat) (src : Nat → Nat) (srcOff n : Nat) :
    Store :=
  fun i => if dstOff ≤ i ∧ i < dstOff + n then some (src (srcOff + (i - dstOff))) else b i

/-- Write a list of (possibly indeterminate) values at consecutive cells. -/
def storeWriteList (b : Store) (dstOff : Nat) (vals : List (Option Nat)) : Store :=
  fun i => if dstOff ≤ i ∧ i < dstOff + vals.length then vals.getD (i - dstOff) none
           else b i

/-- Run step k, step (k+1), ..., step (k+n-1) in order. -/
def iterFrom (step : Nat → Store → Store) : Nat → Nat → Store → Store
  | 0, _, b => b
  | n + 1, k, b => iterFrom step n (k + 1) (step k b)

/-- Run fallible steps in order; a failing step aborts the rest (the C++
code returns from the enclosing function on failure). -/
def loopE (step : Nat → Store → Store × Bool) : Nat → Nat → Store × Bool → Store × Bool
  | 0, _, sb => sb
  | n + 1, k, sb => if sb.2 then loopE step n (k + 1) (step k sb.1) else sb

/-- 32-bit unsigned subtraction (C++ unsigned int wrap-around). -/
def usub32 (a b : Nat) : Nat := if b ≤ a then a - b else a + 2 ^ 32 - b

/-- Iteration count of a C++ loop for (v = 0; v < bound; v += st). -/
def stepCount (bound st : Nat) : Nat := (bound + st - 1) / st

/-! ## ReadTiles (lines 925-1054) -/

/-- A tiled single-directory TIFF: dimensions, tile grid, pixel size
(SamplesPerPixel, in bytes per pixel for 8-bit samples), page count, and
the pixel content px (file row, byte column within the row). -/
structure TiledTiff where
  width : Nat
  height : Nat
  tileWidth : Nat
  tileHeight : Nat
  pixelSize : Nat
  pages : Nat
  /-- Orientation != ORIENTATION_TOPLEFT. -/
  flip : Bool
  px : Nat → Nat → Nat

/-- libtiff TIFFReadTile: fails when the coordinate lies outside the image
(TIFFCheckTile; the z coordinate must be 0 since ImageDepth is 1); on
success yields the raw tile whose origin is the coordinate rounded down to
the tile grid. -/
def tiffReadTile (f : TiledTiff) (x y z : Nat) : Option (Nat → Nat) :=
  if x < f.width ∧ y < f.height ∧ z < 1 then
    let xbase := x / f.tileWidth * f.tileWidth
    let ybase := y / f.tileHeight * f.tileHeight
    some (fun idx =>
      let yy := idx / (f.tileWidth * f.pixelSize)
      let rem := idx % (f.tileWidth * f.pixelSize)
      f.px (ybase + yy) (xbase * f.pixelSize + rem))
  else none

/-- Loop bound of the main/right-edge row loops:
(rowMultiple ? height : height - tileHeight), in unsigned arithmetic. -/
def rowBound (f : TiledTiff) : Nat :=
  if f.height % f.tileHeight = 0 then f.height else usub32 f.height f.tileHeight

/-- Loop bound of the main/bottom column loops. -/
def colBound (f : TiledTiff) : Nat :=
  if f.width % f.tileWidth = 0 then f.width else usub32 f.width f.tileWidth

/-- Main pass, inner copy loop over the tile rows yy. -/
def mainYY (f : TiledTiff) (slice row col : Nat) (tile : Nat → Nat)
    (yy : Nat) (b : Store) : Store :=
  let y := if f.flip then f.tileHeight + f.height % f.tileHeight - yy - 1 else yy
  storeWrite b (((slice * f.height + row + y) * f.width + col) * f.pixelSize)
    tile (yy * f.tileWidth * f.pixelSize) (f.tileWidth * f.pixelSize)

/-- Main pass, one column iteration: read the tile at (col, r, slice) and
scatter it. -/
def mainCol (f : TiledTiff) (slice row : Nat) (i : Nat) (b : Store) :
    Store × Bool :=
  let col := i * f.tileWidth
  let r := if f.flip then usub32 (usub32 f.height row) f.tileHeight else row
  match tiffReadTile f col r slice with
  | some tile => (iterFrom (mainYY f slice row col tile) f.tileHeight 0 b, true)
  | none => (b, false)

def mainRow (f : TiledTiff) (slice : Nat) (j : Nat) (b : Store) : Store × Bool :=
  loopE (mainCol f slice (j * f.tileHeight))
    (stepCount (colBound f) f.tileWidth) 0 (b, true)

def mainSlice (f : TiledTiff) (slice : Nat) (b : Store) : Store × Bool :=
  loopE (mainRow f slice) (stepCount (rowBound f) f.tileHeight) 0 (b, true)

/-- Right-edge pass: the partial rightmost tile column; copies only
tilexWidth = width mod tileWidth pixels per row and always targets slice 0. -/
def rightYY (f : TiledTiff) (row col : Nat) (tile : Nat → Nat)
    (yy : Nat) (b : Store) : Store :=
  let y := if f.flip then f.tileHeight + f.height % f.tileHeight - yy - 1 else yy
  storeWrite b (((0 * f.height + row + y) * f.width + col) * f.pixelSize)
    tile (yy * f.tileWidth * f.pixelSize) (f.width % f.tileWidth * f.pixelSize)

def rightRow (f : TiledTiff) (j : Nat) (b : Store) : Store × Bool :=
  let row := j * f.tileHeight
  let col := f.width - f.width % f.tileWidth
  let r := if f.flip then usub32 (usub32 (usub32 f.height row) f.tileHeight) 1
           else row
  match tiffReadTile f col r 0 with
  | some tile => (iterFrom (rightYY f row col tile) f.tileHeight 0 b, true)
  | none => (b, false)

/-- Bottom-edge pass: the partial bottom tile row; reads the tile at the
unflipped row coordinate and writes leny = height mod tileHeight rows. -/
def bottomYY (f : TiledTiff) (r col : Nat) (tile : Nat → Nat)
    (yy : Nat) (b : Store) : Store :=
  let leny := f.height % f.tileHeight
  let y := if f.flip then leny - yy - 1 else yy
  storeWrite b (((0 * f.height + r + y) * f.width + col) * f.pixelSize)
    tile (yy * f.tileWidth * f.pixelSize) (f.tileWidth * f.pixelSize)

def bottomCol (f : TiledTiff) (i : Nat) (b : Store) : Store × Bool :=
  let col := i * f.tileWidth
  let leny := f.height % f.tileHeight
  let row := f.height - leny
  let r := if f.flip then 0 else row
  match tiffReadTile f col row 0 with
  | some tile => (iterFrom (bottomYY f r col tile) leny 0 b, true)
  | none => (b, false)

/-- Corner pass: the partial corner tile. -/
def cornerYY (f : TiledTiff) (r col : Nat) (tile : Nat → Nat)
    (yy : Nat) (b : Store) : Store :=
  let leny := f.height % f.tileHeight
  let y := if f.flip then leny - yy - 1 else yy
  storeWrite b (((0 * f.height + r + y) * f.width + col) * f.pixelSize)
    tile (yy * f.tileWidth * f.pixelSize) (f.width % f.tileWidth * f.pixelSize)

def cornerPass (f : TiledTiff) (b : Store) : Store × Bool :=
  let col := f.width - f.width % f.tileWidth
  let leny := f.height % f.tileHeight
  let row := f.height - leny
  let r := if f.flip then 0 else row
  match tiffReadTile f col row 0 with
  | some tile => (iterFrom (cornerYY f r col tile) leny 0 b, true)
  | none => (b, false)

/-- Sequence two fallible phases: the second runs only if the first
succeeded (the C++ code returns early otherwise). -/
def andThenE (sb : Store × Bool) (g : Store → Store × Bool) : Store × Bool :=
  if sb.2 then g sb.1 else sb

/-- vtkOMETiffReader::ReadTiles (lines 925-1054): the main pass over all
slices, then — only for the first slice — the right-edge, bottom-edge and
corner passes for partial boundary tiles. -/
def readTiles (f : TiledTiff) : Store × Bool :=
  let afterMain := loopE (mainSlice f) f.pages 0 (emptyStore, true)
  let afterRight :=
    if f.width % f.tileWidth = 0 then afterMain
    else andThenE afterMain (fun b =>
      loopE (rightRow f) (stepCount (rowBound f) f.tileHeight) 0 (b, true))
  let afterBottom :=
    if f.height % f.tileHeight = 0 then afterRight
    else andThenE afterRight (fun b =>
      loopE (bottomCol f) (stepCount (colBound f) f.tileWidth) 0 (b, true))
  if f.width % f.tileWidth = 0 ∨ f.height % f.tileHeight = 0 then afterBottom
  else andThenE afterBottom (cornerPass f)

/-- The untiled scanline-based reference decode of the same pixel content:
output row d takes the file row selected by the orientation flip, exactly
as in the scanline paths of the reader. -/
def scanlineReference (f : TiledTiff) (d c : Nat) : Nat :=
  f.px (if f.flip then f.height - d - 1 else d) c

/-! ## ReadGenericImage, contiguous per-pixel path (lines 1260-1290), and
the fast path ReadTemplatedImage (lines 84-135)

Both are modelled at the full output extent (OutputExtent =
[0,w-1] x [0,h-1]), where OutputIncrements = (ncomp, ncomp*width). -/

/-- One slice of scanline content: file row, element offset, value. -/
structure ScanImage where
  width : Nat
  height : Nat
  spp : Nat
  bits : Nat
  photo : Photometric
  cm : ColorMap16
  t : VtkScalarType
  /-- Orientation != ORIENTATION_TOPLEFT. -/
  flip : Bool
  /-- number of output scalar components (OutputIncrements[0]). -/
  outNcomp : Nat
  scan : Nat → Nat → Nat

/-- One row of the per-pixel loop: pixel ix writes the values produced by
EvaluateImageAt at out + row*inc1 + ix*inc0. -/
def genericPixelStep (g : ScanImage) (fileRow row : Nat) (ix : Nat) (b : Store) :
    Store :=
  storeWriteList b (row * (g.outNcomp * g.width) + ix * g.outNcomp)
    (evaluateImageAt (getFormat g.photo g.bits g.cm) g.photo g.spp g.bits g.cm g.t
      (g.scan fileRow) (ix * g.spp)).1

/-- One row iteration of the PLANARCONFIG_CONTIG loop (lines 1262-1289):
flip the row index into the file, read that scanline, evaluate each pixel. -/
def genericRowStep (g : ScanImage) (row : Nat) (b : Store) : Store :=
  let fileRow := if g.flip then g.height - row - 1 else row
  iterFrom (genericPixelStep g fileRow row) g.width 0 b

/-- The per-pixel contiguous path of ReadGenericImage at full extent. -/
def readGenericImage (g : ScanImage) : Store :=
  iterFrom (genericRowStep g) g.height 0 emptyStore

/-- ReadTemplatedImage (lines 84-135) at full output extent: the scanlines
minFileRow..maxFileRow are read in file order and each is copied whole to
output row GetImageRow(fi); at full extent the direct-copy and
subset-buffer branches write the same cells. -/
def readTemplatedImage (g : ScanImage) : Store :=
  iterFrom (fun fi b =>
      let i := if g.flip then g.height - fi - 1 else fi
      storeWrite b (i * g.width) (g.scan fi) 0 g.width)
    g.height 0 emptyStore

/-! ## ReadTwoSamplesPerPixelImage, contiguous branch (lines 1056-1099 and
1140-1172)

The unsigned char and unsigned short PLANARCONFIG_CONTIG branches are
identical over the element store (the scanline size isize counts elements:
width * SamplesPerPixel; the short branch divides the byte size by 2).  A
running increment inc starts at 1 (line 1067) and is overwritten by every
EvaluateImageAt call; each row's output base is computed from the value
inc holds at that moment, i.e. on every row after the first, from the last
increment returned on the previous row. -/

/-- Inner pixel loop (lines 1091-1098): the state is (output store, output
pointer, inc); pixel ix reads the scanline at element cc = ix * spp,
writes the produced values at the pointer, and advances the pointer by the
returned increment. -/
def twoSppPixels (g : ScanImage) (fr : Nat) :
    Nat → Nat → Store × Nat × Nat → Store × Nat × Nat
  | 0, _, s => s
  | n + 1, ix, s =>
    let r := evaluateImageAt (getFormat g.photo g.bits g.cm) g.photo g.spp
      g.bits g.cm g.t (g.scan fr) (ix * g.spp)
    twoSppPixels g fr n (ix + 1) (storeWriteList s.1 s.2.1 r.1, s.2.1 + r.2, r.2)

/-- One row iteration k of the contiguous branch (lines 1074-1099): the
scanline is read at row k; the output base is row * width * inc for
ORIENTATION_TOPLEFT and width * inc * (height - (row + 1)) otherwise, with
inc the running increment carried in the state. -/
def twoSppRow (g : ScanImage) (k : Nat) (s : Store × Nat) : Store × Nat :=
  let base := if g.flip then g.width * s.2 * (g.height - (k + 1))
              else k * g.width * s.2
  let r := twoSppPixels g k (stepCount (g.width * g.spp) g.spp) 0 (s.1, base, s.2)
  (r.1, r.2.2)

/-- Run row steps threading the increment through the loop. -/
def iterInc (step : Nat → Store × Nat → Store × Nat) :
    Nat → Nat → Store × Nat → Store × Nat
  | 0, _, s => s
  | n + 1, k, s => iterInc step n (k + 1) (step k s)

/-- vtkOMETiffReader::ReadTwoSamplesPerPixelImage (lines 1056-1209),
PLANARCONFIG_CONTIG branch, over a width * SamplesPerPixel element
scanline, with inc initialised to 1 (line 1067). -/
def readTwoSppImage (g : ScanImage) : Store :=
  (iterInc (twoSppRow g) g.height 0 (emptyStore, 1)).1

/-- Derived pure form of one contiguous-branch row when every
EvaluateImageAt increment is 1: file row fi lands at output row
(flip ? height - fi - 1 : fi), one output cell per pixel. -/
def twoSppRowPure (g : ScanImage) (fi : Nat) (b : Store) : Store :=
  iterFrom (fun kk d => storeWriteList d
      ((if g.flip then g.height - fi - 1 else fi) * g.width + kk)
      (evaluateImageAt (getFormat g.photo g.bits g.cm) g.photo g.spp
        g.bits g.cm g.t (g.scan fi) (kk * g.spp)).1)
    (stepCount (g.width * g.spp) g.spp) 0 b

/-! ## Concrete fixtures used by witnesses and counterexamples -/

/-- A 1x1x1 volume with one scalar array. -/
def egImage : ImageData :=
  { extent := ⟨0, 0, 0, 0, 0, 0⟩
    spacing := (1, 1, 1)
    pointArrays := [⟨"Scalars", 1, 1, [some 5]⟩]
    active := some "Scalars"
    typeTag := some 0
    tiltAngles := none
    unitsFd := none
    wasSub := false
    subStrides := (1, 1, 1)
    subBounds := ⟨0, 0, 0, 0, 0, 0⟩ }

/-- A 1x1x1 TiltSeries volume with a one-entry tilt-angle array. -/
def egTiltImage : ImageData :=
  { extent := ⟨0, 0, 0, 0, 0, 0⟩
    spacing := (1, 1, 1)
    pointArrays := [⟨"Scalars", 1, 1, [some 5]⟩]
    active := some "Scalars"
    typeTag := some 1
    tiltAngles := some [0]
    unitsFd := none
    wasSub := false
    subStrides := (1, 1, 1)
    subBounds := ⟨0, 0, 0, 0, 0, 0⟩ }

/-- A 1x1x1 slice to append. -/
def egSliceImage : ImageData :=
  { extent := ⟨0, 0, 0, 0, 0, 0⟩
    spacing := (1, 1, 1)
    pointArrays := [⟨"Scalars", 1, 1, [some 7]⟩]
    active := some "Scalars"
    typeTag := none
    tiltAngles := none
    unitsFd := none
    wasSub := false
    subStrides := (1, 1, 1)
    subBounds := ⟨0, 0, 0, 0, 0, 0⟩ }

/-- A data source holding egImage and a single time-series step. -/
def egDS : DataSourceModel :=
  { image := egImage
    dsType := 0
    mLabel := some "ds"
    fileName := "f.emd"
    unitsModified := false
    currentToOriginal := [("Scalars", "Scalars")]
    operators := []
    timeSteps := [egImage]
    currentTimeStep := 0
    changingTimeStep := false
    displayPosition := (0, 0, 0)
    displayOrientation := (0, 0, 0)
    unitsInternal := none }

/-- A 1x1x1 volume whose x extent starts at 1 instead of 0. -/
def egShiftImage : ImageData :=
  { extent := ⟨1, 1, 0, 0, 0, 0⟩
    spacing := (1, 1, 1)
    pointArrays := [⟨"Scalars", 1, 1, [some 5]⟩]
    active := some "Scalars"
    typeTag := some 0
    tiltAngles := none
    unitsFd := none
    wasSub := false
    subStrides := (1, 1, 1)
    subBounds := ⟨0, 0, 0, 0, 0, 0⟩ }

/-- A matching slice for egShiftImage (same non-zero-based x/y extent). -/
def egShiftSlice : ImageData :=
  { extent := ⟨1, 1, 0, 0, 0, 0⟩
    spacing := (1, 1, 1)
    pointArrays := [⟨"Scalars", 1, 1, [some 7]⟩]
    active := some "Scalars"
    typeTag := none
    tiltAngles := none
    unitsFd := none
    wasSub := false
    subStrides := (1, 1, 1)
    subBounds := ⟨0, 0, 0, 0, 0, 0⟩ }

/-- A data source holding egShiftImage. -/
def egShiftDS : DataSourceModel :=
  { image := egShiftImage
    dsType := 0
    mLabel := some "shift"
    fileName := "s.emd"
    unitsModified := false
    currentToOriginal := [("Scalars", "Scalars")]
    operators := []
    timeSteps := []
    currentTimeStep := 0
    changingTimeStep := false
    displayPosition := (0, 0, 0)
    displayOrientation := (0, 0, 0)
    unitsInternal := none }

/-- A TiltSeries data source holding egTiltImage. -/
def egTiltDS : DataSourceModel :=
  { image := egTiltImage
    dsType := 1
    mLabel := some "tilt"
    fileName := "t.emd"
    unitsModified := false
    currentToOriginal := [("Scalars", "Scalars")]
    operators := []
    timeSteps := []
    currentTimeStep := 0
    changingTimeStep := false
    displayPosition := (0, 0, 0)
    displayOrientation := (0, 0, 0)
    unitsInternal := none }

end Tomviz

namespace Tomviz

/-! # Theorems

## Generic lemmas about stores and loops -/

theorem iterFrom_no_write (step : Nat → Store → Store) (i : Nat) :
    ∀ (n k : Nat) (b : Store),
      (∀ j, k ≤ j → j < k + n → ∀ b2, step j b2 i = b2 i) →
      iterFrom step n k b i = b i := by
  intro n
  induction n with
  | zero => intro k b _; rfl
  | succ m ih =>
    intro k b hpres
    rw [iterFrom, ih (k + 1) _ (fun j h1 h2 b2 => hpres j (by omega) (by omega) b2)]
    exact hpres k (by omega) (by omega) b

theorem iterFrom_last_write (step : Nat → Store → Store) (i : Nat) (v : Option Nat) :
    ∀ (n k : Nat) (b : Store) (j0 : Nat),
      k ≤ j0 → j0 < k + n →
      (∀ b2, step j0 b2 i = v) →
      (∀ j, j0 < j → j < k + n → ∀ b2, step j b2 i = b2 i) →
      iterFrom step n k b i = v := by
  intro n
  induction n with
  | zero => intro k b j0 h1 h2; omega
  | succ m ih =>
    intro k b j0 h1 h2 hw hpres
    rw [iterFrom]
    rcases Nat.eq_or_lt_of_le h1 with he | hlt
    · rw [iterFrom_no_write step i m (k + 1) _
        (fun j ha hb b2 => hpres j (by omega) (by omega) b2)]
      rw [he]; exact hw b
    · exact ih (k + 1) (step k b) j0 (by omega) (by omega) hw
        (fun j ha hb b2 => hpres j (by omega) (by omega) b2)

theorem storeWrite_get_in (b : Store) (dstOff : Nat) (src : Nat → Nat)
    (srcOff n i : Nat) (h1 : dstOff ≤ i) (h2 : i < dstOff + n) :
    storeWrite b dstOff src srcOff n i = some (src (srcOff + (i - dstOff))) := by
  simp [storeWrite, h1, h2]

theorem storeWrite_get_out (b : Store) (dstOff : Nat) (src : Nat → Nat)
    (srcOff n i : Nat) (h : i < dstOff ∨ dstOff + n ≤ i) :
    storeWrite b dstOff src srcOff n i = b i := by
  unfold storeWrite
  rcases h with h | h
  · rw [if_neg]; omega
  · rw [if_neg]; omega

theorem storeWriteList_get_in (b : Store) (dstOff : Nat) (vals : List (Option Nat))
    (i : Nat) (h1 : dstOff ≤ i) (h2 : i < dstOff + vals.length) :
    storeWriteList b dstOff vals i = vals.getD (i - dstOff) none := by
  simp [storeWriteList, h1, h2]

theorem storeWriteList_get_out (b : Store) (dstOff : Nat) (vals : List (Option Nat))
    (i : Nat) (h : i < dstOff ∨ dstOff + vals.length ≤ i) :
    storeWriteList b dstOff vals i = b i := by
  unfold storeWriteList
  rcases h with h | h
  · rw [if_neg]; omega
  · rw [if_neg]; omega

/-- Decompose an index into a row strip: row base r*W plus offset below W. -/
theorem strip_decomp (W r r' j j' : Nat) (hj : j < W) (hj' : j' < W)
    (h : r * W + j = r' * W + j') : r = r' ∧ j = j' := by
  have h0 : 0 < W := by omega
  have e1 : (j + r * W) / W = r := by
    rw [Nat.add_mul_div_right _ _ h0, Nat.div_eq_of_lt hj, Nat.zero_add]
  have e2 : (j' + r' * W) / W = r' := by
    rw [Nat.add_mul_div_right _ _ h0, Nat.div_eq_of_lt hj', Nat.zero_add]
  have e3 : j + r * W = j' + r' * W := by omega
  have hr : r = r' := by rw [← e1, ← e2, e3]
  subst hr
  exact ⟨rfl, by omega⟩

/-! ## C10: the file-row flip mapping is an involution and a bijection of
the row range onto itself -/

/-- C10: for every row in [0, height) and either flip setting,
GetImageRow (GetFileRow row height flip) height flip = row, the file row
stays in [0, height), and the mapping is a bijection of [0, height) onto
itself. -/
theorem getFileRow_involution (h : Int) (flip : Bool) :
    (∀ row : Int, 0 ≤ row → row < h →
      GetImageRow (GetFileRow row h flip) h flip = row ∧
      0 ≤ GetFileRow row h flip ∧ GetFileRow row h flip < h) ∧
    Set.BijOn (fun row => GetFileRow row h flip) (Set.Ico 0 h) (Set.Ico 0 h) := by
  have key : ∀ row : Int, 0 ≤ row → row < h →
      GetImageRow (GetFileRow row h flip) h flip = row ∧
      0 ≤ GetFileRow row h flip ∧ GetFileRow row h flip < h := by
    intro row h1 h2
    cases flip <;> simp [GetImageRow, GetFileRow] <;> omega
  refine ⟨key, ⟨?_, ?_, ?_⟩⟩
  · intro row hrow
    rcases Set.mem_Ico.mp hrow with ⟨h1, h2⟩
    exact Set.mem_Ico.mpr ⟨(key row h1 h2).2.1, (key row h1 h2).2.2⟩
  · intro x hx y hy hxy
    cases flip <;> simp [GetFileRow] at hxy <;> omega
  · intro y hy
    rcases Set.mem_Ico.mp hy with ⟨h1, h2⟩
    refine ⟨GetFileRow y h flip, ?_, ?_⟩
    · exact Set.mem_Ico.mpr ⟨(key y h1 h2).2.1, (key y h1 h2).2.2⟩
    · exact (key y h1 h2).1

theorem getFileRow_involution_witness :
    GetImageRow (GetFileRow 2 7 true) 7 true = 2 :=
  ((getFileRow_involution 7 true).1 2 (by norm_num) (by norm_num)).1

/-! ## C3: switchTimeSeriesStep and out-of-range indices

The guard (line 1244) only checks i >= size.  An index of -1 passes it,
mutates currentTimeStep, and reaches the out-of-bounds
QList::operator[] access without any IndexOutOfRange diagnostic. -/

/-- C3: indices at or above numSteps are rejected with IndexOutOfRange and
no state change, but the negative index -1 is not rejected: the code
mutates currentTimeStep to -1 and performs an out-of-bounds step access
instead of reporting IndexOutOfRange. -/
theorem switchTimeSeriesStep_negative_bug :
    (∀ (s : DataSourceModel) (i : Int), i ≥ numTimeSeriesSteps s →
      switchTimeSeriesStepOp s i = .rejected s .indexOutOfRange) ∧
    switchTimeSeriesStepOp egDS (-1) =
      .invalidAccess { egDS with changingTimeStep := true, currentTimeStep := -1 } ∧
    (∀ d : Diag, switchTimeSeriesStepOp egDS (-1) ≠ .rejected egDS d) := by
  refine ⟨?_, by decide, ?_⟩
  · intro s i hi
    rw [numTimeSeriesSteps] at hi
    rw [switchTimeSeriesStepOp, if_pos hi]
  · intro d; cases d; decide

theorem switchTimeSeriesStep_negative_bug_witness :
    switchTimeSeriesStepOp egDS 5 = .rejected egDS .indexOutOfRange :=
  switchTimeSeriesStep_negative_bug.1 egDS 5 (by decide)

/-! ## C8: which fields serialize() gates on unitsModified

serialize (lines 466-474) writes spacing and units only under
Internals->UnitsModified, but origin and orientation unconditionally. -/

/-- C8 counterexample: a data source whose units were never modified still
serializes origin and orientation (the claim says all of spacing, origin,
orientation are omitted). -/
theorem serialize_origin_counterexample :
    egDS.unitsModified = false ∧
    (serializeOp egDS []).origin ≠ none ∧
    (serializeOp egDS []).orientation ≠ none := by
  decide

/-- C8 amended: only spacing (and the units string) are gated on
unitsModified; origin and orientation are always written. -/
theorem serialize_spacing_gated (s : DataSourceModel) (mods : List String) :
    ((serializeOp s mods).spacing = none ↔ s.unitsModified = false) ∧
    (s.unitsModified = false → (serializeOp s mods).units = none) ∧
    (serializeOp s mods).origin = some s.displayPosition ∧
    (serializeOp s mods).orientation = some s.displayOrientation := by
  unfold serializeOp
  cases hu : s.unitsModified <;> simp [hu]

theorem serialize_spacing_gated_witness :
    (serializeOp egDS []).spacing = none ∧ (serializeOp egDS []).units = none :=
  ⟨((serialize_spacing_gated egDS []).1).mpr (by decide),
   (serialize_spacing_gated egDS []).2.1 (by decide)⟩

/-! ## QMap lemmas -/

theorem qmGet_insert_self (m : QMapSS) (k v : String) :
    qmGet (qmInsert m k v) k = some v := by
  induction m with
  | nil => simp [qmInsert, qmGet]
  | cons p t ih =>
    obtain ⟨k2, v2⟩ := p
    unfold qmInsert
    by_cases h1 : k < k2
    · simp [h1, qmGet]
    · by_cases h2 : k = k2
      · simp [h1, h2, qmGet]
      · simp [h1, h2, qmGet, ih]

theorem qmGet_mem_keys (m : QMapSS) (a : String) (o : String)
    (h : qmGet m a = some o) : a ∈ qmKeys m := by
  induction m with
  | nil => simp [qmGet] at h
  | cons p t ih =>
    obtain ⟨k2, v2⟩ := p
    unfold qmGet at h
    by_cases h2 : a = k2
    · simp [qmKeys, h2]
    · simp [h2] at h
      simp [qmKeys] at ih ⊢
      exact Or.inr (ih h)

theorem qmRemove_eq_self (m : QMapSS) (a : String) (h : a ∉ qmKeys m) :
    qmRemove m a = m := by
  rw [qmRemove, List.filter_eq_self]
  intro p hp
  simp only [qmKeys, List.mem_map] at h
  have : p.1 ≠ a := fun he => h ⟨p, hp, he⟩
  simpa using this

/-- Removing the inserted key yields the same result as removing it from
the original map: the filter drops the inserted pair wherever it sits. -/
theorem qmRemove_insert_key (m : QMapSS) (k v : String) :
    qmRemove (qmInsert m k v) k = qmRemove m k := by
  induction m with
  | nil => simp [qmInsert, qmRemove]
  | cons p t ih =>
    obtain ⟨k2, v2⟩ := p
    unfold qmInsert
    by_cases h1 : k < k2
    · rw [if_pos h1]
      rw [qmRemove, qmRemove, List.filter_cons, List.filter_cons]
      simp
    · rw [if_neg h1]
      by_cases h2 : k = k2
      · rw [if_pos h2]
        rw [qmRemove, qmRemove, List.filter_cons, List.filter_cons]
        simp [h2]
      · rw [if_neg h2]
        rw [qmRemove, qmRemove, List.filter_cons, List.filter_cons]
        have hne : k2 ≠ k := fun he => h2 he.symm
        rw [if_pos (by simp [hne]), if_pos (by simp [hne])]
        rw [qmRemove, qmRemove] at ih
        rw [ih]

theorem qmRemove_insert (m : QMapSS) (b o : String) (hb : b ∉ qmKeys m) :
    qmRemove (qmInsert m b o) b = m := by
  rw [qmRemove_insert_key, qmRemove_eq_self m b hb]

theorem qmSorted_tail (p : String × String) (t : QMapSS)
    (h : qmSorted (p :: t)) : qmSorted t := h.tail

theorem qmSorted_head_lt (k : String) (v : String) (t : QMapSS)
    (h : qmSorted ((k, v) :: t)) : ∀ x ∈ t, k < x.1 := by
  intro x hx
  haveI : IsTrans (String × String) (fun p q => p.1 < q.1) :=
    ⟨fun _ _ _ h1 h2 => lt_trans h1 h2⟩
  have := (List.chain'_iff_pairwise.mp h)
  exact List.rel_of_pairwise_cons this hx

theorem qmInsert_all_gt (t : QMapSS) (a o : String) (h : ∀ x ∈ t, a < x.1) :
    qmInsert t a o = (a, o) :: t := by
  cases t with
  | nil => rfl
  | cons p t2 =>
    obtain ⟨k2, v2⟩ := p
    have : a < k2 := h (k2, v2) (by simp)
    unfold qmInsert
    simp [this]

theorem qmInsert_remove_self (m : QMapSS) (a o : String) (hs : qmSorted m)
    (hget : qmGet m a = some o) : qmInsert (qmRemove m a) a o = m := by
  induction m with
  | nil => simp [qmGet] at hget
  | cons p t ih =>
    obtain ⟨k2, v2⟩ := p
    by_cases h2 : a = k2
    · unfold qmGet at hget
      rw [if_pos h2] at hget
      have ho : v2 = o := by injection hget
      subst h2
      subst ho
      have hlt := qmSorted_head_lt a v2 t hs
      have hnk : a ∉ qmKeys t := by
        intro hmem
        simp only [qmKeys, List.mem_map] at hmem
        obtain ⟨x, hx, hxe⟩ := hmem
        exact absurd (hlt x hx) (by rw [hxe]; exact lt_irrefl a)
      have e0 : qmRemove ((a, v2) :: t) a = qmRemove t a := by
        rw [qmRemove, qmRemove, List.filter_cons]
        simp
      rw [e0, qmRemove_eq_self t a hnk]
      exact qmInsert_all_gt t a v2 hlt
    · unfold qmGet at hget
      rw [if_neg h2] at hget
      have hmem : a ∈ qmKeys t := qmGet_mem_keys t a o hget
      have hlt := qmSorted_head_lt k2 v2 t hs
      have hk2a : k2 < a := by
        simp only [qmKeys, List.mem_map] at hmem
        obtain ⟨x, hx, hxe⟩ := hmem
        rw [← hxe]; exact hlt x hx
      have e0 : qmRemove ((k2, v2) :: t) a = (k2, v2) :: qmRemove t a := by
        rw [qmRemove, qmRemove, List.filter_cons]
        simp [Ne.symm h2]
      rw [e0]
      unfold qmInsert
      rw [if_neg (by exact not_lt_of_gt hk2a), if_neg h2]
      rw [ih (qmSorted_tail _ _ hs) hget]

/-! ## Field lemmas: which state fields the metadata-resync helpers touch -/

theorem createOrResize_fields (img : ImageData) :
    (createOrResizeTiltAnglesArray img).pointArrays = img.pointArrays ∧
    (createOrResizeTiltAnglesArray img).active = img.active ∧
    (createOrResizeTiltAnglesArray img).typeTag = img.typeTag ∧
    (createOrResizeTiltAnglesArray img).extent = img.extent ∧
    (createOrResizeTiltAnglesArray img).unitsFd = img.unitsFd := by
  unfold createOrResizeTiltAnglesArray
  cases img.tiltAngles with
  | none => exact ⟨rfl, rfl, rfl, rfl, rfl⟩
  | some arr =>
    dsimp only
    split
    · exact ⟨rfl, rfl, rfl, rfl, rfl⟩
    · exact ⟨rfl, rfl, rfl, rfl, rfl⟩

theorem setTypeOnImage_fields (img : ImageData) (t : Int) :
    (setTypeOnImage img t).pointArrays = img.pointArrays ∧
    (setTypeOnImage img t).active = img.active ∧
    (setTypeOnImage img t).typeTag = some t ∧
    (setTypeOnImage img t).extent = img.extent ∧
    (setTypeOnImage img t).unitsFd = img.unitsFd := by
  unfold setTypeOnImage
  split
  · exact ⟨rfl, rfl, rfl, rfl, rfl⟩
  · exact ⟨rfl, rfl, rfl, rfl, rfl⟩

theorem setTypeOp_fields (s : DataSourceModel) (t : Int) :
    (setTypeOp s t).dsType = t ∧
    (setTypeOp s t).image.pointArrays = s.image.pointArrays ∧
    (setTypeOp s t).image.active = s.image.active ∧
    (setTypeOp s t).image.typeTag = some t ∧
    (setTypeOp s t).image.extent = s.image.extent ∧
    (setTypeOp s t).currentToOriginal = s.currentToOriginal ∧
    (setTypeOp s t).mLabel = s.mLabel ∧
    (setTypeOp s t).fileName = s.fileName ∧
    (setTypeOp s t).operators = s.operators ∧
    (setTypeOp s t).unitsModified = s.unitsModified ∧
    (setTypeOp s t).displayPosition = s.displayPosition ∧
    (setTypeOp s t).displayOrientation = s.displayOrientation ∧
    (setTypeOp s t).unitsInternal = s.unitsInternal := by
  unfold setTypeOp
  by_cases ht : t = tiltSeriesType <;>
    simp [ht, setTypeOnImage_fields, createOrResize_fields]

theorem dataModified_fields (s : DataSourceModel) :
    (dataModifiedOp s).image.pointArrays = s.image.pointArrays ∧
    (dataModifiedOp s).image.active = s.image.active ∧
    (dataModifiedOp s).image.extent = s.image.extent ∧
    (dataModifiedOp s).currentToOriginal = s.currentToOriginal ∧
    (dataModifiedOp s).mLabel = s.mLabel ∧
    (dataModifiedOp s).fileName = s.fileName ∧
    (dataModifiedOp s).operators = s.operators ∧
    (dataModifiedOp s).unitsModified = s.unitsModified ∧
    (dataModifiedOp s).displayPosition = s.displayPosition ∧
    (dataModifiedOp s).displayOrientation = s.displayOrientation ∧
    (dataModifiedOp s).unitsInternal = s.unitsInternal := by
  unfold dataModifiedOp
  cases ht : s.image.typeTag with
  | none => exact ⟨rfl, rfl, rfl, rfl, rfl, rfl, rfl, rfl, rfl, rfl, rfl⟩
  | some t => simp [setTypeOp_fields]

theorem setActiveScalars_fields (s : DataSourceModel) (name : String)
    (h : name ∈ listScalars s.image) :
    (setActiveScalarsOp s name).image.pointArrays = s.image.pointArrays ∧
    (setActiveScalarsOp s name).image.active = some name ∧
    (setActiveScalarsOp s name).image.extent = s.image.extent ∧
    (setActiveScalarsOp s name).currentToOriginal = s.currentToOriginal ∧
    (setActiveScalarsOp s name).mLabel = s.mLabel ∧
    (setActiveScalarsOp s name).fileName = s.fileName ∧
    (setActiveScalarsOp s name).operators = s.operators := by
  unfold setActiveScalarsOp
  rw [if_pos h]
  simp [dataModified_fields]

/-! ## renameScalarsArray lemmas -/

/-- The scalar names after a rename. -/
theorem names_rename (L : List ScalarArray) (a b : String) :
    (L.map (fun x => if x.name = a then { x with name := b } else x)).map
      (fun y => y.name) =
    (L.map (fun y => y.name)).map (fun n => if n = a then b else n) := by
  simp only [List.map_map]
  apply List.map_congr_left
  intro x _
  by_cases hx : x.name = a <;> simp [hx]

/-- Renaming a to b and back restores the array list when no array is
named b. -/
theorem rename_back (L : List ScalarArray) (a b : String)
    (hb : ∀ x ∈ L, x.name ≠ b) :
    (L.map (fun x => if x.name = a then { x with name := b } else x)).map
      (fun x => if x.name = b then { x with name := a } else x) = L := by
  induction L with
  | nil => rfl
  | cons x t ih =>
    simp only [List.map_cons]
    rw [ih (fun y hy => hb y (List.mem_cons_of_mem _ hy))]
    congr 1
    by_cases hx : x.name = a
    · rw [if_pos hx]
      have hbn : ({ x with name := b } : ScalarArray).name = b := rfl
      rw [if_pos hbn]
      cases x with
      | mk n nc nt d =>
        change n = a at hx
        subst hx
        rfl
    · rw [if_neg hx]
      rw [if_neg (hb x (by simp))]

/-- The net effect of renameScalarsArray when it actually applies: arrays
renamed in place, the active selection moved along when it was the renamed
array, the tracking map rekeyed; only type/tilt metadata is otherwise
touched. -/
theorem rename_applicable (s : DataSourceModel) (a b act : String)
    (hact : s.image.active = some act)
    (ha : a ∈ listScalars s.image) (hb : b ∉ listScalars s.image) :
    (renameScalarsArrayOp s a b).image.pointArrays = s.image.pointArrays.map
      (fun x => if x.name = a then { x with name := b } else x) ∧
    (renameScalarsArrayOp s a b).image.active = some (if a = act then b else act) ∧
    (renameScalarsArrayOp s a b).currentToOriginal =
      qmInsert (qmRemove s.currentToOriginal a) b
        ((qmGet s.currentToOriginal a).getD "") := by
  have hab : a ≠ b := fun he => hb (he ▸ ha)
  have hacts : activeScalarsName s = act := by
    unfold activeScalarsName; rw [hact]; rfl
  unfold renameScalarsArrayOp
  rw [if_neg hab]
  rw [if_neg (by simp [ha])]
  rw [if_neg (by simp [hb])]
  rw [hacts]
  by_cases hcase : a = act
  · subst hcase
    simp only [eq_self_iff_true, if_true]
    unfold setActiveScalarsOp
    split
    · refine ⟨?_, ?_, ?_⟩ <;> simp [dataModified_fields]
    · rename_i hnb
      exfalso
      apply hnb
      unfold listScalars at ha ⊢
      dsimp only
      rw [names_rename]
      exact List.mem_map.mpr ⟨a, ha, by simp⟩
  · rw [if_neg hcase]
    refine ⟨?_, ?_, ?_⟩ <;> simp [dataModified_fields, hact, hcase]

theorem qmKeys_remove_subset (m : QMapSS) (a k : String)
    (h : k ∈ qmKeys (qmRemove m a)) : k ∈ qmKeys m := by
  simp only [qmKeys, qmRemove, List.mem_map] at h ⊢
  obtain ⟨p, hp, he⟩ := h
  exact ⟨p, (List.mem_filter.mp hp).1, he⟩

/-- C6: for a data source holding a scalars array named a (tracked by the
rename map, as the source maintains) and no array named b,
renameScalarsArray(a,b) followed by renameScalarsArray(b,a) restores the
original array list (hence the original array name), the original
active-scalars selection, and the original rename-tracking map. -/
theorem renameScalarsArray_inverse (s : DataSourceModel) (a b act o : String)
    (hact : s.image.active = some act) (hactmem : act ∈ listScalars s.image)
    (ha : a ∈ listScalars s.image) (hb : b ∉ listScalars s.image)
    (hsort : qmSorted s.currentToOriginal)
    (hget : qmGet s.currentToOriginal a = some o)
    (hbkey : b ∉ qmKeys s.currentToOriginal) :
    (renameScalarsArrayOp (renameScalarsArrayOp s a b) b a).image.pointArrays =
        s.image.pointArrays ∧
    (renameScalarsArrayOp (renameScalarsArrayOp s a b) b a).image.active =
        s.image.active ∧
    (renameScalarsArrayOp (renameScalarsArrayOp s a b) b a).currentToOriginal =
        s.currentToOriginal := by
  obtain ⟨g1, g2, g3⟩ := rename_applicable s a b act hact ha hb
  have hab : a ≠ b := fun he => hb (he ▸ ha)
  have hbact : b ≠ act := fun he => hb (he ▸ hactmem)
  have hnames : ∀ x ∈ s.image.pointArrays, x.name ≠ b := by
    intro x hx he
    exact hb (by unfold listScalars; exact List.mem_map.mpr ⟨x, hx, he⟩)
  have hact2 : (renameScalarsArrayOp s a b).image.active =
      some (if a = act then b else act) := g2
  have ha2 : b ∈ listScalars (renameScalarsArrayOp s a b).image := by
    unfold listScalars at ha ⊢
    rw [g1, names_rename]
    exact List.mem_map.mpr ⟨a, ha, by simp⟩
  have hb2 : a ∉ listScalars (renameScalarsArrayOp s a b).image := by
    unfold listScalars
    rw [g1, names_rename]
    intro hmem
    obtain ⟨n, hn, he⟩ := List.mem_map.mp hmem
    by_cases hna : n = a
    · rw [if_pos hna] at he; exact hab he.symm
    · rw [if_neg hna] at he; exact hna he
  obtain ⟨g1', g2', g3'⟩ :=
    rename_applicable (renameScalarsArrayOp s a b) b a (if a = act then b else act)
      hact2 ha2 hb2
  refine ⟨?_, ?_, ?_⟩
  · rw [g1', g1]
    exact rename_back _ a b hnames
  · rw [g2', hact]
    by_cases hcase : a = act
    · simp [hcase]
    · simp [hcase, hbact]
  · rw [g3', g3, hget]
    simp only [Option.getD_some]
    rw [qmGet_insert_self]
    simp only [Option.getD_some]
    have hbk2 : b ∉ qmKeys (qmRemove s.currentToOriginal a) :=
      fun hmem => hbkey (qmKeys_remove_subset _ _ _ hmem)
    rw [qmRemove_insert _ _ _ hbk2]
    exact qmInsert_remove_self _ a o hsort hget

theorem renameScalarsArray_inverse_witness :
    (renameScalarsArrayOp (renameScalarsArrayOp egDS "Scalars" "B") "B"
      "Scalars").image.pointArrays = egDS.image.pointArrays ∧
    (renameScalarsArrayOp (renameScalarsArrayOp egDS "Scalars" "B") "B"
      "Scalars").image.active = egDS.image.active ∧
    (renameScalarsArrayOp (renameScalarsArrayOp egDS "Scalars" "B") "B"
      "Scalars").currentToOriginal = egDS.currentToOriginal :=
  renameScalarsArray_inverse egDS "Scalars" "B" "Scalars" "Scalars"
    (by decide) (by decide) (by decide) (by decide)
    (by simp [qmSorted, egDS]) (by decide) (by decide)

/-! ## C7: the tilt-angle sizing invariant -/

theorem resizeArray_length (arr : List Int) (n : Nat) :
    (resizeArray arr n).length = n := by
  unfold resizeArray
  simp only [List.length_append, List.length_take, List.length_replicate]
  omega

theorem resizeArray_get_old (arr : List Int) (n i : Nat) (h1 : i < n)
    (h2 : i < arr.length) : (resizeArray arr n).getD i 0 = arr.getD i 0 := by
  unfold resizeArray
  rw [List.getD_eq_getElem?_getD, List.getD_eq_getElem?_getD, List.getElem?_append]
  rw [if_pos (by simp; omega)]
  rw [List.getElem?_take, if_pos h1]

theorem resizeArray_get_new (arr : List Int) (n i : Nat) (h1 : arr.length ≤ i)
    (h2 : i < n) : (resizeArray arr n).getD i 0 = 0 := by
  unfold resizeArray
  rw [List.getD_eq_getElem?_getD, List.getElem?_append]
  rw [if_neg (by simp; omega)]
  rw [List.getElem?_replicate]
  rw [if_pos (by simp; omega)]
  rfl

theorem createOrResize_sized (img : ImageData)
    (hz : img.extent.z0 ≤ img.extent.z1) :
    ∃ arr, (createOrResizeTiltAnglesArray img).tiltAngles = some arr ∧
      (arr.length : Int) = zCount img.extent := by
  have hzc : (0 : Int) ≤ zCount img.extent := by unfold zCount; omega
  unfold createOrResizeTiltAnglesArray
  cases hta : img.tiltAngles with
  | none =>
    refine ⟨_, rfl, ?_⟩
    rw [List.length_replicate]
    exact Int.toNat_of_nonneg hzc
  | some arr =>
    dsimp only
    split
    · refine ⟨_, rfl, ?_⟩
      rw [resizeArray_length]
      exact Int.toNat_of_nonneg hzc
    · rename_i hne
      push_neg at hne
      exact ⟨arr, hta, hne.symm⟩

theorem dataModified_tilt_sized (s : DataSourceModel)
    (htag : s.image.typeTag = some tiltSeriesType)
    (hz : s.image.extent.z0 ≤ s.image.extent.z1) :
    ∃ arr, (dataModifiedOp s).image.tiltAngles = some arr ∧
      (arr.length : Int) = zCount (dataModifiedOp s).image.extent := by
  unfold dataModifiedOp
  rw [htag]
  dsimp only
  unfold setTypeOp
  rw [if_pos rfl]
  dsimp only
  have he : (setTypeOnImage s.image tiltSeriesType).extent = s.image.extent :=
    (setTypeOnImage_fields s.image _).2.2.2.1
  obtain ⟨arr, h1, h2⟩ := createOrResize_sized (setTypeOnImage s.image tiltSeriesType)
    (by rw [he]; exact hz)
  refine ⟨arr, h1, ?_⟩
  rw [(createOrResize_fields (setTypeOnImage s.image tiltSeriesType)).2.2.2.1, he]
  rw [he] at h2
  exact h2

/-- C7 amended: after setType(TiltSeries), setData (with TiltSeries tag) and
setTiltAngles, the tilt_angles array exists and its length equals the z
extent length; the resize primitive preserves existing values and
zero-fills the new slots.  (appendSlice, by contrast, does not resize the
array: see the counterexample.) -/
theorem tiltAngles_invariant :
    (∀ s : DataSourceModel, s.image.extent.z0 ≤ s.image.extent.z1 →
      ∃ arr, (setTypeOp s tiltSeriesType).image.tiltAngles = some arr ∧
        (arr.length : Int) = zCount (setTypeOp s tiltSeriesType).image.extent) ∧
    (∀ (s : DataSourceModel) (d : ImageData), d.typeTag = some tiltSeriesType →
      d.extent.z0 ≤ d.extent.z1 →
      ∃ arr, (setDataOp s d).image.tiltAngles = some arr ∧
        (arr.length : Int) = zCount (setDataOp s d).image.extent) ∧
    (∀ (s : DataSourceModel) (angles : List Int),
      s.image.extent.z0 ≤ s.image.extent.z1 →
      ∃ arr, (setTiltAnglesOp s angles).image.tiltAngles = some arr ∧
        (arr.length : Int) = zCount (setTiltAnglesOp s angles).image.extent) ∧
    (∀ (arr : List Int) (n : Nat),
      (resizeArray arr n).length = n ∧
      (∀ i, i < n → i < arr.length → (resizeArray arr n).getD i 0 = arr.getD i 0) ∧
      (∀ i, arr.length ≤ i → i < n → (resizeArray arr n).getD i 0 = 0)) := by
  refine ⟨?_, ?_, ?_, ?_⟩
  · intro s hz
    unfold setTypeOp
    rw [if_pos rfl]
    dsimp only
    have he : (setTypeOnImage s.image tiltSeriesType).extent = s.image.extent :=
      (setTypeOnImage_fields s.image _).2.2.2.1
    obtain ⟨arr, h1, h2⟩ := createOrResize_sized (setTypeOnImage s.image tiltSeriesType)
      (by rw [he]; exact hz)
    refine ⟨arr, h1, ?_⟩
    rw [(createOrResize_fields (setTypeOnImage s.image tiltSeriesType)).2.2.2.1]
    exact h2
  · intro s d htag hz
    unfold setDataOp
    rw [htag]
    dsimp only
    rw [if_pos rfl]
    dsimp only
    have hce : (createOrResizeTiltAnglesArray d).extent = d.extent :=
      (createOrResize_fields d).2.2.2.1
    cases hu : (createOrResizeTiltAnglesArray d).unitsFd with
    | some u =>
      dsimp only
      refine dataModified_tilt_sized _ rfl ?_
      dsimp only
      rw [hce]; exact hz
    | none =>
      cases hui : s.unitsInternal with
      | some u =>
        dsimp only
        refine dataModified_tilt_sized _ rfl ?_
        dsimp only
        rw [hce]; exact hz
      | none =>
        dsimp only
        refine dataModified_tilt_sized _ rfl ?_
        dsimp only
        rw [hce]; exact hz
  · intro s angles hz
    unfold setTiltAnglesOp setTiltAnglesOnImage
    dsimp only
    obtain ⟨arr, h1, h2⟩ := createOrResize_sized s.image hz
    rw [h1]
    dsimp only
    refine ⟨_, rfl, ?_⟩
    rw [List.length_map, List.length_range]
    rw [(createOrResize_fields s.image).2.2.2.1]
    exact h2
  · intro arr n
    exact ⟨resizeArray_length arr n,
           fun i h1 h2 => resizeArray_get_old arr n i h1 h2,
           fun i h1 h2 => resizeArray_get_new arr n i h1 h2⟩

theorem tiltAngles_invariant_witness :
    ∃ arr, (setTypeOp egDS tiltSeriesType).image.tiltAngles = some arr ∧
      (arr.length : Int) = zCount (setTypeOp egDS tiltSeriesType).image.extent :=
  tiltAngles_invariant.1 egDS (by decide)

/-- C7 counterexample: appendSlice on a TiltSeries volume grows the z
extent but leaves the tilt_angles array at its old length, so the claimed
invariant (tilt length = z length after every mutating operation,
appendSlice included) fails. -/
theorem appendSlice_tilt_counterexample :
    (appendSliceOp egTiltDS (some egSliceImage)).map
      (fun r => (r.1.dsType, r.1.image.tiltAngles, zCount r.1.image.extent, r.2)) =
      some (1, some [0], 2, true) := by
  decide

/-! ## C4: appendSlice -/

theorem writeRange_eq (dst : List (Option Int)) (off : Nat) (src : List (Option Int))
    (h : off + src.length ≤ dst.length) :
    writeRange dst off src =
      some (dst.take off ++ src ++ dst.drop (off + src.length)) := by
  rw [writeRange, if_pos h]

theorem find_replace (L : List ScalarArray) (n : String) (arr newArr : ScalarArray)
    (hfind : L.find? (fun a => a.name = n) = some arr)
    (hname : newArr.name = arr.name) :
    (L.map (fun a => if a.name = arr.name then newArr else a)).find?
      (fun a => a.name = n) = some newArr := by
  induction L with
  | nil => simp at hfind
  | cons x t ih =>
    by_cases hx : x.name = n
    · rw [List.find?_cons_of_pos _ (by simp [hx])] at hfind
      have harr : x = arr := by injection hfind
      subst harr
      simp only [List.map_cons, eq_self_iff_true, if_true]
      exact List.find?_cons_of_pos _ (by simp [hname, hx])
    · rw [List.find?_cons_of_neg _ (by simp [hx])] at hfind
      have harrn : arr.name = n := by
        have := List.find?_some hfind
        simpa using this
      have hxarr : ¬ (x.name = arr.name) := by rw [harrn]; exact hx
      simp only [List.map_cons]
      rw [if_neg hxarr]
      rw [List.find?_cons_of_neg _ (by simp [hx])]
      exact ih hfind

/-- The successful appendImageData run: grown extent, old bytes preserved at
the front, slice bytes exactly filling the new top layer. -/
theorem appendImageData_eq (data slice : ImageData) (arr sarr : ScalarArray)
    (hactive : getScalars data = some arr)
    (hsactive : getScalars slice = some sarr)
    (hx0 : data.extent.x0 = 0) (hy0 : data.extent.y0 = 0)
    (hx1 : 0 ≤ data.extent.x1) (hy1 : 0 ≤ data.extent.y1)
    (hz : data.extent.z0 ≤ data.extent.z1)
    (hnt : arr.numTuples = extentTuples data.extent)
    (hlen : (arr.data.length : Int) = arr.numTuples * arr.numComponents)
    (hsx0 : slice.extent.x0 = data.extent.x0) (hsx1 : slice.extent.x1 = data.extent.x1)
    (hsy0 : slice.extent.y0 = data.extent.y0) (hsy1 : slice.extent.y1 = data.extent.y1)
    (hsz : slice.extent.z0 = slice.extent.z1)
    (hsnt : sarr.numTuples = extentTuples slice.extent)
    (hslen : (sarr.data.length : Int) = sarr.numTuples * sarr.numComponents)
    (hcomp : sarr.numComponents = arr.numComponents)
    (hcpos : 0 ≤ arr.numComponents) :
    appendImageData data slice = some { data with
      extent := { data.extent with z1 := data.extent.z1 + 1 },
      pointArrays := data.pointArrays.map
        (fun a => if a.name = arr.name then
          { arr with
            numTuples := extentTuples { data.extent with z1 := data.extent.z1 + 1 },
            data := arr.data ++ sarr.data }
          else a) } := by
  obtain ⟨E, sp, pa, act, tt, ta, uf, ws, ss, sb⟩ := data
  obtain ⟨ex0, ex1, ey0, ey1, ez0, ez1⟩ := E
  dsimp only at hactive hx0 hy0 hx1 hy1 hz hnt hsx0 hsx1 hsy0 hsy1 hlen ⊢
  subst hx0
  subst hy0
  have hTe : extentTuples { x0 := 0, x1 := ex1, y0 := 0, y1 := ey1, z0 := ez0, z1 := ez1 } =
      (ex1 + 1) * (ey1 + 1) * (ez1 - ez0 + 1) := by
    unfold extentTuples; dsimp only; ring
  have hTn : extentTuples { x0 := 0, x1 := ex1, y0 := 0, y1 := ey1, z0 := ez0, z1 := ez1 + 1 } =
      (ex1 + 1) * (ey1 + 1) * (ez1 - ez0 + 1) + (ex1 + 1) * (ey1 + 1) := by
    unfold extentTuples; dsimp only; ring
  have hTs : extentTuples slice.extent = (ex1 + 1) * (ey1 + 1) := by
    unfold extentTuples
    rw [hsx0, hsx1, hsy0, hsy1]
    rw [show slice.extent.z1 - slice.extent.z0 + 1 = 1 from by omega]
    ring
  have hR1 : (arr.data.length : Int) =
      (ex1 + 1) * (ey1 + 1) * (ez1 - ez0 + 1) * arr.numComponents := by
    rw [hlen, hnt, hTe]
  have hS : (sarr.data.length : Int) = (ex1 + 1) * (ey1 + 1) * arr.numComponents := by
    rw [hslen, hsnt, hTs, hcomp]
  have hA0 : (0:Int) ≤ (ex1 + 1) * (ey1 + 1) * arr.numComponents := by
    apply mul_nonneg (mul_nonneg (by omega) (by omega)) hcpos
  have hB0 : (0:Int) ≤ (ex1 + 1) * (ey1 + 1) * (ez1 - ez0 + 1) * arr.numComponents := by
    apply mul_nonneg (mul_nonneg (mul_nonneg (by omega) (by omega)) (by omega)) hcpos
  unfold appendImageData
  rw [hactive]
  simp only [Option.bind_eq_bind, Option.some_bind]
  rw [if_pos (by rw [Int.toNat_le, ← hlen])]
  have htake0 : (arr.numTuples * arr.numComponents).toNat = arr.data.length := by omega
  rw [htake0, List.take_length]
  have hTn2 : extentTuples { x0 := 0, x1 := ex1, y0 := 0, y1 := ey1, z0 := ez0, z1 := ez1 + 1 } *
      arr.numComponents =
      (ex1 + 1) * (ey1 + 1) * (ez1 - ez0 + 1) * arr.numComponents +
        (ex1 + 1) * (ey1 + 1) * arr.numComponents := by
    unfold extentTuples; dsimp only; ring
  rw [hTn2]
  rw [writeRange_eq _ _ _ (by rw [List.length_replicate]; omega)]
  simp only [Option.bind_eq_bind, Option.some_bind]
  unfold getScalarPointerOffset
  rw [if_neg (by dsimp only; omega)]
  simp only [Option.bind_eq_bind, Option.some_bind]
  rw [hsactive]
  simp only [Option.bind_eq_bind, Option.some_bind]
  rw [if_pos (by rw [Int.toNat_le, ← hslen])]
  set X : Int := (ex1 + 1) * (ey1 + 1) * (ez1 - ez0 + 1) * arr.numComponents with hX
  set Y : Int := (ex1 + 1) * (ey1 + 1) * arr.numComponents with hY
  have hstake0 : (sarr.numTuples * sarr.numComponents).toNat = sarr.data.length := by
    omega
  rw [hstake0, List.take_length]
  simp only [List.take_zero, List.nil_append, Nat.zero_add]
  rw [List.drop_replicate]
  rw [show (((ez1 + 1 - ez0) * (ey1 - 0 + 1) + (0 - 0)) * (ex1 - 0 + 1) + (0 - 0)) *
      arr.numComponents = X from by rw [hX]; ring]
  have hoffn : X.toNat = arr.data.length := by omega
  rw [hoffn]
  rw [writeRange_eq _ _ _ (by
    simp only [List.length_append, List.length_replicate]
    omega)]
  simp only [Option.bind_eq_bind, Option.some_bind]
  rw [List.take_left]
  rw [List.drop_append]
  rw [List.drop_replicate]
  rw [show (X + Y).toNat - arr.data.length - sarr.data.length = 0 from by omega]
  rw [List.replicate_zero, List.append_nil]

/-- C4 amended: for a volume with a zero-based x/y extent and a matching
single-layer slice (same x/y extent, same component count), appendSlice
grows the z extent by one, preserves all pre-existing voxel values
byte-for-byte (the old data is the prefix of the new storage), and copies
the slice voxels into the new top z layer (the suffix); a slice whose x/y
extent differs is rejected with false and no state change.  (For a volume
whose x/y extent does not start at 0 the claim fails: see the
counterexample, where GetScalarPointer(0,0,z) is out of extent and the
code dereferences a null pointer.) -/
theorem appendSlice_correct (s : DataSourceModel) (slice : ImageData)
    (arr sarr : ScalarArray)
    (hactive : getScalars s.image = some arr)
    (hsactive : getScalars slice = some sarr)
    (hx0 : s.image.extent.x0 = 0) (hy0 : s.image.extent.y0 = 0)
    (hx1 : 0 ≤ s.image.extent.x1) (hy1 : 0 ≤ s.image.extent.y1)
    (hz : s.image.extent.z0 ≤ s.image.extent.z1)
    (hnt : arr.numTuples = extentTuples s.image.extent)
    (hlen : (arr.data.length : Int) = arr.numTuples * arr.numComponents)
    (hsx0 : slice.extent.x0 = s.image.extent.x0)
    (hsx1 : slice.extent.x1 = s.image.extent.x1)
    (hsy0 : slice.extent.y0 = s.image.extent.y0)
    (hsy1 : slice.extent.y1 = s.image.extent.y1)
    (hsz : slice.extent.z0 = slice.extent.z1)
    (hsnt : sarr.numTuples = extentTuples slice.extent)
    (hslen : (sarr.data.length : Int) = sarr.numTuples * sarr.numComponents)
    (hcomp : sarr.numComponents = arr.numComponents)
    (hcpos : 0 ≤ arr.numComponents) :
    (∃ s2 : DataSourceModel, appendSliceOp s (some slice) = some (s2, true) ∧
      s2.image.extent = { s.image.extent with z1 := s.image.extent.z1 + 1 } ∧
      getScalars s2.image = some { arr with
        numTuples := extentTuples { s.image.extent with z1 := s.image.extent.z1 + 1 },
        data := arr.data ++ sarr.data }) ∧
    (∀ sl : ImageData,
      ¬ (s.image.extent.x0 = sl.extent.x0 ∧ s.image.extent.x1 = sl.extent.x1 ∧
         s.image.extent.y0 = sl.extent.y0 ∧ s.image.extent.y1 = sl.extent.y1) →
      appendSliceOp s (some sl) = some (s, false)) := by
  constructor
  · have himg := appendImageData_eq s.image slice arr sarr hactive hsactive hx0 hy0
      hx1 hy1 hz hnt hlen hsx0 hsx1 hsy0 hsy1 hsz hsnt hslen hcomp hcpos
    let newArr : ScalarArray :=
      { arr with
        numTuples := extentTuples { s.image.extent with z1 := s.image.extent.z1 + 1 },
        data := arr.data ++ sarr.data }
    let img2 : ImageData :=
      { s.image with
        extent := { s.image.extent with z1 := s.image.extent.z1 + 1 },
        pointArrays := s.image.pointArrays.map
          (fun a => if a.name = arr.name then newArr else a) }
    refine ⟨{ s with image := img2 }, ?_, ?_, ?_⟩
    · unfold appendSliceOp
      dsimp only
      rw [if_pos ⟨hsx0.symm, hsx1.symm, hsy0.symm, hsy1.symm⟩]
      rw [himg]
    · rfl
    · unfold getScalars at hactive ⊢
      dsimp only
      cases hact : s.image.active with
      | none => rw [hact] at hactive; exact absurd hactive (by simp)
      | some n =>
        rw [hact] at hactive
        dsimp only at hactive
        exact find_replace s.image.pointArrays n arr _ hactive rfl
  · intro sl hne
    unfold appendSliceOp
    dsimp only
    rw [if_neg hne]

theorem appendSlice_correct_witness :
    ∃ s2 : DataSourceModel, appendSliceOp egDS (some egSliceImage) = some (s2, true) ∧
      s2.image.extent = ⟨0, 0, 0, 0, 0, 1⟩ ∧
      getScalars s2.image = some ⟨"Scalars", 1, 2, [some 5, some 7]⟩ :=
  (appendSlice_correct egDS egSliceImage ⟨"Scalars", 1, 1, [some 5]⟩
    ⟨"Scalars", 1, 1, [some 7]⟩ (by decide) (by decide) (by decide) (by decide)
    (by decide) (by decide) (by decide) (by decide) (by decide) (by decide)
    (by decide) (by decide) (by decide) (by decide) (by decide) (by decide)
    (by decide) (by decide)).1

/-- C4 counterexample: a 1x1x1 volume whose x extent is [1,1] (not
zero-based) with an extent-matching slice.  The x/y extents match, yet the
code reaches GetScalarPointer(0, 0, z) with x = 0 outside the extent: VTK
returns a null pointer and the following memcpy is undefined behavior, so
appendSlice does not produce the grown volume the claim promises for every
matching slice. -/
theorem appendSlice_shifted_counterexample :
    appendSliceOp egShiftDS (some egShiftSlice) = none := by decide

/-! ## Serialization round trip (C5) -/

/-- Renaming TO a name that already exists among the scalar arrays is a
no-op, through any of the three early-out branches. -/
theorem renameScalarsArray_noop (s : DataSourceModel) (o c : String)
    (hc : c ∈ listScalars s.image) : renameScalarsArrayOp s o c = s := by
  by_cases h1 : o = c
  · simp [renameScalarsArrayOp, h1]
  · by_cases h2 : o ∈ listScalars s.image
    · simp [renameScalarsArrayOp, h1, h2, hc]
    · simp [renameScalarsArrayOp, h1, h2]

/-- Replaying a list of renames whose target names all already exist is a
no-op. -/
theorem rename_replay_noop (l : QMapSS) :
    ∀ s : DataSourceModel, (∀ p ∈ l, p.2 ∈ listScalars s.image) →
      l.foldl (fun st p => renameScalarsArrayOp st p.1 p.2) s = s := by
  induction l with
  | nil => intro s _; rfl
  | cons q t ih =>
    intro s h
    rw [List.foldl_cons,
      renameScalarsArray_noop s q.1 q.2 (h q (by simp))]
    exact ih s (fun p hp => h p (by simp [hp]))

/-- Every entry of qmInsert m k v is an entry of m or the inserted pair. -/
theorem qmInsert_mem_or (m : QMapSS) (k v : String) :
    ∀ q ∈ qmInsert m k v, q ∈ m ∨ q = (k, v) := by
  induction m with
  | nil => intro q hq; right; simpa [qmInsert] using hq
  | cons p t ih =>
    obtain ⟨k2, v2⟩ := p
    intro q hq
    by_cases h1 : k < k2
    · simp only [qmInsert, if_pos h1, List.mem_cons] at hq
      rcases hq with h | h | h
      · right; exact h
      · left; simp [h]
      · left; simp [h]
    · by_cases h2 : k = k2
      · simp only [qmInsert, if_neg h1, if_pos h2, List.mem_cons] at hq
        rcases hq with h | h
        · right; exact h
        · left; simp [h]
      · simp only [qmInsert, if_neg h1, if_neg h2, List.mem_cons] at hq
        rcases hq with h | h
        · left; simp [h]
        · rcases ih q h with h3 | h3
          · left; simp [h3]
          · right; exact h3

/-- Entries accumulated by the inversion fold come from the accumulator or
from a swapped pair of the input map. -/
theorem invert_fold_mem (l : QMapSS) :
    ∀ acc : QMapSS, ∀ q ∈ l.foldl (fun a p => qmInsert a p.2 p.1) acc,
      q ∈ acc ∨ ∃ p ∈ l, q = (p.2, p.1) := by
  induction l with
  | nil => intro acc q hq; left; exact hq
  | cons p t ih =>
    intro acc q hq
    rw [List.foldl_cons] at hq
    rcases ih (qmInsert acc p.2 p.1) q hq with h | h
    · rcases qmInsert_mem_or acc p.2 p.1 q h with h2 | h2
      · left; exact h2
      · right; exact ⟨p, by simp, h2⟩
    · right
      obtain ⟨r, hr, he⟩ := h
      exact ⟨r, by simp [hr], he⟩

/-- Every entry of the inverted rename map is a swapped entry of the
original map. -/
theorem invertRenameMap_mem (m : QMapSS) :
    ∀ q ∈ invertRenameMap m, ∃ p ∈ m, q = (p.2, p.1) := by
  intro q hq
  rcases invert_fold_mem m [] q hq with h | h
  · exact absurd h (by simp)
  · exact h

/-- Net effect of dataModified on the type and the tilt angles, when the
type tag is present and, for a TiltSeries, the tilt-angle array is already
sized to the z extent: the type is re-stamped and a TiltSeries keeps its
tilt angles unchanged. -/
theorem dataModified_type_tilt (s : DataSourceModel) (t : Int)
    (htag : s.image.typeTag = some t)
    (htilt : t = tiltSeriesType →
      ∃ arr, s.image.tiltAngles = some arr ∧
        (arr.length : Int) = zCount s.image.extent) :
    (dataModifiedOp s).dsType = t ∧
    (dataModifiedOp s).image.typeTag = some t ∧
    (t = tiltSeriesType →
      (dataModifiedOp s).image.tiltAngles = s.image.tiltAngles) := by
  unfold dataModifiedOp
  rw [htag]
  dsimp only
  unfold setTypeOp
  dsimp only
  by_cases ht : t = tiltSeriesType
  · rw [if_pos ht]
    obtain ⟨arr, ha, hlen⟩ := htilt ht
    have h1 : setTypeOnImage s.image t = { s.image with typeTag := some t } := by
      unfold setTypeOnImage
      dsimp only
      rw [if_neg (not_not_intro ht)]
    have h2 : createOrResizeTiltAnglesArray { s.image with typeTag := some t } =
        { s.image with typeTag := some t } := by
      unfold createOrResizeTiltAnglesArray
      dsimp only
      rw [ha]
      dsimp only
      rw [if_neg (by omega)]
    rw [h1, h2]
    exact ⟨rfl, rfl, fun _ => rfl⟩
  · rw [if_neg ht]
    exact ⟨rfl, (setTypeOnImage_fields s.image t).2.2.1, fun h => absurd h ht⟩

/-- Net effect of setActiveScalars on the fields tracked by the round-trip
claim, for an existing array name and a present type tag. -/
theorem setActiveScalars_roundtrip_core (s0 : DataSourceModel) (act : String)
    (t : Int)
    (hmem : act ∈ listScalars s0.image)
    (htag : s0.image.typeTag = some t)
    (htilt : t = tiltSeriesType →
      ∃ arr, s0.image.tiltAngles = some arr ∧
        (arr.length : Int) = zCount s0.image.extent) :
    (setActiveScalarsOp s0 act).mLabel = s0.mLabel ∧
    (setActiveScalarsOp s0 act).fileName = s0.fileName ∧
    (setActiveScalarsOp s0 act).image.active = some act ∧
    (setActiveScalarsOp s0 act).dsType = t ∧
    (t = tiltSeriesType →
      (setActiveScalarsOp s0 act).image.tiltAngles = s0.image.tiltAngles) ∧
    (setActiveScalarsOp s0 act).currentToOriginal = s0.currentToOriginal := by
  unfold setActiveScalarsOp
  rw [if_pos hmem]
  have h1 := dataModified_fields
    { s0 with image := { s0.image with active := some act } }
  have h2 := dataModified_type_tilt
    { s0 with image := { s0.image with active := some act } } t htag htilt
  exact ⟨h1.2.2.2.2.1, h1.2.2.2.2.2.1, h1.2.1, h2.1,
    fun h => h2.2.2 h, h1.2.2.2.1⟩

/-- C5: serialization round trip.  For a data source with no operators (and
no modules passed to serialize), whose active-scalars designation names an
existing array, whose rename map only tracks existing current names, whose
type tag agrees with the stored type, and whose tilt-angle array (for a
TiltSeries) is sized to the z extent, deserialize(serialize(s)) reproduces
the label, the active-scalars name, the dataset type, the tilt angles when
the type is TiltSeries, and the current-to-original rename map. -/
theorem serialize_roundtrip (s : DataSourceModel) (act : String)
    ( _hops : s.operators = [])
    (hact : s.image.active = some act)
    (hactmem : act ∈ listScalars s.image)
    (hkeys : ∀ p ∈ s.currentToOriginal, p.1 ∈ listScalars s.image)
    (htag : s.image.typeTag = some s.dsType)
    (htilt : s.dsType = tiltSeriesType →
      ∃ arr, s.image.tiltAngles = some arr ∧
        (arr.length : Int) = zCount s.image.extent) :
    labelOf (deserializeOp s (serializeOp s [])) = labelOf s ∧
    (deserializeOp s (serializeOp s [])).image.active = s.image.active ∧
    (deserializeOp s (serializeOp s [])).dsType = s.dsType ∧
    (s.dsType = tiltSeriesType →
      (deserializeOp s (serializeOp s [])).image.tiltAngles =
        s.image.tiltAngles) ∧
    (deserializeOp s (serializeOp s [])).currentToOriginal =
      s.currentToOriginal := by
  have hrep : ∀ l : String,
      (invertRenameMap s.currentToOriginal).foldl
        (fun st p => renameScalarsArrayOp st p.1 p.2) (setLabelOp s l) =
        setLabelOp s l := by
    intro l
    apply rename_replay_noop
    intro q hq
    obtain ⟨p, hp, he⟩ := invertRenameMap_mem s.currentToOriginal q hq
    have h2 : q.2 = p.1 := by rw [he]
    rw [h2]
    exact hkeys p hp
  have han : activeScalarsName s = act := by
    unfold activeScalarsName
    rw [hact]
    rfl
  have hmem1 : act ∈ listScalars (setLabelOp s (labelOf s)).image := hactmem
  have hcore := setActiveScalars_roundtrip_core (setLabelOp s (labelOf s))
    act s.dsType hmem1 htag htilt
  have hlab : labelOf (setActiveScalarsOp (setLabelOp s (labelOf s)) act) =
      labelOf s := by
    have hdef : labelOf (setActiveScalarsOp (setLabelOp s (labelOf s)) act) =
        (setActiveScalarsOp (setLabelOp s (labelOf s)) act).mLabel.getD
          (fileBaseName
            (setActiveScalarsOp (setLabelOp s (labelOf s)) act).fileName) := rfl
    rw [hdef, hcore.1, hcore.2.1]
    rfl
  unfold deserializeOp serializeOp
  dsimp only
  rw [hrep (labelOf s), han]
  cases hum : s.unitsModified with
  | false =>
    exact ⟨hlab, hcore.2.2.1.trans hact.symm, hcore.2.2.2.1,
      fun h => hcore.2.2.2.2.1 h, hcore.2.2.2.2.2⟩
  | true =>
    cases hui : s.unitsInternal with
    | none =>
      exact ⟨hlab, hcore.2.2.1.trans hact.symm, hcore.2.2.2.1,
        fun h => hcore.2.2.2.2.1 h, hcore.2.2.2.2.2⟩
    | some u =>
      exact ⟨hlab, hcore.2.2.1.trans hact.symm, hcore.2.2.2.1,
        fun h => hcore.2.2.2.2.1 h, hcore.2.2.2.2.2⟩

/-! ## Palette shift (C9) -/

/-- GetColor yields black for every index when BitsPerSample is not one of
1, 2, 4, 8, 16. -/
theorem getColor_zero_of_bits (bits : Nat) (cm : ColorMap16) (index : Int)
    (hb : ¬ (bits = 1 ∨ bits = 2 ∨ bits = 4 ∨ bits = 8 ∨ bits = 16)) :
    getColor bits cm index = (0, 0, 0) := by
  unfold getColor
  by_cases h0 : index < 0
  · rw [if_pos h0]
  · rw [if_neg h0, if_pos hb]

/-- PALETTE_RGB is only reachable for photometric palette with
BitsPerSample in 1, 2, 4, 8, 16: for any other bit depth GetColor is
identically black, so GetFormat answers PALETTE_GRAYSCALE. -/
theorem getFormat_paletteRgb (photo : Photometric) (bits : Nat)
    (cm : ColorMap16) (h : getFormat photo bits cm = ImageFormat.paletteRgb) :
    photo = Photometric.palette ∧
    (bits = 1 ∨ bits = 2 ∨ bits = 4 ∨ bits = 8 ∨ bits = 16) := by
  cases photo
  case palette =>
    refine ⟨rfl, ?_⟩
    by_cases hb : bits = 1 ∨ bits = 2 ∨ bits = 4 ∨ bits = 8 ∨ bits = 16
    · exact hb
    · exfalso
      have hz : ((List.range 256).any fun cc =>
          let c := getColor bits cm (cc : Int)
          decide (c.1 ≠ c.2.1 ∨ c.1 ≠ c.2.2)) = false := by
        rw [List.any_eq_false]
        intro cc _
        dsimp only
        rw [getColor_zero_of_bits bits cm (cc : Int) hb]
        simp
      unfold getFormat at h
      rw [hz] at h
      simp at h
  all_goals exact absurd h (by simp [getFormat])

/-- For BitsPerSample at most 16, ExecuteInformation picks a one- or
two-byte output scalar type. -/
theorem chooseScalarType_le16 (bits : Nat) (sf : Int) (t : VtkScalarType)
    (hb : bits ≤ 16) (ht : chooseScalarType bits sf = some t) :
    t = VtkScalarType.schar ∨ t = VtkScalarType.uchar ∨
    t = VtkScalarType.short ∨ t = VtkScalarType.ushort := by
  unfold chooseScalarType at ht
  by_cases h8 : bits ≤ 8
  · rw [if_pos h8] at ht
    by_cases hsf : sf = 2
    · rw [if_pos hsf] at ht
      left; injection ht with h; exact h.symm
    · rw [if_neg hsf] at ht
      right; left; injection ht with h; exact h.symm
  · rw [if_neg h8, if_pos hb] at ht
    by_cases hsf : sf = 2
    · rw [if_pos hsf] at ht
      right; right; left; injection ht with h; exact h.symm
    · rw [if_neg hsf] at ht
      right; right; right; injection ht with h; exact h.symm

/-- C9: palette shift.  For a pixel whose format evaluates to PALETTE_RGB
(which forces photometric palette and BitsPerSample in 1, 2, 4, 8, 16) and
an output scalar type chosen by ExecuteInformation for that bit depth,
EvaluateImageAt consumes three output cells and writes the color-table
red, green, blue entries shifted left by 8 bits (then truncated to the cell
width) when the output scalar type is wider than one byte, and shifted
right by 8 bits when the output scalar type is one byte wide. -/
theorem palette_shift (photo : Photometric) (bits : Nat) (cm : ColorMap16)
    (sf : Int) (t : VtkScalarType) (spp : Nat) (src : Nat → Nat) (srcOff : Nat)
    (hfmt : getFormat photo bits cm = ImageFormat.paletteRgb)
    (hty : chooseScalarType bits sf = some t) :
    (evaluateImageAt ImageFormat.paletteRgb photo spp bits cm t src srcOff).2
      = 3 ∧
    (1 < scalarWidthBytes t →
      (evaluateImageAt ImageFormat.paletteRgb photo spp bits cm t src
          srcOff).1 =
        [some (storeTrunc t
            ((getColor bits cm ((src srcOff : Nat) : Int)).1 * 2 ^ 8)),
         some (storeTrunc t
            ((getColor bits cm ((src srcOff : Nat) : Int)).2.1 * 2 ^ 8)),
         some (storeTrunc t
            ((getColor bits cm ((src srcOff : Nat) : Int)).2.2 * 2 ^ 8))]) ∧
    (scalarWidthBytes t = 1 →
      (evaluateImageAt ImageFormat.paletteRgb photo spp bits cm t src
          srcOff).1 =
        [some (storeTrunc t
            ((getColor bits cm ((src srcOff : Nat) : Int)).1 / 2 ^ 8)),
         some (storeTrunc t
            ((getColor bits cm ((src srcOff : Nat) : Int)).2.1 / 2 ^ 8)),
         some (storeTrunc t
            ((getColor bits cm ((src srcOff : Nat) : Int)).2.2 / 2 ^ 8))]) := by
  obtain ⟨hpal, hb⟩ := getFormat_paletteRgb photo bits cm hfmt
  have hb16 : bits ≤ 16 := by rcases hb with h | h | h | h | h <;> omega
  have ht4 := chooseScalarType_le16 bits sf t hb16 hty
  refine ⟨?_, ?_, ?_⟩
  · unfold evaluateImageAt
    dsimp only
    by_cases hst : t = VtkScalarType.short ∨ t = VtkScalarType.ushort
    · rw [if_pos hst]
    · rw [if_neg hst]
  · intro hw
    have hst : t = VtkScalarType.short ∨ t = VtkScalarType.ushort := by
      rcases ht4 with h | h | h | h <;> subst h
      · exact absurd hw (by simp [scalarWidthBytes])
      · exact absurd hw (by simp [scalarWidthBytes])
      · exact Or.inl rfl
      · exact Or.inr rfl
    unfold evaluateImageAt
    dsimp only
    rw [if_pos hst]
  · intro hw
    have hst : ¬ (t = VtkScalarType.short ∨ t = VtkScalarType.ushort) := by
      intro hc
      rcases hc with h | h <;> subst h <;> simp [scalarWidthBytes] at hw
    unfold evaluateImageAt
    dsimp only
    rw [if_neg hst]

theorem palette_shift_witness :
    (evaluateImageAt ImageFormat.paletteRgb Photometric.palette 1 8
        ⟨[512], [0], [0]⟩ VtkScalarType.uchar (fun _ => 0) 0).2 = 3 ∧
    (1 < scalarWidthBytes VtkScalarType.uchar →
      (evaluateImageAt ImageFormat.paletteRgb Photometric.palette 1 8
          ⟨[512], [0], [0]⟩ VtkScalarType.uchar (fun _ => 0) 0).1 =
        [some (storeTrunc VtkScalarType.uchar
            ((getColor 8 ⟨[512], [0], [0]⟩ (0 : Int)).1 * 2 ^ 8)),
         some (storeTrunc VtkScalarType.uchar
            ((getColor 8 ⟨[512], [0], [0]⟩ (0 : Int)).2.1 * 2 ^ 8)),
         some (storeTrunc VtkScalarType.uchar
            ((getColor 8 ⟨[512], [0], [0]⟩ (0 : Int)).2.2 * 2 ^ 8))]) ∧
    (scalarWidthBytes VtkScalarType.uchar = 1 →
      (evaluateImageAt ImageFormat.paletteRgb Photometric.palette 1 8
          ⟨[512], [0], [0]⟩ VtkScalarType.uchar (fun _ => 0) 0).1 =
        [some (storeTrunc VtkScalarType.uchar
            ((getColor 8 ⟨[512], [0], [0]⟩ (0 : Int)).1 / 2 ^ 8)),
         some (storeTrunc VtkScalarType.uchar
            ((getColor 8 ⟨[512], [0], [0]⟩ (0 : Int)).2.1 / 2 ^ 8)),
         some (storeTrunc VtkScalarType.uchar
            ((getColor 8 ⟨[512], [0], [0]⟩ (0 : Int)).2.2 / 2 ^ 8))]) :=
  palette_shift Photometric.palette 8 ⟨[512], [0], [0]⟩ 1 VtkScalarType.uchar
    1 (fun _ => 0) 0 (by decide) (by decide)

theorem serialize_roundtrip_witness :
    labelOf (deserializeOp egTiltDS (serializeOp egTiltDS [])) =
      labelOf egTiltDS ∧
    (deserializeOp egTiltDS (serializeOp egTiltDS [])).image.active =
      egTiltDS.image.active ∧
    (deserializeOp egTiltDS (serializeOp egTiltDS [])).dsType =
      egTiltDS.dsType ∧
    (egTiltDS.dsType = tiltSeriesType →
      (deserializeOp egTiltDS (serializeOp egTiltDS [])).image.tiltAngles =
        egTiltDS.image.tiltAngles) ∧
    (deserializeOp egTiltDS (serializeOp egTiltDS [])).currentToOriginal =
      egTiltDS.currentToOriginal :=
  serialize_roundtrip egTiltDS "Scalars" (by decide) (by decide) (by decide)
    (by decide) (by decide) (fun _ => ⟨[0], rfl, by decide⟩)

/-! ## Orientation flip across decode paths (C2) -/

/-- A store write depends on the previous store only pointwise. -/
theorem storeWriteList_pointwise (b1 b2 : Store) (d : Nat)
    (vals : List (Option Nat)) (i : Nat) (h : b1 i = b2 i) :
    storeWriteList b1 d vals i = storeWriteList b2 d vals i := by
  unfold storeWriteList
  split
  · rfl
  · exact h

/-- A loop of pointwise steps is pointwise. -/
theorem iterFrom_pointwise (step : Nat → Store → Store) (i : Nat)
    (hstep : ∀ j b1 b2, b1 i = b2 i → step j b1 i = step j b2 i) :
    ∀ (n k : Nat) (b1 b2 : Store), b1 i = b2 i →
      iterFrom step n k b1 i = iterFrom step n k b2 i := by
  intro n
  induction n with
  | zero => intro k b1 b2 h; exact h
  | succ m ih =>
    intro k b1 b2 h
    rw [iterFrom, iterFrom]
    exact ih (k + 1) _ _ (hstep k b1 b2 h)

/-- If exactly one pointwise step of a loop touches cell i, the loop at i
equals that step alone. -/
theorem iterFrom_step_value (step : Nat → Store → Store) (i : Nat)
    (hpt : ∀ j b1 b2, b1 i = b2 i → step j b1 i = step j b2 i) :
    ∀ (n k : Nat) (b : Store) (j0 : Nat), k ≤ j0 → j0 < k + n →
      (∀ j, k ≤ j → j < k + n → j ≠ j0 → ∀ b2, step j b2 i = b2 i) →
      iterFrom step n k b i = step j0 b i := by
  intro n
  induction n with
  | zero => intro k b j0 h1 h2 _; omega
  | succ m ih =>
    intro k b j0 h1 h2 hno
    rw [iterFrom]
    rcases Nat.eq_or_lt_of_le h1 with he | hlt
    · subst he
      rw [iterFrom_no_write step i m (k + 1) _
        (fun j ha hb b2 => hno j (by omega) (by omega) (by omega) b2)]
    · rw [ih (k + 1) (step k b) j0 (by omega) (by omega)
        (fun j ha hb hc b2 => hno j (by omega) (by omega) hc b2)]
      exact hpt j0 (step k b) b (hno k (by omega) (by omega) (by omega) b)

/-- Row strips of width w at distinct row indices are disjoint. -/
theorem row_disjoint (w r1 r2 c : Nat) (hc : c < w) (hne : r1 ≠ r2) :
    r1 * w + c < r2 * w ∨ r2 * w + w ≤ r1 * w + c := by
  rcases Nat.lt_or_ge r1 r2 with h | h
  · left
    have h2 : (r1 + 1) * w ≤ r2 * w := Nat.mul_le_mul_right w h
    calc r1 * w + c < r1 * w + w := by omega
      _ = (r1 + 1) * w := by ring
      _ ≤ r2 * w := h2
  · have h3 : r2 < r1 := by omega
    right
    have h2 : (r2 + 1) * w ≤ r1 * w := Nat.mul_le_mul_right w h3
    calc r2 * w + w = (r2 + 1) * w := by ring
      _ ≤ r1 * w := h2
      _ ≤ r1 * w + c := by omega

/-- Pixel ix of output row rowp only writes inside the strip of rowp, as
long as EvaluateImageAt produces at most outNcomp values. -/
theorem genericPixelStep_out (g : ScanImage) (fr rowp ix : Nat) (b : Store)
    (i : Nat)
    (hlen : ((evaluateImageAt (getFormat g.photo g.bits g.cm) g.photo g.spp
        g.bits g.cm g.t (g.scan fr) (ix * g.spp)).1.length ≤ g.outNcomp))
    (hix : ix < g.width)
    (hout : i < rowp * (g.outNcomp * g.width) ∨
      rowp * (g.outNcomp * g.width) + g.outNcomp * g.width ≤ i) :
    genericPixelStep g fr rowp ix b i = b i := by
  unfold genericPixelStep
  apply storeWriteList_get_out
  have h1 : ix * g.outNcomp + g.outNcomp ≤ g.outNcomp * g.width := by
    have h2 : ix + 1 ≤ g.width := hix
    have h3 : (ix + 1) * g.outNcomp ≤ g.width * g.outNcomp :=
      Nat.mul_le_mul_right g.outNcomp h2
    calc ix * g.outNcomp + g.outNcomp = (ix + 1) * g.outNcomp := by ring
      _ ≤ g.width * g.outNcomp := h3
      _ = g.outNcomp * g.width := Nat.mul_comm _ _
  rcases hout with h | h
  · left; omega
  · right; omega

/-- The value of a loop of row-relative list writes depends only on the
offset within the row strip, not on the strip base. -/
theorem iterFrom_wl_translate (vals : Nat → List (Option Nat))
    (pos : Nat → Nat) :
    ∀ (n k : Nat) (base1 base2 off : Nat) (b1 b2 : Store),
      b1 (base1 + off) = b2 (base2 + off) →
      iterFrom (fun ix b => storeWriteList b (base1 + pos ix) (vals ix)) n k b1
          (base1 + off) =
        iterFrom (fun ix b => storeWriteList b (base2 + pos ix) (vals ix)) n k
          b2 (base2 + off) := by
  intro n
  induction n with
  | zero => intro k base1 base2 off b1 b2 h; exact h
  | succ m ih =>
    intro k base1 base2 off b1 b2 h
    rw [iterFrom, iterFrom]
    apply ih
    unfold storeWriteList
    by_cases hc : pos k ≤ off ∧ off < pos k + (vals k).length
    · rw [if_pos (by omega), if_pos (by omega)]
      rw [show base1 + off - (base1 + pos k) = off - pos k from by omega,
          show base2 + off - (base2 + pos k) = off - pos k from by omega]
    · rw [if_neg (by omega), if_neg (by omega)]
      exact h

/-- Cell (row, off) of the generic decode is produced by the row loop
iteration of that row alone, started from an empty store. -/
theorem readGenericImage_row_eval (g : ScanImage)
    (hev : ∀ fr ix, ((evaluateImageAt (getFormat g.photo g.bits g.cm) g.photo
        g.spp g.bits g.cm g.t (g.scan fr) (ix * g.spp)).1.length ≤ g.outNcomp))
    (row off : Nat) (hrow : row < g.height)
    (hoff : off < g.outNcomp * g.width) :
    readGenericImage g (row * (g.outNcomp * g.width) + off) =
      genericRowStep g row emptyStore
        (row * (g.outNcomp * g.width) + off) := by
  have hpt : ∀ j b1 b2,
      b1 (row * (g.outNcomp * g.width) + off) =
        b2 (row * (g.outNcomp * g.width) + off) →
      genericRowStep g j b1 (row * (g.outNcomp * g.width) + off) =
        genericRowStep g j b2 (row * (g.outNcomp * g.width) + off) := by
    intro j b1 b2 h
    unfold genericRowStep
    apply iterFrom_pointwise
    · intro ix c1 c2 hc
      unfold genericPixelStep
      exact storeWriteList_pointwise c1 c2 _ _ _ hc
    · exact h
  have hlocal : ∀ j, 0 ≤ j → j < 0 + g.height → j ≠ row → ∀ b2,
      genericRowStep g j b2 (row * (g.outNcomp * g.width) + off) =
        b2 (row * (g.outNcomp * g.width) + off) := by
    intro j _ hj hne b2
    unfold genericRowStep
    apply iterFrom_no_write
    intro ix h1 h2 b3
    exact genericPixelStep_out g _ j ix b3 _ (hev _ ix) (by omega)
      (row_disjoint (g.outNcomp * g.width) row j off hoff (Ne.symm hne))
  unfold readGenericImage
  exact iterFrom_step_value (genericRowStep g) _ hpt g.height 0 emptyStore row
    (by omega) (by omega) hlocal

/-- Cell (row, c) of the templated fast-path decode: the scanline selected
by the flip. -/
theorem readTemplatedImage_eval (g : ScanImage) (row c : Nat)
    (hrow : row < g.height) (hc : c < g.width) :
    readTemplatedImage g (row * g.width + c) =
      some (g.scan (if g.flip then g.height - row - 1 else row) c) := by
  unfold readTemplatedImage
  by_cases hf : g.flip = true
  · rw [if_pos hf]
    apply iterFrom_last_write _ _ _ g.height 0 emptyStore (g.height - row - 1)
      (by omega) (by omega)
    · intro b2
      dsimp only
      rw [if_pos hf]
      rw [show g.height - (g.height - row - 1) - 1 = row from by omega]
      rw [storeWrite_get_in _ _ _ _ _ _ (by omega) (by omega)]
      rw [show 0 + (row * g.width + c - row * g.width) = c from by omega]
    · intro j hj1 hj2 b2
      dsimp only
      rw [if_pos hf]
      apply storeWrite_get_out
      exact row_disjoint g.width row (g.height - j - 1) c hc (by omega)
  · rw [if_neg hf]
    apply iterFrom_last_write _ _ _ g.height 0 emptyStore row
      (by omega) (by omega)
    · intro b2
      dsimp only
      rw [if_neg hf]
      rw [storeWrite_get_in _ _ _ _ _ _ (by omega) (by omega)]
      rw [show 0 + (row * g.width + c - row * g.width) = c from by omega]
    · intro j hj1 hj2 b2
      dsimp only
      rw [if_neg hf]
      apply storeWrite_get_out
      exact row_disjoint g.width row j c hc (by omega)

/-- The pixel loop of the contiguous two-samples branch advances one cell
per pixel when every EvaluateImageAt increment is 1. -/
theorem twoSppPixels_pure (g : ScanImage) (fr : Nat)
    (hone : ∀ ix, (evaluateImageAt (getFormat g.photo g.bits g.cm) g.photo
        g.spp g.bits g.cm g.t (g.scan fr) (ix * g.spp)).2 = 1) :
    ∀ (n ix : Nat) (b : Store) (base i : Nat),
    twoSppPixels g fr n ix (b, base + ix, i) =
      (iterFrom (fun k c => storeWriteList c (base + k)
          (evaluateImageAt (getFormat g.photo g.bits g.cm) g.photo g.spp
            g.bits g.cm g.t (g.scan fr) (k * g.spp)).1) n ix b,
       base + ix + n, if n = 0 then i else 1) := by
  intro n
  induction n with
  | zero => intro ix b base i; rfl
  | succ m ih =>
    intro ix b base i
    simp only [twoSppPixels]
    rw [hone ix]
    have h2 := ih (ix + 1)
      (storeWriteList b (base + ix)
        (evaluateImageAt (getFormat g.photo g.bits g.cm) g.photo g.spp
          g.bits g.cm g.t (g.scan fr) (ix * g.spp)).1) base 1
    rw [show base + ix + (m + 1) = base + (ix + 1) + m from by omega]
    rw [show base + ix + 1 = base + (ix + 1) from rfl]
    rw [h2, ite_self]
    rfl

/-- The iteration count of the pixel loop never exceeds the width. -/
theorem stepCount_spp (w s : Nat) : stepCount (w * s) s ≤ w := by
  unfold stepCount
  cases s with
  | zero => simp
  | succ t =>
    have h0 : 0 < t + 1 := Nat.succ_pos t
    have he : w * (t + 1) + (t + 1) - 1 = (t + 1) * w + t := by
      rw [Nat.mul_comm]; omega
    rw [he, Nat.mul_add_div h0, Nat.div_eq_of_lt (by omega)]
    omega

/-- One contiguous-branch row with incoming increment 1 is its pure form,
and leaves the increment at 1. -/
theorem twoSppRow_pure (g : ScanImage)
    (hone : ∀ fr ix, (evaluateImageAt (getFormat g.photo g.bits g.cm) g.photo
        g.spp g.bits g.cm g.t (g.scan fr) (ix * g.spp)).2 = 1)
    (k : Nat) (b : Store) :
    twoSppRow g k (b, 1) = (twoSppRowPure g k b, 1) := by
  have hb : (if g.flip then g.width * 1 * (g.height - (k + 1))
      else k * g.width * 1) =
      (if g.flip then g.height - k - 1 else k) * g.width := by
    cases g.flip
    · simp
    · simp only [if_pos]
      have hs : g.height - (k + 1) = g.height - k - 1 := by omega
      rw [Nat.mul_one, hs, Nat.mul_comm]
  have hA := twoSppPixels_pure g k (fun ix => hone k ix)
    (stepCount (g.width * g.spp) g.spp) 0 b
    ((if g.flip then g.height - k - 1 else k) * g.width) 1
  simp only [Nat.add_zero] at hA
  simp only [twoSppRow]
  rw [hb, hA, ite_self]
  rfl

/-- The contiguous-branch row loop under increment-1 evaluation is the
loop of the pure rows. -/
theorem readTwoSpp_rows (g : ScanImage)
    (hone : ∀ fr ix, (evaluateImageAt (getFormat g.photo g.bits g.cm) g.photo
        g.spp g.bits g.cm g.t (g.scan fr) (ix * g.spp)).2 = 1) :
    ∀ (n k : Nat) (b : Store),
    iterInc (twoSppRow g) n k (b, 1) =
      (iterFrom (twoSppRowPure g) n k b, 1) := by
  intro n
  induction n with
  | zero => intro k b; rfl
  | succ m ih =>
    intro k b
    rw [iterInc, iterFrom]
    rw [twoSppRow_pure g hone k b]
    exact ih (k + 1) (twoSppRowPure g k b)

/-- Under increment-1 evaluation the whole contiguous decode is the pure
row loop. -/
theorem readTwoSppImage_pure (g : ScanImage)
    (hone : ∀ fr ix, (evaluateImageAt (getFormat g.photo g.bits g.cm) g.photo
        g.spp g.bits g.cm g.t (g.scan fr) (ix * g.spp)).2 = 1) :
    readTwoSppImage g = iterFrom (twoSppRowPure g) g.height 0 emptyStore := by
  unfold readTwoSppImage
  rw [readTwoSpp_rows g hone g.height 0 emptyStore]

/-- Cell (row, c) of the pure row loop is produced by the single file row
whose output row is row, when each pixel writes exactly one cell. -/
theorem twoSppPure_step_value (g : ScanImage)
    (hlen : ∀ fr ix, (evaluateImageAt (getFormat g.photo g.bits g.cm) g.photo
        g.spp g.bits g.cm g.t (g.scan fr) (ix * g.spp)).1.length = 1)
    (row c j0 : Nat) (hc : c < g.width) (hj0 : j0 < g.height)
    (hj0r : (if g.flip then g.height - j0 - 1 else j0) = row) :
    iterFrom (twoSppRowPure g) g.height 0 emptyStore (row * g.width + c) =
      twoSppRowPure g j0 emptyStore (row * g.width + c) := by
  have hpt : ∀ j b1 b2, b1 (row * g.width + c) = b2 (row * g.width + c) →
      twoSppRowPure g j b1 (row * g.width + c) =
        twoSppRowPure g j b2 (row * g.width + c) := by
    intro j b1 b2 h
    unfold twoSppRowPure
    apply iterFrom_pointwise
    · intro kk c1 c2 hcc
      exact storeWriteList_pointwise c1 c2 _ _ _ hcc
    · exact h
  have hnw : ∀ j, j < g.height → j ≠ j0 → ∀ b2,
      twoSppRowPure g j b2 (row * g.width + c) = b2 (row * g.width + c) := by
    intro j hj hne b2
    have hneq : row ≠ (if g.flip then g.height - j - 1 else j) := by
      by_cases hgf : g.flip = true
      · rw [if_pos hgf] at hj0r ⊢
        omega
      · rw [if_neg hgf] at hj0r ⊢
        omega
    unfold twoSppRowPure
    apply iterFrom_no_write
    intro kk _ hkk b3
    apply storeWriteList_get_out
    rw [hlen j kk]
    have hnp := stepCount_spp g.width g.spp
    have hd := row_disjoint g.width row (if g.flip then g.height - j - 1 else j)
      c hc hneq
    omega
  exact iterFrom_step_value (twoSppRowPure g) (row * g.width + c) hpt g.height 0
    emptyStore j0 (Nat.zero_le j0) (by omega)
    (fun j h1 hj hne b2 => hnw j (by omega) hne b2)

/-- C2 amended: in the scanline decode paths (the generic per-pixel path
and the templated fast path) the orientation flip selects file row
height - row - 1, so decoding the same pixel content with the flip set
yields the vertical mirror of the unflipped decode, cell for cell.  The
two-samples-per-pixel contiguous path computes its flipped row base as
width * inc * (height - (row + 1)), consistent with the same formula, but
with inc the increment left over from the previous row (initialised to 1);
when every EvaluateImageAt call advances by exactly one element and writes
exactly one element (as for the grayscale formats) that decode too is the
vertical mirror of its unflipped twin, stated here as the third conjunct.
(The claim fails for the tiled path: see the counterexample, whose flipped
boundary pass reads the wrong tile row and then aborts.) -/
theorem scanline_flip_mirror (g : ScanImage) (row off c : Nat)
    (hflip : g.flip = true)
    (hev : ∀ fr ix, ((evaluateImageAt (getFormat g.photo g.bits g.cm) g.photo
        g.spp g.bits g.cm g.t (g.scan fr) (ix * g.spp)).1.length ≤ g.outNcomp))
    (hrow : row < g.height) (hoff : off < g.outNcomp * g.width)
    (hc : c < g.width) :
    readGenericImage g (row * (g.outNcomp * g.width) + off) =
      readGenericImage { g with flip := false }
        ((g.height - row - 1) * (g.outNcomp * g.width) + off) ∧
    readTemplatedImage g (row * g.width + c) =
      readTemplatedImage { g with flip := false }
        ((g.height - row - 1) * g.width + c) ∧
    ((∀ fr ix, (evaluateImageAt (getFormat g.photo g.bits g.cm) g.photo g.spp
          g.bits g.cm g.t (g.scan fr) (ix * g.spp)).2 = 1 ∧
        (evaluateImageAt (getFormat g.photo g.bits g.cm) g.photo g.spp g.bits
          g.cm g.t (g.scan fr) (ix * g.spp)).1.length = 1) →
      readTwoSppImage g (row * g.width + c) =
        readTwoSppImage { g with flip := false }
          ((g.height - row - 1) * g.width + c)) := by
  refine ⟨?_, ?_, ?_⟩
  · have h1 := readGenericImage_row_eval g hev row off hrow hoff
    have h2 : readGenericImage { g with flip := false }
        ((g.height - row - 1) * (g.outNcomp * g.width) + off) =
        genericRowStep { g with flip := false } (g.height - row - 1) emptyStore
          ((g.height - row - 1) * (g.outNcomp * g.width) + off) :=
      readGenericImage_row_eval { g with flip := false } hev
        (g.height - row - 1) off (show g.height - row - 1 < g.height from
          by omega) hoff
    rw [h1, h2]
    unfold genericRowStep
    dsimp only
    rw [if_pos hflip]
    exact iterFrom_wl_translate
      (fun ix => (evaluateImageAt (getFormat g.photo g.bits g.cm) g.photo
        g.spp g.bits g.cm g.t (g.scan (g.height - row - 1)) (ix * g.spp)).1)
      (fun ix => ix * g.outNcomp) g.width 0
      (row * (g.outNcomp * g.width))
      ((g.height - row - 1) * (g.outNcomp * g.width)) off emptyStore
      emptyStore rfl
  · have e1 := readTemplatedImage_eval g row c hrow hc
    rw [if_pos hflip] at e1
    have e2 : readTemplatedImage { g with flip := false }
        ((g.height - row - 1) * g.width + c) =
        some (g.scan (g.height - row - 1) c) :=
      readTemplatedImage_eval { g with flip := false } (g.height - row - 1) c
        (show g.height - row - 1 < g.height from by omega) hc
    exact e1.trans e2.symm
  · intro hone
    have hone1 : ∀ fr ix, (evaluateImageAt (getFormat g.photo g.bits g.cm)
        g.photo g.spp g.bits g.cm g.t (g.scan fr) (ix * g.spp)).2 = 1 :=
      fun fr ix => (hone fr ix).1
    have hlen1 : ∀ fr ix, (evaluateImageAt (getFormat g.photo g.bits g.cm)
        g.photo g.spp g.bits g.cm g.t (g.scan fr) (ix * g.spp)).1.length = 1 :=
      fun fr ix => (hone fr ix).2
    have p1 : readTwoSppImage g =
        iterFrom (twoSppRowPure g) g.height 0 emptyStore :=
      readTwoSppImage_pure g hone1
    have p2 : readTwoSppImage { g with flip := false } =
        iterFrom (twoSppRowPure { g with flip := false }) g.height 0
          emptyStore :=
      readTwoSppImage_pure { g with flip := false } (fun fr ix => hone1 fr ix)
    rw [p1, p2]
    have q1 : iterFrom (twoSppRowPure g) g.height 0 emptyStore
          (row * g.width + c) =
        twoSppRowPure g (g.height - row - 1) emptyStore
          (row * g.width + c) :=
      twoSppPure_step_value g hlen1 row c (g.height - row - 1) hc
        (by omega) (by rw [if_pos hflip]; omega)
    have q2 : iterFrom (twoSppRowPure { g with flip := false }) g.height 0
          emptyStore ((g.height - row - 1) * g.width + c) =
        twoSppRowPure { g with flip := false } (g.height - row - 1) emptyStore
          ((g.height - row - 1) * g.width + c) :=
      twoSppPure_step_value { g with flip := false } (fun fr ix => hlen1 fr ix)
        (g.height - row - 1) c (g.height - row - 1) hc
        (show g.height - row - 1 < g.height from by omega) rfl
    rw [q1, q2]
    unfold twoSppRowPure
    rw [if_pos hflip]
    rw [show g.height - (g.height - row - 1) - 1 = row from by omega]
    exact iterFrom_wl_translate
      (fun kk => (evaluateImageAt (getFormat g.photo g.bits g.cm) g.photo
        g.spp g.bits g.cm g.t (g.scan (g.height - row - 1)) (kk * g.spp)).1)
      (fun kk => kk) (stepCount (g.width * g.spp) g.spp) 0
      (row * g.width) ((g.height - row - 1) * g.width) c emptyStore
      emptyStore rfl

theorem scanline_flip_mirror_witness :
    readGenericImage
        ⟨2, 2, 1, 8, Photometric.minisblack, ⟨[], [], []⟩,
         VtkScalarType.uchar, true, 1, fun r c => r * 10 + c⟩
        (0 * (1 * 2) + 1) =
      readGenericImage
        ⟨2, 2, 1, 8, Photometric.minisblack, ⟨[], [], []⟩,
         VtkScalarType.uchar, false, 1, fun r c => r * 10 + c⟩
        ((2 - 0 - 1) * (1 * 2) + 1) ∧
    readTemplatedImage
        ⟨2, 2, 1, 8, Photometric.minisblack, ⟨[], [], []⟩,
         VtkScalarType.uchar, true, 1, fun r c => r * 10 + c⟩
        (0 * 2 + 1) =
      readTemplatedImage
        ⟨2, 2, 1, 8, Photometric.minisblack, ⟨[], [], []⟩,
         VtkScalarType.uchar, false, 1, fun r c => r * 10 + c⟩
        ((2 - 0 - 1) * 2 + 1) ∧
    readTwoSppImage
        ⟨2, 2, 1, 8, Photometric.minisblack, ⟨[], [], []⟩,
         VtkScalarType.uchar, true, 1, fun r c => r * 10 + c⟩
        (0 * 2 + 1) =
      readTwoSppImage
        ⟨2, 2, 1, 8, Photometric.minisblack, ⟨[], [], []⟩,
         VtkScalarType.uchar, false, 1, fun r c => r * 10 + c⟩
        ((2 - 0 - 1) * 2 + 1) :=
  have h := scanline_flip_mirror
    ⟨2, 2, 1, 8, Photometric.minisblack, ⟨[], [], []⟩,
     VtkScalarType.uchar, true, 1, fun r c => r * 10 + c⟩
    0 1 1 rfl (fun fr ix => by simp [evaluateImageAt, getFormat])
    (by decide) (by decide) (by decide)
  ⟨h.1, h.2.1, h.2.2 (fun fr ix => by simp [evaluateImageAt, getFormat])⟩

/-- C2 counterexample, tiled path: width 100, height 128, tile 64 x 64,
pixel size 1, one page, pixel content px r c = r * 1000 + c.  Unflipped,
ReadTiles succeeds.  Flipped, the right-edge pass computes
r = height - row - tileHeight - 1: for the first row block this lands in
the wrong tile block (tile rows 0..63 instead of 64..127), whose content
is copied mirrored, leaving for instance file row 63 instead of file row
127 at output cell (0, 64); for the last row block r underflows to
2^32 - 1, TIFFReadTile fails and the decode aborts.  So a flipped tiled
decode is not the vertical mirror of the unflipped one. -/
theorem readTiles_flip_counterexample :
    (readTiles ⟨100, 128, 64, 64, 1, 1, false, fun r c => r * 1000 + c⟩).2 =
      true ∧
    (readTiles ⟨100, 128, 64, 64, 1, 1, true, fun r c => r * 1000 + c⟩).2 =
      false ∧
    (readTiles ⟨100, 128, 64, 64, 1, 1, true, fun r c => r * 1000 + c⟩).1 64 =
      some 63064 ∧
    scanlineReference ⟨100, 128, 64, 64, 1, 1, true, fun r c => r * 1000 + c⟩
      0 64 = 127064 := by
  refine ⟨by decide, by decide, by decide, by decide⟩

/-! ## Tiled decode versus the scanline reference (C1) -/

/-- A fallible loop whose steps all succeed keeps the success flag. -/
theorem loopE_flag (step : Nat → Store → Store × Bool) :
    ∀ (n k : Nat) (b : Store),
      (∀ j b2, k ≤ j → j < k + n → ((step j b2).2) = true) →
      (loopE step n k (b, true)).2 = true := by
  intro n
  induction n with
  | zero => intro k b _; rfl
  | succ m ih =>
    intro k b h
    rw [loopE]
    rw [if_pos (show ((b : Store), true).2 = true from rfl)]
    have hp : step k b = ((step k b).1, true) := by
      rw [← h k b (by omega) (by omega)]
    rw [hp]
    exact ih (k + 1) _ (fun j b2 ha hb => h j b2 (by omega) (by omega))

/-- A fallible loop whose steps do not touch cell i leaves it unchanged,
whether or not the loop aborts. -/
theorem loopE_no_write (step : Nat → Store → Store × Bool) (i : Nat) :
    ∀ (n k : Nat) (sb : Store × Bool),
      (∀ j, k ≤ j → j < k + n → ∀ b2, ((step j b2).1) i = b2 i) →
      (loopE step n k sb).1 i = sb.1 i := by
  intro n
  induction n with
  | zero => intro k sb _; rfl
  | succ m ih =>
    intro k sb h
    rw [loopE]
    by_cases hb : sb.2 = true
    · rw [if_pos hb]
      rw [ih (k + 1) (step k sb.1) (fun j ha hb2 b2 => h j (by omega) (by omega) b2)]
      exact h k (by omega) (by omega) sb.1
    · rw [if_neg hb]

/-- In a loop of succeeding steps, the value of cell i is the one written
by a step that writes it constantly and after which nothing touches it. -/
theorem loopE_last_write (step : Nat → Store → Store × Bool) (i : Nat)
    (v : Option Nat) :
    ∀ (n k : Nat) (b : Store) (j0 : Nat), k ≤ j0 → j0 < k + n →
      (∀ j b2, k ≤ j → j < k + n → ((step j b2).2) = true) →
      (∀ b2, ((step j0 b2).1) i = v) →
      (∀ j, j0 < j → j < k + n → ∀ b2, ((step j b2).1) i = b2 i) →
      (loopE step n k (b, true)).1 i = v := by
  intro n
  induction n with
  | zero => intro k b j0 h1 h2 _ _ _; omega
  | succ m ih =>
    intro k b j0 h1 h2 hflag hw hno
    rw [loopE]
    rw [if_pos (show ((b : Store), true).2 = true from rfl)]
    rcases Nat.eq_or_lt_of_le h1 with he | hlt
    · subst he
      rw [loopE_no_write step i m (k + 1) (step k b)
        (fun j ha hb b2 => hno j (by omega) (by omega) b2)]
      exact hw b
    · have hp : step k b = ((step k b).1, true) := by
        rw [← hflag k b (by omega) (by omega)]
      rw [hp]
      exact ih (k + 1) ((step k b).1) j0 (by omega) (by omega)
        (fun j b2 ha hb => hflag j b2 (by omega) (by omega)) hw
        (fun j ha hb b2 => hno j ha (by omega) b2)

/-- A tile read at an in-range coordinate of the first page succeeds, and
its content is the pixel content of the tile block containing it. -/
theorem tiffReadTile_some (f : TiledTiff) (x y : Nat) (hx : x < f.width)
    (hy : y < f.height) :
    tiffReadTile f x y 0 = some (fun idx =>
      f.px (y / f.tileHeight * f.tileHeight + idx / (f.tileWidth * f.pixelSize))
        (x / f.tileWidth * f.tileWidth * f.pixelSize +
          idx % (f.tileWidth * f.pixelSize))) := by
  unfold tiffReadTile
  rw [if_pos ⟨hx, hy, by omega⟩]

/-- A row-strip write at output row R and byte columns
[COLps, COLps + LENps) misses cell (d, c) when the rows differ or the
column is outside the span. -/
theorem write_miss2 (W d c R COLps LENps : Nat) (hc : c < W)
    (hC : COLps + LENps ≤ W)
    (h : R ≠ d ∨ c < COLps ∨ COLps + LENps ≤ c) :
    d * W + c < R * W + COLps ∨ R * W + COLps + LENps ≤ d * W + c := by
  by_cases hR : R = d
  · subst hR
    rcases h with h | h | h
    · exact absurd rfl h
    · left; omega
    · right; omega
  · rcases row_disjoint W d R c hc (fun he => hR he.symm) with h2 | h2
    · left; omega
    · right; omega

/-- Reading a tile row buffer: byte rem of tile row yy. -/
theorem tile_value (px : Nat → Nat → Nat) (tw ps ybase xbase yy rem : Nat)
    (htw : 0 < tw) (hps : 0 < ps) (hrem : rem < tw * ps) :
    px (ybase + (yy * tw * ps + rem) / (tw * ps))
        (xbase * ps + (yy * tw * ps + rem) % (tw * ps)) =
      px (ybase + yy) (xbase * ps + rem) := by
  rw [show yy * tw * ps + rem = rem + yy * (tw * ps) from by ring]
  rw [Nat.add_mul_div_right _ _ (Nat.mul_pos htw hps)]
  rw [Nat.div_eq_of_lt hrem, Nat.zero_add]
  rw [Nat.add_mul_mod_self_right, Nat.mod_eq_of_lt hrem]

/-- The main-pass column step never touches cell i0 when no tile-row copy
of this output row block does. -/
theorem mainCol_no_write (f : TiledTiff) (slice row : Nat) (i : Nat) (i0 : Nat)
    (h : ∀ tile yy, yy < f.tileHeight → ∀ b2 : Store,
      mainYY f slice row (i * f.tileWidth) tile yy b2 i0 = b2 i0) :
    ∀ b : Store, ((mainCol f slice row i b).1) i0 = b i0 := by
  intro b
  unfold mainCol
  dsimp only
  by_cases hf : f.flip = true
  · rw [if_pos hf]
    cases hread : tiffReadTile f (i * f.tileWidth)
        (usub32 (usub32 f.height row) f.tileHeight) slice with
    | none => rfl
    | some tile =>
      exact iterFrom_no_write _ _ _ _ _
        (fun yy ha hb b2 => h tile yy (by omega) b2)
  · rw [if_neg hf]
    cases hread : tiffReadTile f (i * f.tileWidth) row slice with
    | none => rfl
    | some tile =>
      exact iterFrom_no_write _ _ _ _ _
        (fun yy ha hb b2 => h tile yy (by omega) b2)

/-- The right-edge row step never touches cell i0 when no tile-row copy of
this row block at the right-edge column does. -/
theorem rightRow_no_write (f : TiledTiff) (j : Nat) (i0 : Nat)
    (h : ∀ tile yy, yy < f.tileHeight → ∀ b2 : Store,
      rightYY f (j * f.tileHeight) (f.width - f.width % f.tileWidth) tile yy b2
        i0 = b2 i0) :
    ∀ b : Store, ((rightRow f j b).1) i0 = b i0 := by
  intro b
  unfold rightRow
  dsimp only
  by_cases hf : f.flip = true
  · rw [if_pos hf]
    cases hread : tiffReadTile f (f.width - f.width % f.tileWidth)
        (usub32 (usub32 (usub32 f.height (j * f.tileHeight)) f.tileHeight) 1)
        0 with
    | none => rfl
    | some tile =>
      exact iterFrom_no_write _ _ _ _ _
        (fun yy ha hb b2 => h tile yy (by omega) b2)
  · rw [if_neg hf]
    cases hread : tiffReadTile f (f.width - f.width % f.tileWidth)
        (j * f.tileHeight) 0 with
    | none => rfl
    | some tile =>
      exact iterFrom_no_write _ _ _ _ _
        (fun yy ha hb b2 => h tile yy (by omega) b2)

/-- The bottom-pass column step never touches cell i0 when no tile-row copy
of the bottom row block does. -/
theorem bottomCol_no_write (f : TiledTiff) (i : Nat) (i0 : Nat)
    (h : ∀ tile yy, yy < f.height % f.tileHeight → ∀ b2 : Store,
      bottomYY f (if f.flip then 0 else f.height - f.height % f.tileHeight)
        (i * f.tileWidth) tile yy b2 i0 = b2 i0) :
    ∀ b : Store, ((bottomCol f i b).1) i0 = b i0 := by
  intro b
  unfold bottomCol
  dsimp only
  cases hread : tiffReadTile f (i * f.tileWidth)
      (f.height - f.height % f.tileHeight) 0 with
  | none => rfl
  | some tile =>
    exact iterFrom_no_write _ _ _ _ _
      (fun yy ha hb b2 => h tile yy (by omega) b2)

/-- The corner pass never touches cell i0 when no tile-row copy of the
corner tile does. -/
theorem cornerPass_no_write (f : TiledTiff) (i0 : Nat)
    (h : ∀ tile yy, yy < f.height % f.tileHeight → ∀ b2 : Store,
      cornerYY f (if f.flip then 0 else f.height - f.height % f.tileHeight)
        (f.width - f.width % f.tileWidth) tile yy b2 i0 = b2 i0)
    (b : Store) : ((cornerPass f b).1) i0 = b i0 := by
  unfold cornerPass
  dsimp only
  cases hread : tiffReadTile f (f.width - f.width % f.tileWidth)
      (f.height - f.height % f.tileHeight) 0 with
  | none => rfl
  | some tile =>
    exact iterFrom_no_write _ _ _ _ _
      (fun yy ha hb b2 => h tile yy (by omega) b2)

/-- The main-pass column step succeeds when the read coordinate is in
range. -/
theorem mainCol_flag (f : TiledTiff) (slice row i : Nat) (b : Store)
    (hx : i * f.tileWidth < f.width)
    (hy : (if f.flip then usub32 (usub32 f.height row) f.tileHeight else row)
      < f.height)
    (hz : slice < 1) : ((mainCol f slice row i b).2) = true := by
  unfold mainCol tiffReadTile
  dsimp only
  rw [if_pos ⟨hx, hy, hz⟩]

/-- The right-edge row step succeeds when the read coordinate is in
range. -/
theorem rightRow_flag (f : TiledTiff) (j : Nat) (b : Store)
    (hx : f.width - f.width % f.tileWidth < f.width)
    (hy : (if f.flip then
        usub32 (usub32 (usub32 f.height (j * f.tileHeight)) f.tileHeight) 1
      else j * f.tileHeight) < f.height) :
    ((rightRow f j b).2) = true := by
  unfold rightRow tiffReadTile
  dsimp only
  rw [if_pos ⟨hx, hy, by omega⟩]

/-- The bottom-pass column step succeeds when the read coordinate is in
range. -/
theorem bottomCol_flag (f : TiledTiff) (i : Nat) (b : Store)
    (hx : i * f.tileWidth < f.width)
    (hy : f.height - f.height % f.tileHeight < f.height) :
    ((bottomCol f i b).2) = true := by
  unfold bottomCol tiffReadTile
  dsimp only
  rw [if_pos ⟨hx, hy, by omega⟩]

/-- The corner pass succeeds when the read coordinate is in range. -/
theorem cornerPass_flag (f : TiledTiff) (b : Store)
    (hx : f.width - f.width % f.tileWidth < f.width)
    (hy : f.height - f.height % f.tileHeight < f.height) :
    ((cornerPass f b).2) = true := by
  unfold cornerPass tiffReadTile
  dsimp only
  rw [if_pos ⟨hx, hy, by omega⟩]

/-- The i-th block of a partial tiling stays within the total. -/
theorem mul_bound_of_lt (i Q tw rest w : Nat) (hi : i < Q)
    (hw : tw * Q + rest = w) : i * tw + tw ≤ w := by
  have h1 : (i + 1) * tw ≤ Q * tw := Nat.mul_le_mul_right tw hi
  have h2 : (i + 1) * tw = i * tw + tw := by ring
  have h3 : Q * tw = tw * Q := Nat.mul_comm _ _
  omega

/-- Rounding a block-aligned coordinate plus a remainder down to the block
grid. -/
theorem block_div (th A r : Nat) (hth : 0 < th) (hr : r < th) :
    (A * th + r) / th * th = A * th := by
  rw [show A * th + r = r + A * th from by omega]
  rw [Nat.add_mul_div_right _ _ hth, Nat.div_eq_of_lt hr, Nat.zero_add]

/-- Rounding an exactly block-aligned coordinate down to the block grid. -/
theorem block_div0 (tw A : Nat) (htw : 0 < tw) :
    A * tw / tw * tw = A * tw := by
  rw [Nat.mul_div_cancel _ htw]

/-- Splitting the row total at block j0 counted from the far end. -/
theorem sub_block (th M j0 : Nat) (h : j0 < M) :
    (M - j0 - 1) * th + th * j0 + th = th * M := by
  have e : th * (M - j0 - 1 + j0 + 1) = th * M := by
    rw [show M - j0 - 1 + j0 + 1 = M from by omega]
  rw [Nat.mul_add, Nat.mul_add, Nat.mul_one] at e
  have hcm := Nat.mul_comm th (M - j0 - 1)
  omega

/-- The value written into cell (d, c) by a tile-row copy targeting output
row X + Y and byte columns [COL * ps, COL * ps + LENW * ps). -/
theorem stripYY_value (b : Store) (hgt wdt ps : Nat) (X Y COL LENW : Nat)
    (tile : Nat → Nat) (srcOff : Nat) (d c : Nat)
    (hrow : X + Y = d)
    (hcol1 : COL * ps ≤ c) (hcol2 : c < COL * ps + LENW * ps) :
    storeWrite b (((0 * hgt + X + Y) * wdt + COL) * ps) tile srcOff
        (LENW * ps) (d * (wdt * ps) + c) =
      some (tile (srcOff + (c - COL * ps))) := by
  have e1 : ((0 * hgt + X + Y) * wdt + COL) * ps = d * (wdt * ps) + COL * ps := by
    rw [show 0 * hgt + X + Y = d from by omega]; ring
  rw [storeWrite_get_in _ _ _ _ _ _ (by omega) (by omega)]
  have e2 : srcOff + (d * (wdt * ps) + c -
      ((0 * hgt + X + Y) * wdt + COL) * ps) = srcOff + (c - COL * ps) := by
    omega
  rw [e2]

/-- A tile-row copy misses cell (d, c) when the output rows differ or the
byte column is outside the copied span. -/
theorem stripYY_miss (b : Store) (hgt wdt ps : Nat) (X Y COL LENW : Nat)
    (tile : Nat → Nat) (srcOff : Nat) (d c : Nat)
    (hc : c < wdt * ps) (hCL : COL + LENW ≤ wdt)
    (hmiss : X + Y ≠ d ∨ c < COL * ps ∨ COL * ps + LENW * ps ≤ c) :
    storeWrite b (((0 * hgt + X + Y) * wdt + COL) * ps) tile srcOff
        (LENW * ps) (d * (wdt * ps) + c) = b (d * (wdt * ps) + c) := by
  apply storeWrite_get_out
  have e1 : ((0 * hgt + X + Y) * wdt + COL) * ps =
      (X + Y) * (wdt * ps) + COL * ps := by ring
  have e2 : (COL + LENW) * ps ≤ wdt * ps := Nat.mul_le_mul_right ps hCL
  have e3 : (COL + LENW) * ps = COL * ps + LENW * ps := by ring
  rcases write_miss2 (wdt * ps) d c (X + Y) (COL * ps) (LENW * ps) hc
      (by omega) hmiss with h | h
  · left; omega
  · right; omega

/-- The row loop of the main and right-edge passes runs once per full tile
row block when the height is not a multiple of the tile height. -/
theorem stepCount_rows (f : TiledTiff) (hth : 0 < f.tileHeight)
    (hthle : f.tileHeight ≤ f.height) (hrm : f.height % f.tileHeight ≠ 0) :
    stepCount (rowBound f) f.tileHeight = f.height / f.tileHeight := by
  have hhM := Nat.div_add_mod f.height f.tileHeight
  have hleny : f.height % f.tileHeight < f.tileHeight := Nat.mod_lt _ hth
  have hleny0 : 0 < f.height % f.tileHeight := Nat.pos_of_ne_zero hrm
  unfold stepCount rowBound usub32
  rw [if_neg hrm, if_pos hthle]
  rw [show f.height - f.tileHeight + f.tileHeight - 1 =
    f.height % f.tileHeight - 1 +
      f.tileHeight * (f.height / f.tileHeight) from by omega]
  rw [Nat.add_mul_div_left _ _ hth, Nat.div_eq_of_lt (by omega), Nat.zero_add]

/-- The column loop of the main and bottom passes runs once per full tile
column block when the width is not a multiple of the tile width. -/
theorem stepCount_cols (f : TiledTiff) (htw : 0 < f.tileWidth)
    (htwle : f.tileWidth ≤ f.width) (hcm : f.width % f.tileWidth ≠ 0) :
    stepCount (colBound f) f.tileWidth = f.width / f.tileWidth := by
  have hwQ := Nat.div_add_mod f.width f.tileWidth
  have hlenx : f.width % f.tileWidth < f.tileWidth := Nat.mod_lt _ htw
  have hlenx0 : 0 < f.width % f.tileWidth := Nat.pos_of_ne_zero hcm
  unfold stepCount colBound usub32
  rw [if_neg hcm, if_pos htwle]
  rw [show f.width - f.tileWidth + f.tileWidth - 1 =
    f.width % f.tileWidth - 1 +
      f.tileWidth * (f.width / f.tileWidth) from by omega]
  rw [Nat.add_mul_div_left _ _ htw, Nat.div_eq_of_lt (by omega), Nat.zero_add]

/-- Value of the main pass at a cell of its region: full tile row blocks
(all rows but the boundary block) and full tile column blocks. -/
theorem main_pass_value (f : TiledTiff)
    (hps : 0 < f.pixelSize) (htw : 0 < f.tileWidth)
    (htwle : f.tileWidth ≤ f.width) (hth : 0 < f.tileHeight)
    (hthle : f.tileHeight ≤ f.height)
    (hcm : f.width % f.tileWidth ≠ 0) (hrm : f.height % f.tileHeight ≠ 0)
    (d c : Nat) (hd : d < f.height)
    (hc : c < (f.width - f.width % f.tileWidth) * f.pixelSize)
    (hdrT : f.flip = true → f.height % f.tileHeight ≤ d)
    (hdrF : f.flip = false → d < f.height - f.height % f.tileHeight)
    (b : Store) :
    ((mainSlice f 0 b).1) (d * (f.width * f.pixelSize) + c) =
      some (scanlineReference f d c) := by
  have htwps : 0 < f.tileWidth * f.pixelSize := Nat.mul_pos htw hps
  have hwQ := Nat.div_add_mod f.width f.tileWidth
  have hlenx : f.width % f.tileWidth < f.tileWidth := Nat.mod_lt _ htw
  have hlenx0 : 0 < f.width % f.tileWidth := Nat.pos_of_ne_zero hcm
  have hhM := Nat.div_add_mod f.height f.tileHeight
  have hleny : f.height % f.tileHeight < f.tileHeight := Nat.mod_lt _ hth
  have hleny0 : 0 < f.height % f.tileHeight := Nat.pos_of_ne_zero hrm
  have hcntR := stepCount_rows f hth hthle hrm
  have hcntC := stepCount_cols f htw htwle hcm
  have hwl : f.width - f.width % f.tileWidth =
      f.tileWidth * (f.width / f.tileWidth) := by omega
  have hdmc := Nat.div_add_mod c (f.tileWidth * f.pixelSize)
  have hmodc : c % (f.tileWidth * f.pixelSize) < f.tileWidth * f.pixelSize :=
    Nat.mod_lt _ htwps
  have hicolE : c / (f.tileWidth * f.pixelSize) * f.tileWidth * f.pixelSize =
      f.tileWidth * f.pixelSize * (c / (f.tileWidth * f.pixelSize)) := by ring
  have hicol : c / (f.tileWidth * f.pixelSize) < f.width / f.tileWidth := by
    rw [Nat.div_lt_iff_lt_mul htwps]
    have e : f.width / f.tileWidth * (f.tileWidth * f.pixelSize) =
        f.tileWidth * (f.width / f.tileWidth) * f.pixelSize := by ring
    have e2 : (f.width - f.width % f.tileWidth) * f.pixelSize =
        f.tileWidth * (f.width / f.tileWidth) * f.pixelSize := by rw [hwl]
    omega
  have hcol1 : c / (f.tileWidth * f.pixelSize) * f.tileWidth * f.pixelSize ≤
      c := by omega
  have hcol2 : c < c / (f.tileWidth * f.pixelSize) * f.tileWidth *
      f.pixelSize + f.tileWidth * f.pixelSize := by omega
  have hicb := mul_bound_of_lt (c / (f.tileWidth * f.pixelSize))
    (f.width / f.tileWidth) f.tileWidth (f.width % f.tileWidth) f.width
    hicol hwQ
  have hcw : c < f.width * f.pixelSize := by
    have := Nat.mul_le_mul_right f.pixelSize
      (show f.width - f.width % f.tileWidth ≤ f.width from by omega)
    omega
  have hflags : ∀ j b2, 0 ≤ j → j < 0 + stepCount (rowBound f) f.tileHeight →
      ((mainRow f 0 j b2).2) = true := by
    intro j b2 _ hj
    rw [hcntR] at hj
    have hjb := mul_bound_of_lt j (f.height / f.tileHeight) f.tileHeight
      (f.height % f.tileHeight) f.height (by omega) hhM
    unfold mainRow
    apply loopE_flag
    intro i b3 _ hi
    rw [hcntC] at hi
    have hib := mul_bound_of_lt i (f.width / f.tileWidth) f.tileWidth
      (f.width % f.tileWidth) f.width (by omega) hwQ
    apply mainCol_flag
    · omega
    · by_cases hfb : f.flip = true
      · rw [if_pos hfb]
        unfold usub32
        rw [if_pos (show j * f.tileHeight ≤ f.height from by omega)]
        rw [if_pos (show f.tileHeight ≤ f.height - j * f.tileHeight from
          by omega)]
        omega
      · rw [if_neg hfb]
        omega
    · omega
  unfold mainSlice
  by_cases hf : f.flip = true
  · have hdT := hdrT hf
    have hdmd := Nat.div_add_mod (d - f.height % f.tileHeight) f.tileHeight
    have hmodd : (d - f.height % f.tileHeight) % f.tileHeight < f.tileHeight :=
      Nat.mod_lt _ hth
    have hj0E : (d - f.height % f.tileHeight) / f.tileHeight * f.tileHeight =
        f.tileHeight * ((d - f.height % f.tileHeight) / f.tileHeight) :=
      Nat.mul_comm _ _
    have hj0 : (d - f.height % f.tileHeight) / f.tileHeight <
        f.height / f.tileHeight := by
      rw [Nat.div_lt_iff_lt_mul hth]
      have e : f.height / f.tileHeight * f.tileHeight =
          f.tileHeight * (f.height / f.tileHeight) := Nat.mul_comm _ _
      omega
    have hjb := mul_bound_of_lt
      ((d - f.height % f.tileHeight) / f.tileHeight)
      (f.height / f.tileHeight) f.tileHeight (f.height % f.tileHeight)
      f.height hj0 hhM
    have hsb := sub_block f.tileHeight (f.height / f.tileHeight)
      ((d - f.height % f.tileHeight) / f.tileHeight) hj0
    refine loopE_last_write _ _ _ _ 0 b
      ((d - f.height % f.tileHeight) / f.tileHeight) (Nat.zero_le _)
      (by rw [hcntR]; omega) hflags ?_ ?_
    · intro b2
      unfold mainRow
      refine loopE_last_write _ _ _ _ 0 b2
        (c / (f.tileWidth * f.pixelSize)) (Nat.zero_le _)
        (by rw [hcntC]; omega) ?_ ?_ ?_
      · intro i b3 _ hi
        rw [hcntC] at hi
        have hib := mul_bound_of_lt i (f.width / f.tileWidth) f.tileWidth
          (f.width % f.tileWidth) f.width (by omega) hwQ
        apply mainCol_flag
        · omega
        · rw [if_pos hf]
          unfold usub32
          rw [if_pos (show (d - f.height % f.tileHeight) / f.tileHeight *
            f.tileHeight ≤ f.height from by omega)]
          rw [if_pos (show f.tileHeight ≤ f.height -
            (d - f.height % f.tileHeight) / f.tileHeight * f.tileHeight from
            by omega)]
          omega
        · omega
      · intro b3
        unfold mainCol
        dsimp only
        rw [if_pos hf]
        rw [show usub32 (usub32 f.height ((d - f.height % f.tileHeight) /
            f.tileHeight * f.tileHeight)) f.tileHeight =
            (f.height / f.tileHeight - (d - f.height % f.tileHeight) /
              f.tileHeight - 1) * f.tileHeight + f.height % f.tileHeight from by
          unfold usub32
          rw [if_pos (show (d - f.height % f.tileHeight) / f.tileHeight *
            f.tileHeight ≤ f.height from by omega)]
          rw [if_pos (show f.tileHeight ≤ f.height -
            (d - f.height % f.tileHeight) / f.tileHeight * f.tileHeight from
            by omega)]
          omega]
        rw [tiffReadTile_some f
          (c / (f.tileWidth * f.pixelSize) * f.tileWidth)
          ((f.height / f.tileHeight - (d - f.height % f.tileHeight) /
            f.tileHeight - 1) * f.tileHeight + f.height % f.tileHeight)
          (by omega) (by omega)]
        dsimp only
        refine iterFrom_last_write _ _ _ _ 0 b3
          (f.tileHeight - 1 - (d - f.height % f.tileHeight) % f.tileHeight)
          (Nat.zero_le _) (by omega) ?_ ?_
        · intro b4
          unfold mainYY
          rw [if_pos hf]
          rw [stripYY_value b4 f.height f.width f.pixelSize
            ((d - f.height % f.tileHeight) / f.tileHeight * f.tileHeight)
            (f.tileHeight + f.height % f.tileHeight -
              (f.tileHeight - 1 -
                (d - f.height % f.tileHeight) % f.tileHeight) - 1)
            (c / (f.tileWidth * f.pixelSize) * f.tileWidth) f.tileWidth _ _
            d c (by omega) hcol1 hcol2]
          rw [tile_value f.px f.tileWidth f.pixelSize
            (((f.height / f.tileHeight - (d - f.height % f.tileHeight) /
              f.tileHeight - 1) * f.tileHeight + f.height % f.tileHeight) /
              f.tileHeight * f.tileHeight)
            (c / (f.tileWidth * f.pixelSize) * f.tileWidth / f.tileWidth *
              f.tileWidth)
            (f.tileHeight - 1 - (d - f.height % f.tileHeight) % f.tileHeight)
            (c - c / (f.tileWidth * f.pixelSize) * f.tileWidth * f.pixelSize)
            htw hps (by omega)]
          rw [block_div f.tileHeight
            (f.height / f.tileHeight - (d - f.height % f.tileHeight) /
              f.tileHeight - 1) (f.height % f.tileHeight) hth hleny]
          rw [block_div0 f.tileWidth (c / (f.tileWidth * f.pixelSize)) htw]
          unfold scanlineReference
          rw [if_pos hf]
          rw [show (f.height / f.tileHeight -
            (d - f.height % f.tileHeight) / f.tileHeight - 1) * f.tileHeight +
            (f.tileHeight - 1 - (d - f.height % f.tileHeight) % f.tileHeight)
            = f.height - d - 1 from by omega]
          rw [show c / (f.tileWidth * f.pixelSize) * f.tileWidth *
            f.pixelSize + (c - c / (f.tileWidth * f.pixelSize) *
              f.tileWidth * f.pixelSize) = c from by omega]
        · intro yy hyy1 hyy2 b4
          unfold mainYY
          rw [if_pos hf]
          rw [stripYY_miss b4 f.height f.width f.pixelSize
            ((d - f.height % f.tileHeight) / f.tileHeight * f.tileHeight)
            (f.tileHeight + f.height % f.tileHeight - yy - 1)
            (c / (f.tileWidth * f.pixelSize) * f.tileWidth) f.tileWidth _ _
            d c hcw (by omega) (Or.inl (by omega))]
      · intro i hi1 hi2 b3
        rw [hcntC] at hi2
        have hib := mul_bound_of_lt i (f.width / f.tileWidth) f.tileWidth
          (f.width % f.tileWidth) f.width (by omega) hwQ
        have hmul : (c / (f.tileWidth * f.pixelSize) + 1) *
            (f.tileWidth * f.pixelSize) ≤ i * (f.tileWidth * f.pixelSize) :=
          Nat.mul_le_mul_right _ (by omega)
        have hmulE : (c / (f.tileWidth * f.pixelSize) + 1) *
            (f.tileWidth * f.pixelSize) = c / (f.tileWidth * f.pixelSize) *
            f.tileWidth * f.pixelSize + f.tileWidth * f.pixelSize := by ring
        have hiE : i * (f.tileWidth * f.pixelSize) =
            i * f.tileWidth * f.pixelSize := by ring
        apply mainCol_no_write
        intro tile yy hyy b4
        unfold mainYY
        rw [if_pos hf]
        rw [stripYY_miss b4 f.height f.width f.pixelSize
          ((d - f.height % f.tileHeight) / f.tileHeight * f.tileHeight)
          (f.tileHeight + f.height % f.tileHeight - yy - 1)
          (i * f.tileWidth) f.tileWidth _ _ d c hcw (by omega)
          (Or.inr (Or.inl (by omega)))]
    · intro j hj1 hj2 b2
      rw [hcntR] at hj2
      unfold mainRow
      refine loopE_no_write _ _ _ _ _ ?_
      intro i _ hi b3
      rw [hcntC] at hi
      have hib := mul_bound_of_lt i (f.width / f.tileWidth) f.tileWidth
        (f.width % f.tileWidth) f.width (by omega) hwQ
      have hjj : ((d - f.height % f.tileHeight) / f.tileHeight + 1) *
          f.tileHeight ≤ j * f.tileHeight := Nat.mul_le_mul_right _ (by omega)
      have hjjE : ((d - f.height % f.tileHeight) / f.tileHeight + 1) *
          f.tileHeight = (d - f.height % f.tileHeight) / f.tileHeight *
          f.tileHeight + f.tileHeight := by ring
      apply mainCol_no_write
      intro tile yy hyy b4
      unfold mainYY
      rw [if_pos hf]
      rw [stripYY_miss b4 f.height f.width f.pixelSize (j * f.tileHeight)
        (f.tileHeight + f.height % f.tileHeight - yy - 1) (i * f.tileWidth)
        f.tileWidth _ _ d c hcw (by omega) (Or.inl (by omega))]
  · have hfF : f.flip = false := Bool.eq_false_iff.mpr hf
    have hdF := hdrF hfF
    have hdmd := Nat.div_add_mod d f.tileHeight
    have hmodd : d % f.tileHeight < f.tileHeight := Nat.mod_lt _ hth
    have hj0E : d / f.tileHeight * f.tileHeight =
        f.tileHeight * (d / f.tileHeight) := Nat.mul_comm _ _
    have hj0 : d / f.tileHeight < f.height / f.tileHeight := by
      rw [Nat.div_lt_iff_lt_mul hth]
      have e : f.height / f.tileHeight * f.tileHeight =
          f.tileHeight * (f.height / f.tileHeight) := Nat.mul_comm _ _
      omega
    have hjb := mul_bound_of_lt (d / f.tileHeight) (f.height / f.tileHeight)
      f.tileHeight (f.height % f.tileHeight) f.height hj0 hhM
    refine loopE_last_write _ _ _ _ 0 b (d / f.tileHeight) (Nat.zero_le _)
      (by rw [hcntR]; omega) hflags ?_ ?_
    · intro b2
      unfold mainRow
      refine loopE_last_write _ _ _ _ 0 b2
        (c / (f.tileWidth * f.pixelSize)) (Nat.zero_le _)
        (by rw [hcntC]; omega) ?_ ?_ ?_
      · intro i b3 _ hi
        rw [hcntC] at hi
        have hib := mul_bound_of_lt i (f.width / f.tileWidth) f.tileWidth
          (f.width % f.tileWidth) f.width (by omega) hwQ
        apply mainCol_flag
        · omega
        · rw [if_neg hf]
          omega
        · omega
      · intro b3
        unfold mainCol
        dsimp only
        rw [if_neg hf]
        rw [tiffReadTile_some f
          (c / (f.tileWidth * f.pixelSize) * f.tileWidth)
          (d / f.tileHeight * f.tileHeight) (by omega) (by omega)]
        dsimp only
        refine iterFrom_last_write _ _ _ _ 0 b3 (d % f.tileHeight)
          (Nat.zero_le _) (by omega) ?_ ?_
        · intro b4
          unfold mainYY
          rw [if_neg hf]
          rw [stripYY_value b4 f.height f.width f.pixelSize
            (d / f.tileHeight * f.tileHeight) (d % f.tileHeight)
            (c / (f.tileWidth * f.pixelSize) * f.tileWidth) f.tileWidth _ _
            d c (by omega) hcol1 hcol2]
          rw [tile_value f.px f.tileWidth f.pixelSize
            (d / f.tileHeight * f.tileHeight / f.tileHeight * f.tileHeight)
            (c / (f.tileWidth * f.pixelSize) * f.tileWidth / f.tileWidth *
              f.tileWidth)
            (d % f.tileHeight)
            (c - c / (f.tileWidth * f.pixelSize) * f.tileWidth * f.pixelSize)
            htw hps (by omega)]
          rw [block_div0 f.tileHeight (d / f.tileHeight) hth]
          rw [block_div0 f.tileWidth (c / (f.tileWidth * f.pixelSize)) htw]
          unfold scanlineReference
          rw [if_neg hf]
          rw [show d / f.tileHeight * f.tileHeight + d % f.tileHeight = d from
            by omega]
          rw [show c / (f.tileWidth * f.pixelSize) * f.tileWidth *
            f.pixelSize + (c - c / (f.tileWidth * f.pixelSize) *
              f.tileWidth * f.pixelSize) = c from by omega]
        · intro yy hyy1 hyy2 b4
          unfold mainYY
          rw [if_neg hf]
          rw [stripYY_miss b4 f.height f.width f.pixelSize
            (d / f.tileHeight * f.tileHeight) yy
            (c / (f.tileWidth * f.pixelSize) * f.tileWidth) f.tileWidth _ _
            d c hcw (by omega) (Or.inl (by omega))]
      · intro i hi1 hi2 b3
        rw [hcntC] at hi2
        have hib := mul_bound_of_lt i (f.width / f.tileWidth) f.tileWidth
          (f.width % f.tileWidth) f.width (by omega) hwQ
        have hmul : (c / (f.tileWidth * f.pixelSize) + 1) *
            (f.tileWidth * f.pixelSize) ≤ i * (f.tileWidth * f.pixelSize) :=
          Nat.mul_le_mul_right _ (by omega)
        have hmulE : (c / (f.tileWidth * f.pixelSize) + 1) *
            (f.tileWidth * f.pixelSize) = c / (f.tileWidth * f.pixelSize) *
            f.tileWidth * f.pixelSize + f.tileWidth * f.pixelSize := by ring
        have hiE : i * (f.tileWidth * f.pixelSize) =
            i * f.tileWidth * f.pixelSize := by ring
        apply mainCol_no_write
        intro tile yy hyy b4
        unfold mainYY
        rw [if_neg hf]
        rw [stripYY_miss b4 f.height f.width f.pixelSize
          (d / f.tileHeight * f.tileHeight) yy (i * f.tileWidth)
          f.tileWidth _ _ d c hcw (by omega) (Or.inr (Or.inl (by omega)))]
    · intro j hj1 hj2 b2
      rw [hcntR] at hj2
      unfold mainRow
      refine loopE_no_write _ _ _ _ _ ?_
      intro i _ hi b3
      rw [hcntC] at hi
      have hib := mul_bound_of_lt i (f.width / f.tileWidth) f.tileWidth
        (f.width % f.tileWidth) f.width (by omega) hwQ
      have hjj : (d / f.tileHeight + 1) * f.tileHeight ≤ j * f.tileHeight :=
        Nat.mul_le_mul_right _ (by omega)
      have hjjE : (d / f.tileHeight + 1) * f.tileHeight =
          d / f.tileHeight * f.tileHeight + f.tileHeight := by ring
      apply mainCol_no_write
      intro tile yy hyy b4
      unfold mainYY
      rw [if_neg hf]
      rw [stripYY_miss b4 f.height f.width f.pixelSize (j * f.tileHeight) yy
        (i * f.tileWidth) f.tileWidth _ _ d c hcw (by omega)
        (Or.inl (by omega))]

/-- Value of the right-edge pass at a cell of its region: full tile row
blocks, partial rightmost tile column. -/
theorem right_pass_value (f : TiledTiff)
    (hps : 0 < f.pixelSize) (htw : 0 < f.tileWidth)
    (htwle : f.tileWidth ≤ f.width) (hth : 0 < f.tileHeight)
    (hthle : f.tileHeight ≤ f.height)
    (hcm : f.width % f.tileWidth ≠ 0) (hrm : f.height % f.tileHeight ≠ 0)
    (d c : Nat) (hd : d < f.height)
    (hcge : (f.width - f.width % f.tileWidth) * f.pixelSize ≤ c)
    (hcw : c < f.width * f.pixelSize)
    (hdrT : f.flip = true → f.height % f.tileHeight ≤ d)
    (hdrF : f.flip = false → d < f.height - f.height % f.tileHeight)
    (b : Store) :
    ((loopE (rightRow f) (stepCount (rowBound f) f.tileHeight) 0
        (b, true)).1) (d * (f.width * f.pixelSize) + c) =
      some (scanlineReference f d c) := by
  have htwps : 0 < f.tileWidth * f.pixelSize := Nat.mul_pos htw hps
  have hwQ := Nat.div_add_mod f.width f.tileWidth
  have hlenx : f.width % f.tileWidth < f.tileWidth := Nat.mod_lt _ htw
  have hlenx0 : 0 < f.width % f.tileWidth := Nat.pos_of_ne_zero hcm
  have hhM := Nat.div_add_mod f.height f.tileHeight
  have hleny : f.height % f.tileHeight < f.tileHeight := Nat.mod_lt _ hth
  have hleny0 : 0 < f.height % f.tileHeight := Nat.pos_of_ne_zero hrm
  have hcntR := stepCount_rows f hth hthle hrm
  have hQE : f.width / f.tileWidth * f.tileWidth =
      f.tileWidth * (f.width / f.tileWidth) := Nat.mul_comm _ _
  have hcolQ : f.width - f.width % f.tileWidth =
      f.width / f.tileWidth * f.tileWidth := by omega
  have hQps : f.width / f.tileWidth * f.tileWidth * f.pixelSize =
      (f.width - f.width % f.tileWidth) * f.pixelSize := by rw [hcolQ]
  have hsplit : (f.width / f.tileWidth * f.tileWidth + f.width % f.tileWidth)
      * f.pixelSize = f.width / f.tileWidth * f.tileWidth * f.pixelSize +
      f.width % f.tileWidth * f.pixelSize := by ring
  have hwps : (f.width / f.tileWidth * f.tileWidth + f.width % f.tileWidth)
      * f.pixelSize = f.width * f.pixelSize := by
    rw [show f.width / f.tileWidth * f.tileWidth + f.width % f.tileWidth =
      f.width from by omega]
  have hcol1R : f.width / f.tileWidth * f.tileWidth * f.pixelSize ≤ c := by
    omega
  have hcol2R : c < f.width / f.tileWidth * f.tileWidth * f.pixelSize +
      f.width % f.tileWidth * f.pixelSize := by omega
  have hlps : f.width % f.tileWidth * f.pixelSize ≤
      f.tileWidth * f.pixelSize := Nat.mul_le_mul_right _ (by omega)
  have hflagsR : ∀ j b2, 0 ≤ j →
      j < 0 + stepCount (rowBound f) f.tileHeight →
      ((rightRow f j b2).2) = true := by
    intro j b2 _ hj
    rw [hcntR] at hj
    have hjbM := mul_bound_of_lt j (f.height / f.tileHeight) f.tileHeight 0
      (f.tileHeight * (f.height / f.tileHeight)) (by omega) (by omega)
    apply rightRow_flag
    · omega
    · by_cases hfb : f.flip = true
      · rw [if_pos hfb]
        unfold usub32
        rw [if_pos (show j * f.tileHeight ≤ f.height from by omega)]
        rw [if_pos (show f.tileHeight ≤ f.height - j * f.tileHeight from
          by omega)]
        rw [if_pos (show 1 ≤ f.height - j * f.tileHeight - f.tileHeight from
          by omega)]
        omega
      · rw [if_neg hfb]
        omega
  by_cases hf : f.flip = true
  · have hdT := hdrT hf
    have hdmd := Nat.div_add_mod (d - f.height % f.tileHeight) f.tileHeight
    have hmodd : (d - f.height % f.tileHeight) % f.tileHeight < f.tileHeight :=
      Nat.mod_lt _ hth
    have hj0E : (d - f.height % f.tileHeight) / f.tileHeight * f.tileHeight =
        f.tileHeight * ((d - f.height % f.tileHeight) / f.tileHeight) :=
      Nat.mul_comm _ _
    have hj0 : (d - f.height % f.tileHeight) / f.tileHeight <
        f.height / f.tileHeight := by
      rw [Nat.div_lt_iff_lt_mul hth]
      have e : f.height / f.tileHeight * f.tileHeight =
          f.tileHeight * (f.height / f.tileHeight) := Nat.mul_comm _ _
      omega
    have hjb := mul_bound_of_lt
      ((d - f.height % f.tileHeight) / f.tileHeight)
      (f.height / f.tileHeight) f.tileHeight (f.height % f.tileHeight)
      f.height hj0 hhM
    have hsb := sub_block f.tileHeight (f.height / f.tileHeight)
      ((d - f.height % f.tileHeight) / f.tileHeight) hj0
    refine loopE_last_write _ _ _ _ 0 b
      ((d - f.height % f.tileHeight) / f.tileHeight) (Nat.zero_le _)
      (by rw [hcntR]; omega) hflagsR ?_ ?_
    · intro b2
      unfold rightRow
      dsimp only
      rw [if_pos hf]
      rw [hcolQ]
      rw [show usub32 (usub32 (usub32 f.height
          ((d - f.height % f.tileHeight) / f.tileHeight * f.tileHeight))
          f.tileHeight) 1 =
          (f.height / f.tileHeight - (d - f.height % f.tileHeight) /
            f.tileHeight - 1) * f.tileHeight +
            (f.height % f.tileHeight - 1) from by
        unfold usub32
        rw [if_pos (show (d - f.height % f.tileHeight) / f.tileHeight *
          f.tileHeight ≤ f.height from by omega)]
        rw [if_pos (show f.tileHeight ≤ f.height -
          (d - f.height % f.tileHeight) / f.tileHeight * f.tileHeight from
          by omega)]
        rw [if_pos (show 1 ≤ f.height -
          (d - f.height % f.tileHeight) / f.tileHeight * f.tileHeight -
          f.tileHeight from by omega)]
        omega]
      rw [tiffReadTile_some f (f.width / f.tileWidth * f.tileWidth)
        ((f.height / f.tileHeight - (d - f.height % f.tileHeight) /
          f.tileHeight - 1) * f.tileHeight + (f.height % f.tileHeight - 1))
        (by omega) (by omega)]
      dsimp only
      refine iterFrom_last_write _ _ _ _ 0 b2
        (f.tileHeight - 1 - (d - f.height % f.tileHeight) % f.tileHeight)
        (Nat.zero_le _) (by omega) ?_ ?_
      · intro b4
        unfold rightYY
        rw [if_pos hf]
        rw [stripYY_value b4 f.height f.width f.pixelSize
          ((d - f.height % f.tileHeight) / f.tileHeight * f.tileHeight)
          (f.tileHeight + f.height % f.tileHeight -
            (f.tileHeight - 1 -
              (d - f.height % f.tileHeight) % f.tileHeight) - 1)
          (f.width / f.tileWidth * f.tileWidth) (f.width % f.tileWidth) _ _
          d c (by omega) hcol1R hcol2R]
        rw [tile_value f.px f.tileWidth f.pixelSize
          (((f.height / f.tileHeight - (d - f.height % f.tileHeight) /
            f.tileHeight - 1) * f.tileHeight +
            (f.height % f.tileHeight - 1)) / f.tileHeight * f.tileHeight)
          (f.width / f.tileWidth * f.tileWidth / f.tileWidth * f.tileWidth)
          (f.tileHeight - 1 - (d - f.height % f.tileHeight) % f.tileHeight)
          (c - f.width / f.tileWidth * f.tileWidth * f.pixelSize)
          htw hps (by omega)]
        rw [block_div f.tileHeight
          (f.height / f.tileHeight - (d - f.height % f.tileHeight) /
            f.tileHeight - 1) (f.height % f.tileHeight - 1) hth (by omega)]
        rw [block_div0 f.tileWidth (f.width / f.tileWidth) htw]
        unfold scanlineReference
        rw [if_pos hf]
        rw [show (f.height / f.tileHeight -
          (d - f.height % f.tileHeight) / f.tileHeight - 1) * f.tileHeight +
          (f.tileHeight - 1 - (d - f.height % f.tileHeight) % f.tileHeight)
          = f.height - d - 1 from by omega]
        rw [show f.width / f.tileWidth * f.tileWidth * f.pixelSize +
          (c - f.width / f.tileWidth * f.tileWidth * f.pixelSize) = c from
          by omega]
      · intro yy hyy1 hyy2 b4
        unfold rightYY
        rw [if_pos hf]
        rw [stripYY_miss b4 f.height f.width f.pixelSize
          ((d - f.height % f.tileHeight) / f.tileHeight * f.tileHeight)
          (f.tileHeight + f.height % f.tileHeight - yy - 1)
          (f.width / f.tileWidth * f.tileWidth) (f.width % f.tileWidth) _ _
          d c hcw (by omega) (Or.inl (by omega))]
    · intro j hj1 hj2 b2
      rw [hcntR] at hj2
      have hjj : ((d - f.height % f.tileHeight) / f.tileHeight + 1) *
          f.tileHeight ≤ j * f.tileHeight := Nat.mul_le_mul_right _ (by omega)
      have hjjE : ((d - f.height % f.tileHeight) / f.tileHeight + 1) *
          f.tileHeight = (d - f.height % f.tileHeight) / f.tileHeight *
          f.tileHeight + f.tileHeight := by ring
      apply rightRow_no_write
      intro tile yy hyy b4
      unfold rightYY
      rw [if_pos hf]
      rw [stripYY_miss b4 f.height f.width f.pixelSize (j * f.tileHeight)
        (f.tileHeight + f.height % f.tileHeight - yy - 1)
        (f.width - f.width % f.tileWidth) (f.width % f.tileWidth) _ _
        d c hcw (by omega) (Or.inl (by omega))]
  · have hfF : f.flip = false := Bool.eq_false_iff.mpr hf
    have hdF := hdrF hfF
    have hdmd := Nat.div_add_mod d f.tileHeight
    have hmodd : d % f.tileHeight < f.tileHeight := Nat.mod_lt _ hth
    have hj0E : d / f.tileHeight * f.tileHeight =
        f.tileHeight * (d / f.tileHeight) := Nat.mul_comm _ _
    have hj0 : d / f.tileHeight < f.height / f.tileHeight := by
      rw [Nat.div_lt_iff_lt_mul hth]
      have e : f.height / f.tileHeight * f.tileHeight =
          f.tileHeight * (f.height / f.tileHeight) := Nat.mul_comm _ _
      omega
    have hjb := mul_bound_of_lt (d / f.tileHeight) (f.height / f.tileHeight)
      f.tileHeight (f.height % f.tileHeight) f.height hj0 hhM
    refine loopE_last_write _ _ _ _ 0 b (d / f.tileHeight) (Nat.zero_le _)
      (by rw [hcntR]; omega) hflagsR ?_ ?_
    · intro b2
      unfold rightRow
      dsimp only
      rw [if_neg hf]
      rw [hcolQ]
      rw [tiffReadTile_some f (f.width / f.tileWidth * f.tileWidth)
        (d / f.tileHeight * f.tileHeight) (by omega) (by omega)]
      dsimp only
      refine iterFrom_last_write _ _ _ _ 0 b2 (d % f.tileHeight)
        (Nat.zero_le _) (by omega) ?_ ?_
      · intro b4
        unfold rightYY
        rw [if_neg hf]
        rw [stripYY_value b4 f.height f.width f.pixelSize
          (d / f.tileHeight * f.tileHeight) (d % f.tileHeight)
          (f.width / f.tileWidth * f.tileWidth) (f.width % f.tileWidth) _ _
          d c (by omega) hcol1R hcol2R]
        rw [tile_value f.px f.tileWidth f.pixelSize
          (d / f.tileHeight * f.tileHeight / f.tileHeight * f.tileHeight)
          (f.width / f.tileWidth * f.tileWidth / f.tileWidth * f.tileWidth)
          (d % f.tileHeight)
          (c - f.width / f.tileWidth * f.tileWidth * f.pixelSize)
          htw hps (by omega)]
        rw [block_div0 f.tileHeight (d / f.tileHeight) hth]
        rw [block_div0 f.tileWidth (f.width / f.tileWidth) htw]
        unfold scanlineReference
        rw [if_neg hf]
        rw [show d / f.tileHeight * f.tileHeight + d % f.tileHeight = d from
          by omega]
        rw [show f.width / f.tileWidth * f.tileWidth * f.pixelSize +
          (c - f.width / f.tileWidth * f.tileWidth * f.pixelSize) = c from
          by omega]
      · intro yy hyy1 hyy2 b4
        unfold rightYY
        rw [if_neg hf]
        rw [stripYY_miss b4 f.height f.width f.pixelSize
          (d / f.tileHeight * f.tileHeight) yy
          (f.width / f.tileWidth * f.tileWidth) (f.width % f.tileWidth) _ _
          d c hcw (by omega) (Or.inl (by omega))]
    · intro j hj1 hj2 b2
      rw [hcntR] at hj2
      have hjj : (d / f.tileHeight + 1) * f.tileHeight ≤ j * f.tileHeight :=
        Nat.mul_le_mul_right _ (by omega)
      have hjjE : (d / f.tileHeight + 1) * f.tileHeight =
          d / f.tileHeight * f.tileHeight + f.tileHeight := by ring
      apply rightRow_no_write
      intro tile yy hyy b4
      unfold rightYY
      rw [if_neg hf]
      rw [stripYY_miss b4 f.height f.width f.pixelSize (j * f.tileHeight) yy
        (f.width - f.width % f.tileWidth) (f.width % f.tileWidth) _ _
        d c hcw (by omega) (Or.inl (by omega))]

/-- Value of the bottom pass at a cell of its region: the partial bottom
row block, full tile column blocks. -/
theorem bottom_pass_value (f : TiledTiff)
    (hps : 0 < f.pixelSize) (htw : 0 < f.tileWidth)
    (htwle : f.tileWidth ≤ f.width) (hth : 0 < f.tileHeight)
    (hthle : f.tileHeight ≤ f.height)
    (hcm : f.width % f.tileWidth ≠ 0) (hrm : f.height % f.tileHeight ≠ 0)
    (d c : Nat) (hd : d < f.height)
    (hc : c < (f.width - f.width % f.tileWidth) * f.pixelSize)
    (hdrT : f.flip = true → d < f.height % f.tileHeight)
    (hdrF : f.flip = false → f.height - f.height % f.tileHeight ≤ d)
    (b : Store) :
    ((loopE (bottomCol f) (stepCount (colBound f) f.tileWidth) 0
        (b, true)).1) (d * (f.width * f.pixelSize) + c) =
      some (scanlineReference f d c) := by
  have htwps : 0 < f.tileWidth * f.pixelSize := Nat.mul_pos htw hps
  have hwQ := Nat.div_add_mod f.width f.tileWidth
  have hlenx : f.width % f.tileWidth < f.tileWidth := Nat.mod_lt _ htw
  have hlenx0 : 0 < f.width % f.tileWidth := Nat.pos_of_ne_zero hcm
  have hhM := Nat.div_add_mod f.height f.tileHeight
  have hleny : f.height % f.tileHeight < f.tileHeight := Nat.mod_lt _ hth
  have hleny0 : 0 < f.height % f.tileHeight := Nat.pos_of_ne_zero hrm
  have hcntC := stepCount_cols f htw htwle hcm
  have hwl : f.width - f.width % f.tileWidth =
      f.tileWidth * (f.width / f.tileWidth) := by omega
  have hME : f.height / f.tileHeight * f.tileHeight =
      f.tileHeight * (f.height / f.tileHeight) := Nat.mul_comm _ _
  have hrowM : f.height - f.height % f.tileHeight =
      f.height / f.tileHeight * f.tileHeight := by omega
  have hdmc := Nat.div_add_mod c (f.tileWidth * f.pixelSize)
  have hmodc : c % (f.tileWidth * f.pixelSize) < f.tileWidth * f.pixelSize :=
    Nat.mod_lt _ htwps
  have hicolE : c / (f.tileWidth * f.pixelSize) * f.tileWidth * f.pixelSize =
      f.tileWidth * f.pixelSize * (c / (f.tileWidth * f.pixelSize)) := by ring
  have hicol : c / (f.tileWidth * f.pixelSize) < f.width / f.tileWidth := by
    rw [Nat.div_lt_iff_lt_mul htwps]
    have e : f.width / f.tileWidth * (f.tileWidth * f.pixelSize) =
        f.tileWidth * (f.width / f.tileWidth) * f.pixelSize := by ring
    have e2 : (f.width - f.width % f.tileWidth) * f.pixelSize =
        f.tileWidth * (f.width / f.tileWidth) * f.pixelSize := by rw [hwl]
    omega
  have hcol1 : c / (f.tileWidth * f.pixelSize) * f.tileWidth * f.pixelSize ≤
      c := by omega
  have hcol2 : c < c / (f.tileWidth * f.pixelSize) * f.tileWidth *
      f.pixelSize + f.tileWidth * f.pixelSize := by omega
  have hicb := mul_bound_of_lt (c / (f.tileWidth * f.pixelSize))
    (f.width / f.tileWidth) f.tileWidth (f.width % f.tileWidth) f.width
    hicol hwQ
  have hcw : c < f.width * f.pixelSize := by
    have := Nat.mul_le_mul_right f.pixelSize
      (show f.width - f.width % f.tileWidth ≤ f.width from by omega)
    omega
  have hflagsB : ∀ i b2, 0 ≤ i →
      i < 0 + stepCount (colBound f) f.tileWidth →
      ((bottomCol f i b2).2) = true := by
    intro i b2 _ hi
    rw [hcntC] at hi
    have hib := mul_bound_of_lt i (f.width / f.tileWidth) f.tileWidth
      (f.width % f.tileWidth) f.width (by omega) hwQ
    apply bottomCol_flag
    · omega
    · omega
  refine loopE_last_write _ _ _ _ 0 b (c / (f.tileWidth * f.pixelSize))
    (Nat.zero_le _) (by rw [hcntC]; omega) hflagsB ?_ ?_
  · intro b2
    unfold bottomCol
    dsimp only
    rw [hrowM]
    rw [tiffReadTile_some f
      (c / (f.tileWidth * f.pixelSize) * f.tileWidth)
      (f.height / f.tileHeight * f.tileHeight) (by omega) (by omega)]
    dsimp only
    by_cases hf : f.flip = true
    · have hdT := hdrT hf
      rw [if_pos hf]
      refine iterFrom_last_write _ _ _ _ 0 b2
        (f.height % f.tileHeight - 1 - d) (Nat.zero_le _) (by omega) ?_ ?_
      · intro b4
        unfold bottomYY
        rw [if_pos hf]
        rw [stripYY_value b4 f.height f.width f.pixelSize 0
          (f.height % f.tileHeight - (f.height % f.tileHeight - 1 - d) - 1)
          (c / (f.tileWidth * f.pixelSize) * f.tileWidth) f.tileWidth _ _
          d c (by omega) hcol1 hcol2]
        rw [tile_value f.px f.tileWidth f.pixelSize
          (f.height / f.tileHeight * f.tileHeight / f.tileHeight *
            f.tileHeight)
          (c / (f.tileWidth * f.pixelSize) * f.tileWidth / f.tileWidth *
            f.tileWidth)
          (f.height % f.tileHeight - 1 - d)
          (c - c / (f.tileWidth * f.pixelSize) * f.tileWidth * f.pixelSize)
          htw hps (by omega)]
        rw [block_div0 f.tileHeight (f.height / f.tileHeight) hth]
        rw [block_div0 f.tileWidth (c / (f.tileWidth * f.pixelSize)) htw]
        unfold scanlineReference
        rw [if_pos hf]
        rw [show f.height / f.tileHeight * f.tileHeight +
          (f.height % f.tileHeight - 1 - d) = f.height - d - 1 from by omega]
        rw [show c / (f.tileWidth * f.pixelSize) * f.tileWidth *
          f.pixelSize + (c - c / (f.tileWidth * f.pixelSize) *
            f.tileWidth * f.pixelSize) = c from by omega]
      · intro yy hyy1 hyy2 b4
        unfold bottomYY
        rw [if_pos hf]
        rw [stripYY_miss b4 f.height f.width f.pixelSize 0
          (f.height % f.tileHeight - yy - 1)
          (c / (f.tileWidth * f.pixelSize) * f.tileWidth) f.tileWidth _ _
          d c hcw (by omega) (Or.inl (by omega))]
    · have hfF : f.flip = false := Bool.eq_false_iff.mpr hf
      have hdF := hdrF hfF
      rw [if_neg hf]
      refine iterFrom_last_write _ _ _ _ 0 b2
        (d - f.height / f.tileHeight * f.tileHeight) (Nat.zero_le _)
        (by omega) ?_ ?_
      · intro b4
        unfold bottomYY
        rw [if_neg hf]
        rw [stripYY_value b4 f.height f.width f.pixelSize
          (f.height / f.tileHeight * f.tileHeight)
          (d - f.height / f.tileHeight * f.tileHeight)
          (c / (f.tileWidth * f.pixelSize) * f.tileWidth) f.tileWidth _ _
          d c (by omega) hcol1 hcol2]
        rw [tile_value f.px f.tileWidth f.pixelSize
          (f.height / f.tileHeight * f.tileHeight / f.tileHeight *
            f.tileHeight)
          (c / (f.tileWidth * f.pixelSize) * f.tileWidth / f.tileWidth *
            f.tileWidth)
          (d - f.height / f.tileHeight * f.tileHeight)
          (c - c / (f.tileWidth * f.pixelSize) * f.tileWidth * f.pixelSize)
          htw hps (by omega)]
        rw [block_div0 f.tileHeight (f.height / f.tileHeight) hth]
        rw [block_div0 f.tileWidth (c / (f.tileWidth * f.pixelSize)) htw]
        unfold scanlineReference
        rw [if_neg hf]
        rw [show f.height / f.tileHeight * f.tileHeight +
          (d - f.height / f.tileHeight * f.tileHeight) = d from by omega]
        rw [show c / (f.tileWidth * f.pixelSize) * f.tileWidth *
          f.pixelSize + (c - c / (f.tileWidth * f.pixelSize) *
            f.tileWidth * f.pixelSize) = c from by omega]
      · intro yy hyy1 hyy2 b4
        unfold bottomYY
        rw [if_neg hf]
        rw [stripYY_miss b4 f.height f.width f.pixelSize
          (f.height / f.tileHeight * f.tileHeight) yy
          (c / (f.tileWidth * f.pixelSize) * f.tileWidth) f.tileWidth _ _
          d c hcw (by omega) (Or.inl (by omega))]
  · intro i hi1 hi2 b2
    rw [hcntC] at hi2
    have hib := mul_bound_of_lt i (f.width / f.tileWidth) f.tileWidth
      (f.width % f.tileWidth) f.width (by omega) hwQ
    have hmul : (c / (f.tileWidth * f.pixelSize) + 1) *
        (f.tileWidth * f.pixelSize) ≤ i * (f.tileWidth * f.pixelSize) :=
      Nat.mul_le_mul_right _ (by omega)
    have hmulE : (c / (f.tileWidth * f.pixelSize) + 1) *
        (f.tileWidth * f.pixelSize) = c / (f.tileWidth * f.pixelSize) *
        f.tileWidth * f.pixelSize + f.tileWidth * f.pixelSize := by ring
    have hiE : i * (f.tileWidth * f.pixelSize) =
        i * f.tileWidth * f.pixelSize := by ring
    apply bottomCol_no_write
    intro tile yy hyy b4
    unfold bottomYY
    rw [stripYY_miss b4 f.height f.width f.pixelSize
      (if f.flip = true then 0 else f.height - f.height % f.tileHeight)
      (if f.flip = true then f.height % f.tileHeight - yy - 1 else yy)
      (i * f.tileWidth) f.tileWidth _ _ d c hcw (by omega)
      (Or.inr (Or.inl (by omega)))]

/-- Value of the corner pass at a cell of its region: the partial bottom
row block, the partial rightmost tile column. -/
theorem corner_pass_value (f : TiledTiff)
    (hps : 0 < f.pixelSize) (htw : 0 < f.tileWidth)
    (htwle : f.tileWidth ≤ f.width) (hth : 0 < f.tileHeight)
    (hthle : f.tileHeight ≤ f.height)
    (hcm : f.width % f.tileWidth ≠ 0) (hrm : f.height % f.tileHeight ≠ 0)
    (d c : Nat) (hd : d < f.height)
    (hcge : (f.width - f.width % f.tileWidth) * f.pixelSize ≤ c)
    (hcw : c < f.width * f.pixelSize)
    (hdrT : f.flip = true → d < f.height % f.tileHeight)
    (hdrF : f.flip = false → f.height - f.height % f.tileHeight ≤ d)
    (b : Store) :
    ((cornerPass f b).1) (d * (f.width * f.pixelSize) + c) =
      some (scanlineReference f d c) := by
  have htwps : 0 < f.tileWidth * f.pixelSize := Nat.mul_pos htw hps
  have hwQ := Nat.div_add_mod f.width f.tileWidth
  have hlenx : f.width % f.tileWidth < f.tileWidth := Nat.mod_lt _ htw
  have hlenx0 : 0 < f.width % f.tileWidth := Nat.pos_of_ne_zero hcm
  have hhM := Nat.div_add_mod f.height f.tileHeight
  have hleny : f.height % f.tileHeight < f.tileHeight := Nat.mod_lt _ hth
  have hleny0 : 0 < f.height % f.tileHeight := Nat.pos_of_ne_zero hrm
  have hQE : f.width / f.tileWidth * f.tileWidth =
      f.tileWidth * (f.width / f.tileWidth) := Nat.mul_comm _ _
  have hcolQ : f.width - f.width % f.tileWidth =
      f.width / f.tileWidth * f.tileWidth := by omega
  have hQps : f.width / f.tileWidth * f.tileWidth * f.pixelSize =
      (f.width - f.width % f.tileWidth) * f.pixelSize := by rw [hcolQ]
  have hsplit : (f.width / f.tileWidth * f.tileWidth + f.width % f.tileWidth)
      * f.pixelSize = f.width / f.tileWidth * f.tileWidth * f.pixelSize +
      f.width % f.tileWidth * f.pixelSize := by ring
  have hwps : (f.width / f.tileWidth * f.tileWidth + f.width % f.tileWidth)
      * f.pixelSize = f.width * f.pixelSize := by
    rw [show f.width / f.tileWidth * f.tileWidth + f.width % f.tileWidth =
      f.width from by omega]
  have hcol1R : f.width / f.tileWidth * f.tileWidth * f.pixelSize ≤ c := by
    omega
  have hcol2R : c < f.width / f.tileWidth * f.tileWidth * f.pixelSize +
      f.width % f.tileWidth * f.pixelSize := by omega
  have hlps : f.width % f.tileWidth * f.pixelSize ≤
      f.tileWidth * f.pixelSize := Nat.mul_le_mul_right _ (by omega)
  have hME : f.height / f.tileHeight * f.tileHeight =
      f.tileHeight * (f.height / f.tileHeight) := Nat.mul_comm _ _
  have hrowM : f.height - f.height % f.tileHeight =
      f.height / f.tileHeight * f.tileHeight := by omega
  unfold cornerPass
  dsimp only
  rw [hcolQ, hrowM]
  rw [tiffReadTile_some f (f.width / f.tileWidth * f.tileWidth)
    (f.height / f.tileHeight * f.tileHeight) (by omega) (by omega)]
  dsimp only
  by_cases hf : f.flip = true
  · have hdT := hdrT hf
    rw [if_pos hf]
    refine iterFrom_last_write _ _ _ _ 0 b
      (f.height % f.tileHeight - 1 - d) (Nat.zero_le _) (by omega) ?_ ?_
    · intro b4
      unfold cornerYY
      rw [if_pos hf]
      rw [stripYY_value b4 f.height f.width f.pixelSize 0
        (f.height % f.tileHeight - (f.height % f.tileHeight - 1 - d) - 1)
        (f.width / f.tileWidth * f.tileWidth) (f.width % f.tileWidth) _ _
        d c (by omega) hcol1R hcol2R]
      rw [tile_value f.px f.tileWidth f.pixelSize
        (f.height / f.tileHeight * f.tileHeight / f.tileHeight *
          f.tileHeight)
        (f.width / f.tileWidth * f.tileWidth / f.tileWidth * f.tileWidth)
        (f.height % f.tileHeight - 1 - d)
        (c - f.width / f.tileWidth * f.tileWidth * f.pixelSize)
        htw hps (by omega)]
      rw [block_div0 f.tileHeight (f.height / f.tileHeight) hth]
      rw [block_div0 f.tileWidth (f.width / f.tileWidth) htw]
      unfold scanlineReference
      rw [if_pos hf]
      rw [show f.height / f.tileHeight * f.tileHeight +
        (f.height % f.tileHeight - 1 - d) = f.height - d - 1 from by omega]
      rw [show f.width / f.tileWidth * f.tileWidth * f.pixelSize +
        (c - f.width / f.tileWidth * f.tileWidth * f.pixelSize) = c from
        by omega]
    · intro yy hyy1 hyy2 b4
      unfold cornerYY
      rw [if_pos hf]
      rw [stripYY_miss b4 f.height f.width f.pixelSize 0
        (f.height % f.tileHeight - yy - 1)
        (f.width / f.tileWidth * f.tileWidth) (f.width % f.tileWidth) _ _
        d c hcw (by omega) (Or.inl (by omega))]
  · have hfF : f.flip = false := Bool.eq_false_iff.mpr hf
    have hdF := hdrF hfF
    rw [if_neg hf]
    refine iterFrom_last_write _ _ _ _ 0 b
      (d - f.height / f.tileHeight * f.tileHeight) (Nat.zero_le _)
      (by omega) ?_ ?_
    · intro b4
      unfold cornerYY
      rw [if_neg hf]
      rw [stripYY_value b4 f.height f.width f.pixelSize
        (f.height / f.tileHeight * f.tileHeight)
        (d - f.height / f.tileHeight * f.tileHeight)
        (f.width / f.tileWidth * f.tileWidth) (f.width % f.tileWidth) _ _
        d c (by omega) hcol1R hcol2R]
      rw [tile_value f.px f.tileWidth f.pixelSize
        (f.height / f.tileHeight * f.tileHeight / f.tileHeight *
          f.tileHeight)
        (f.width / f.tileWidth * f.tileWidth / f.tileWidth * f.tileWidth)
        (d - f.height / f.tileHeight * f.tileHeight)
        (c - f.width / f.tileWidth * f.tileWidth * f.pixelSize)
        htw hps (by omega)]
      rw [block_div0 f.tileHeight (f.height / f.tileHeight) hth]
      rw [block_div0 f.tileWidth (f.width / f.tileWidth) htw]
      unfold scanlineReference
      rw [if_neg hf]
      rw [show f.height / f.tileHeight * f.tileHeight +
        (d - f.height / f.tileHeight * f.tileHeight) = d from by omega]
      rw [show f.width / f.tileWidth * f.tileWidth * f.pixelSize +
        (c - f.width / f.tileWidth * f.tileWidth * f.pixelSize) = c from
        by omega]
    · intro yy hyy1 hyy2 b4
      unfold cornerYY
      rw [if_neg hf]
      rw [stripYY_miss b4 f.height f.width f.pixelSize
        (f.height / f.tileHeight * f.tileHeight) yy
        (f.width / f.tileWidth * f.tileWidth) (f.width % f.tileWidth) _ _
        d c hcw (by omega) (Or.inl (by omega))]

/-- The main pass of a boundary-tiled decode never fails. -/
theorem mainSlice_flag (f : TiledTiff) (htw : 0 < f.tileWidth)
    (htwle : f.tileWidth ≤ f.width) (hth : 0 < f.tileHeight)
    (hthle : f.tileHeight ≤ f.height)
    (hcm : f.width % f.tileWidth ≠ 0) (hrm : f.height % f.tileHeight ≠ 0)
    (b : Store) : ((mainSlice f 0 b).2) = true := by
  have hwQ := Nat.div_add_mod f.width f.tileWidth
  have hhM := Nat.div_add_mod f.height f.tileHeight
  have hleny : f.height % f.tileHeight < f.tileHeight := Nat.mod_lt _ hth
  have hleny0 : 0 < f.height % f.tileHeight := Nat.pos_of_ne_zero hrm
  have hcntR := stepCount_rows f hth hthle hrm
  have hcntC := stepCount_cols f htw htwle hcm
  unfold mainSlice
  apply loopE_flag
  intro j b2 _ hj
  rw [hcntR] at hj
  have hjb := mul_bound_of_lt j (f.height / f.tileHeight) f.tileHeight
    (f.height % f.tileHeight) f.height (by omega) hhM
  unfold mainRow
  apply loopE_flag
  intro i b3 _ hi
  rw [hcntC] at hi
  have hib := mul_bound_of_lt i (f.width / f.tileWidth) f.tileWidth
    (f.width % f.tileWidth) f.width (by omega) hwQ
  apply mainCol_flag
  · omega
  · by_cases hfb : f.flip = true
    · rw [if_pos hfb]
      unfold usub32
      rw [if_pos (show j * f.tileHeight ≤ f.height from by omega)]
      rw [if_pos (show f.tileHeight ≤ f.height - j * f.tileHeight from
        by omega)]
      omega
    · rw [if_neg hfb]
      omega
  · omega

/-- The right-edge pass of a boundary-tiled decode never fails. -/
theorem rightLoop_flag (f : TiledTiff) (htw : 0 < f.tileWidth)
    (hth : 0 < f.tileHeight) (hthle : f.tileHeight ≤ f.height)
    (hcm : f.width % f.tileWidth ≠ 0) (hrm : f.height % f.tileHeight ≠ 0)
    (b : Store) :
    ((loopE (rightRow f) (stepCount (rowBound f) f.tileHeight) 0
      (b, true)).2) = true := by
  have hhM := Nat.div_add_mod f.height f.tileHeight
  have hleny : f.height % f.tileHeight < f.tileHeight := Nat.mod_lt _ hth
  have hleny0 : 0 < f.height % f.tileHeight := Nat.pos_of_ne_zero hrm
  have hlenx0 : 0 < f.width % f.tileWidth := Nat.pos_of_ne_zero hcm
  have hlenxw : f.width % f.tileWidth ≤ f.width := Nat.mod_le _ _
  have hcntR := stepCount_rows f hth hthle hrm
  apply loopE_flag
  intro j b2 _ hj
  rw [hcntR] at hj
  have hjbM := mul_bound_of_lt j (f.height / f.tileHeight) f.tileHeight 0
    (f.tileHeight * (f.height / f.tileHeight)) (by omega) (by omega)
  apply rightRow_flag
  · omega
  · by_cases hfb : f.flip = true
    · rw [if_pos hfb]
      unfold usub32
      rw [if_pos (show j * f.tileHeight ≤ f.height from by omega)]
      rw [if_pos (show f.tileHeight ≤ f.height - j * f.tileHeight from
        by omega)]
      rw [if_pos (show 1 ≤ f.height - j * f.tileHeight - f.tileHeight from
        by omega)]
      omega
    · rw [if_neg hfb]
      omega

/-- The bottom pass of a boundary-tiled decode never fails. -/
theorem bottomLoop_flag (f : TiledTiff) (htw : 0 < f.tileWidth)
    (htwle : f.tileWidth ≤ f.width) (hth : 0 < f.tileHeight)
    (hcm : f.width % f.tileWidth ≠ 0) (hrm : f.height % f.tileHeight ≠ 0)
    (b : Store) :
    ((loopE (bottomCol f) (stepCount (colBound f) f.tileWidth) 0
      (b, true)).2) = true := by
  have hwQ := Nat.div_add_mod f.width f.tileWidth
  have hleny0 : 0 < f.height % f.tileHeight := Nat.pos_of_ne_zero hrm
  have hlenyh : f.height % f.tileHeight ≤ f.height := Nat.mod_le _ _
  have hcntC := stepCount_cols f htw htwle hcm
  apply loopE_flag
  intro i b2 _ hi
  rw [hcntC] at hi
  have hib := mul_bound_of_lt i (f.width / f.tileWidth) f.tileWidth
    (f.width % f.tileWidth) f.width (by omega) hwQ
  apply bottomCol_flag
  · omega
  · omega

/-- The corner pass leaves every cell outside its region unchanged. -/
theorem cornerPass_nw (f : TiledTiff) (d c : Nat)
    (hc : c < f.width * f.pixelSize)
    (hmiss : c < (f.width - f.width % f.tileWidth) * f.pixelSize ∨
      ((f.flip = true → f.height % f.tileHeight ≤ d) ∧
       (f.flip = false → d < f.height - f.height % f.tileHeight)))
    (b : Store) :
    ((cornerPass f b).1) (d * (f.width * f.pixelSize) + c) =
      b (d * (f.width * f.pixelSize) + c) := by
  have hlenxw : f.width % f.tileWidth ≤ f.width := Nat.mod_le _ _
  apply cornerPass_no_write
  intro tile yy hyy b2
  unfold cornerYY
  rcases hmiss with h | h
  · rw [stripYY_miss b2 f.height f.width f.pixelSize
      (if f.flip = true then 0 else f.height - f.height % f.tileHeight)
      (if f.flip = true then f.height % f.tileHeight - yy - 1 else yy)
      (f.width - f.width % f.tileWidth) (f.width % f.tileWidth) _ _
      d c hc (by omega) (Or.inr (Or.inl h))]
  · by_cases hfb : f.flip = true
    · rw [if_pos hfb, if_pos hfb]
      have hrow := h.1 hfb
      rw [stripYY_miss b2 f.height f.width f.pixelSize 0
        (f.height % f.tileHeight - yy - 1)
        (f.width - f.width % f.tileWidth) (f.width % f.tileWidth) _ _
        d c hc (by omega) (Or.inl (by omega))]
    · rw [if_neg hfb, if_neg hfb]
      have hrow := h.2 (Bool.eq_false_iff.mpr hfb)
      rw [stripYY_miss b2 f.height f.width f.pixelSize
        (f.height - f.height % f.tileHeight) yy
        (f.width - f.width % f.tileWidth) (f.width % f.tileWidth) _ _
        d c hc (by omega) (Or.inl (by omega))]

/-- The bottom pass leaves every cell outside its region unchanged. -/
theorem bottomLoop_nw (f : TiledTiff) (htw : 0 < f.tileWidth)
    (htwle : f.tileWidth ≤ f.width)
    (hcm : f.width % f.tileWidth ≠ 0)
    (d c : Nat) (hc : c < f.width * f.pixelSize)
    (hmiss : (f.width - f.width % f.tileWidth) * f.pixelSize ≤ c ∨
      ((f.flip = true → f.height % f.tileHeight ≤ d) ∧
       (f.flip = false → d < f.height - f.height % f.tileHeight)))
    (b : Store) :
    ((loopE (bottomCol f) (stepCount (colBound f) f.tileWidth) 0
        (b, true)).1) (d * (f.width * f.pixelSize) + c) =
      b (d * (f.width * f.pixelSize) + c) := by
  have hwQ := Nat.div_add_mod f.width f.tileWidth
  have hcntC := stepCount_cols f htw htwle hcm
  refine loopE_no_write _ _ _ _ _ ?_
  intro i _ hi b2
  rw [hcntC] at hi
  have hib := mul_bound_of_lt i (f.width / f.tileWidth) f.tileWidth 0
    (f.tileWidth * (f.width / f.tileWidth)) (by omega) (by omega)
  have hsp : (i * f.tileWidth + f.tileWidth) * f.pixelSize ≤
      (f.width - f.width % f.tileWidth) * f.pixelSize :=
    Nat.mul_le_mul_right _ (by omega)
  have hspE : (i * f.tileWidth + f.tileWidth) * f.pixelSize =
      i * f.tileWidth * f.pixelSize + f.tileWidth * f.pixelSize := by ring
  apply bottomCol_no_write
  intro tile yy hyy b3
  unfold bottomYY
  rcases hmiss with h | h
  · rw [stripYY_miss b3 f.height f.width f.pixelSize
      (if f.flip = true then 0 else f.height - f.height % f.tileHeight)
      (if f.flip = true then f.height % f.tileHeight - yy - 1 else yy)
      (i * f.tileWidth) f.tileWidth _ _ d c hc (by omega)
      (Or.inr (Or.inr (by omega)))]
  · by_cases hfb : f.flip = true
    · rw [if_pos hfb, if_pos hfb]
      have hrow := h.1 hfb
      rw [stripYY_miss b3 f.height f.width f.pixelSize 0
        (f.height % f.tileHeight - yy - 1) (i * f.tileWidth) f.tileWidth _ _
        d c hc (by omega) (Or.inl (by omega))]
    · rw [if_neg hfb, if_neg hfb]
      have hrow := h.2 (Bool.eq_false_iff.mpr hfb)
      rw [stripYY_miss b3 f.height f.width f.pixelSize
        (f.height - f.height % f.tileHeight) yy (i * f.tileWidth)
        f.tileWidth _ _ d c hc (by omega) (Or.inl (by omega))]

/-- The right-edge pass leaves every cell outside its region unchanged. -/
theorem rightLoop_nw (f : TiledTiff) (hth : 0 < f.tileHeight)
    (hthle : f.tileHeight ≤ f.height) (hrm : f.height % f.tileHeight ≠ 0)
    (d c : Nat) (hc : c < f.width * f.pixelSize)
    (hmiss : c < (f.width - f.width % f.tileWidth) * f.pixelSize ∨
      ((f.flip = true → d < f.height % f.tileHeight) ∧
       (f.flip = false → f.height - f.height % f.tileHeight ≤ d)))
    (b : Store) :
    ((loopE (rightRow f) (stepCount (rowBound f) f.tileHeight) 0
        (b, true)).1) (d * (f.width * f.pixelSize) + c) =
      b (d * (f.width * f.pixelSize) + c) := by
  have hhM := Nat.div_add_mod f.height f.tileHeight
  have hleny : f.height % f.tileHeight < f.tileHeight := Nat.mod_lt _ hth
  have hleny0 : 0 < f.height % f.tileHeight := Nat.pos_of_ne_zero hrm
  have hlenxw : f.width % f.tileWidth ≤ f.width := Nat.mod_le _ _
  have hcntR := stepCount_rows f hth hthle hrm
  refine loopE_no_write _ _ _ _ _ ?_
  intro j _ hj b2
  rw [hcntR] at hj
  have hjb := mul_bound_of_lt j (f.height / f.tileHeight) f.tileHeight 0
    (f.tileHeight * (f.height / f.tileHeight)) (by omega) (by omega)
  apply rightRow_no_write
  intro tile yy hyy b3
  unfold rightYY
  rcases hmiss with h | h
  · rw [stripYY_miss b3 f.height f.width f.pixelSize (j * f.tileHeight)
      (if f.flip = true then f.tileHeight + f.height % f.tileHeight - yy - 1
       else yy)
      (f.width - f.width % f.tileWidth) (f.width % f.tileWidth) _ _
      d c hc (by omega) (Or.inr (Or.inl h))]
  · by_cases hfb : f.flip = true
    · rw [if_pos hfb]
      have hrow := h.1 hfb
      rw [stripYY_miss b3 f.height f.width f.pixelSize (j * f.tileHeight)
        (f.tileHeight + f.height % f.tileHeight - yy - 1)
        (f.width - f.width % f.tileWidth) (f.width % f.tileWidth) _ _
        d c hc (by omega) (Or.inl (by omega))]
    · rw [if_neg hfb]
      have hrow := h.2 (Bool.eq_false_iff.mpr hfb)
      rw [stripYY_miss b3 f.height f.width f.pixelSize (j * f.tileHeight) yy
        (f.width - f.width % f.tileWidth) (f.width % f.tileWidth) _ _
        d c hc (by omega) (Or.inl (by omega))]

/-- C1 amended: for a one-page tiled TIFF whose tile fits in the image
(tileWidth at most width, tileHeight at most height) and whose width and
height are both not exact multiples of the tile dimensions, ReadTiles
succeeds and fills the full output plane identically, pixel for pixel, to
the untiled scanline-based decode of the same pixel content, for either
orientation flip value.  (Without the tile-fits condition the claim fails:
see the counterexample, where the decode aborts on an out-of-range tile
read and leaves part of the plane unwritten.) -/
theorem readTiles_correct (f : TiledTiff)
    (hpages : f.pages = 1) (hps : 0 < f.pixelSize)
    (htw : 0 < f.tileWidth) (htwle : f.tileWidth ≤ f.width)
    (hth : 0 < f.tileHeight) (hthle : f.tileHeight ≤ f.height)
    (hcm : f.width % f.tileWidth ≠ 0) (hrm : f.height % f.tileHeight ≠ 0)
    (d c : Nat) (hd : d < f.height) (hc : c < f.width * f.pixelSize) :
    (readTiles f).2 = true ∧
    (readTiles f).1 (d * (f.width * f.pixelSize) + c) =
      some (scanlineReference f d c) := by
  have hlenx0 : 0 < f.width % f.tileWidth := Nat.pos_of_ne_zero hcm
  have hleny0 : 0 < f.height % f.tileHeight := Nat.pos_of_ne_zero hrm
  have hlenxw : f.width % f.tileWidth ≤ f.width := Nat.mod_le _ _
  have hlenyh : f.height % f.tileHeight ≤ f.height := Nat.mod_le _ _
  unfold readTiles
  dsimp only
  rw [if_neg hcm, if_neg hrm]
  rw [if_neg (show ¬ (f.width % f.tileWidth = 0 ∨
    f.height % f.tileHeight = 0) from fun hor => hor.elim hcm hrm)]
  rw [hpages]
  rw [show loopE (mainSlice f) 1 0 (emptyStore, true) =
    mainSlice f 0 emptyStore from rfl]
  have hflagM := mainSlice_flag f htw htwle hth hthle hcm hrm emptyStore
  rw [show andThenE (mainSlice f 0 emptyStore) (fun b =>
      loopE (rightRow f) (stepCount (rowBound f) f.tileHeight) 0 (b, true)) =
      loopE (rightRow f) (stepCount (rowBound f) f.tileHeight) 0
        ((mainSlice f 0 emptyStore).1, true) from by
    unfold andThenE
    rw [if_pos hflagM]]
  have hflagR := rightLoop_flag f htw hth hthle hcm hrm
    ((mainSlice f 0 emptyStore).1)
  rw [show andThenE (loopE (rightRow f)
      (stepCount (rowBound f) f.tileHeight) 0
      ((mainSlice f 0 emptyStore).1, true)) (fun b =>
      loopE (bottomCol f) (stepCount (colBound f) f.tileWidth) 0 (b, true)) =
      loopE (bottomCol f) (stepCount (colBound f) f.tileWidth) 0
        (((loopE (rightRow f) (stepCount (rowBound f) f.tileHeight) 0
          ((mainSlice f 0 emptyStore).1, true)).1), true) from by
    unfold andThenE
    rw [if_pos hflagR]]
  have hflagB := bottomLoop_flag f htw htwle hth hcm hrm
    ((loopE (rightRow f) (stepCount (rowBound f) f.tileHeight) 0
      ((mainSlice f 0 emptyStore).1, true)).1)
  rw [show andThenE (loopE (bottomCol f)
      (stepCount (colBound f) f.tileWidth) 0
      (((loopE (rightRow f) (stepCount (rowBound f) f.tileHeight) 0
        ((mainSlice f 0 emptyStore).1, true)).1), true)) (cornerPass f) =
      cornerPass f ((loopE (bottomCol f)
        (stepCount (colBound f) f.tileWidth) 0
        (((loopE (rightRow f) (stepCount (rowBound f) f.tileHeight) 0
          ((mainSlice f 0 emptyStore).1, true)).1), true)).1) from by
    unfold andThenE
    rw [if_pos hflagB]]
  constructor
  · exact cornerPass_flag f _ (by omega) (by omega)
  · by_cases hfl : f.flip = true
    · by_cases hdr : f.height % f.tileHeight ≤ d
      · by_cases hcl : c < (f.width - f.width % f.tileWidth) * f.pixelSize
        · rw [cornerPass_nw f d c hc (Or.inl hcl)]
          rw [bottomLoop_nw f htw htwle hcm d c hc (Or.inr
            ⟨fun _ => hdr,
             fun hff => absurd (hff ▸ hfl) Bool.false_ne_true⟩)]
          rw [rightLoop_nw f hth hthle hrm d c hc (Or.inl hcl)]
          exact main_pass_value f hps htw htwle hth hthle hcm hrm d c hd hcl
            (fun _ => hdr)
            (fun hff => absurd (hff ▸ hfl) Bool.false_ne_true) emptyStore
        · push_neg at hcl
          rw [cornerPass_nw f d c hc (Or.inr
            ⟨fun _ => hdr,
             fun hff => absurd (hff ▸ hfl) Bool.false_ne_true⟩)]
          rw [bottomLoop_nw f htw htwle hcm d c hc (Or.inl hcl)]
          exact right_pass_value f hps htw htwle hth hthle hcm hrm d c hd hcl
            hc (fun _ => hdr)
            (fun hff => absurd (hff ▸ hfl) Bool.false_ne_true) _
      · push_neg at hdr
        by_cases hcl : c < (f.width - f.width % f.tileWidth) * f.pixelSize
        · rw [cornerPass_nw f d c hc (Or.inl hcl)]
          exact bottom_pass_value f hps htw htwle hth hthle hcm hrm d c hd
            hcl (fun _ => hdr)
            (fun hff => absurd (hff ▸ hfl) Bool.false_ne_true) _
        · push_neg at hcl
          exact corner_pass_value f hps htw htwle hth hthle hcm hrm d c hd
            hcl hc (fun _ => hdr)
            (fun hff => absurd (hff ▸ hfl) Bool.false_ne_true) _
    · have hffl : f.flip = false := Bool.eq_false_iff.mpr hfl
      by_cases hdr : d < f.height - f.height % f.tileHeight
      · by_cases hcl : c < (f.width - f.width % f.tileWidth) * f.pixelSize
        · rw [cornerPass_nw f d c hc (Or.inl hcl)]
          rw [bottomLoop_nw f htw htwle hcm d c hc (Or.inr
            ⟨fun ht => absurd (hffl ▸ ht) Bool.false_ne_true,
             fun _ => hdr⟩)]
          rw [rightLoop_nw f hth hthle hrm d c hc (Or.inl hcl)]
          exact main_pass_value f hps htw htwle hth hthle hcm hrm d c hd hcl
            (fun ht => absurd (hffl ▸ ht) Bool.false_ne_true)
            (fun _ => hdr) emptyStore
        · push_neg at hcl
          rw [cornerPass_nw f d c hc (Or.inr
            ⟨fun ht => absurd (hffl ▸ ht) Bool.false_ne_true,
             fun _ => hdr⟩)]
          rw [bottomLoop_nw f htw htwle hcm d c hc (Or.inl hcl)]
          exact right_pass_value f hps htw htwle hth hthle hcm hrm d c hd hcl
            hc (fun ht => absurd (hffl ▸ ht) Bool.false_ne_true)
            (fun _ => hdr) _
      · push_neg at hdr
        by_cases hcl : c < (f.width - f.width % f.tileWidth) * f.pixelSize
        · rw [cornerPass_nw f d c hc (Or.inl hcl)]
          exact bottom_pass_value f hps htw htwle hth hthle hcm hrm d c hd
            hcl (fun ht => absurd (hffl ▸ ht) Bool.false_ne_true)
            (fun _ => hdr) _
        · push_neg at hcl
          exact corner_pass_value f hps htw htwle hth hthle hcm hrm d c hd
            hcl hc (fun ht => absurd (hffl ▸ ht) Bool.false_ne_true)
            (fun _ => hdr) _

theorem readTiles_correct_witness :
    (readTiles ⟨100, 100, 64, 64, 1, 1, false, fun r c2 => r * 1000 + c2⟩).2
      = true ∧
    (readTiles ⟨100, 100, 64, 64, 1, 1, false,
        fun r c2 => r * 1000 + c2⟩).1 (70 * (100 * 1) + 70) =
      some (scanlineReference
        ⟨100, 100, 64, 64, 1, 1, false, fun r c2 => r * 1000 + c2⟩ 70 70) :=
  readTiles_correct ⟨100, 100, 64, 64, 1, 1, false, fun r c2 => r * 1000 + c2⟩
    rfl (by decide) (by decide) (by decide) (by decide) (by decide)
    (by decide) (by decide) 70 70 (by decide) (by decide)

/-- C1 counterexample: width 32, height 100, tile 64 x 64, one page.  Both
dimensions are not exact multiples of the tile size, yet the decode does
not match any scanline reference: the main column loop bound
width - tileWidth underflows (unsigned), the second tile read at column 64
is out of range, TIFFReadTile fails, ReadTiles returns early, and the
output cell (93, 24) (flat index 3000) is never written. -/
theorem readTiles_small_counterexample :
    (readTiles ⟨32, 100, 64, 64, 1, 1, false, fun r c2 => r * 1000 + c2⟩).2
      = false ∧
    (readTiles ⟨32, 100, 64, 64, 1, 1, false,
        fun r c2 => r * 1000 + c2⟩).1 3000 = none := by
  refine ⟨by decide, by decide⟩

end Tomviz
